import Mathlib

/-!
# Mython: lexer, runtime and executor, embedded from `src/mython`

The definitions follow `lexer.cpp`, `runtime.cpp` and `statement.cpp` function by
function and keep their names.

Lexer.  The input stream is the list of characters not yet consumed; `peek` and `get` at
end of input correspond to the empty list.  Source characters are taken to be ASCII
(`isdigit` and `isalpha` are the "C" locale tests), so no source character collides with
the end-of-file sentinel.  The lexer has no `throw`: the only way a call does not return
is the loop of `ReadString` on an unterminated literal.

Executor.  An `ObjectHolder` is a `Value`; instances are referred to by identity and their
fields live in the `Context`, so that two holders of one instance share its fields.  The
three ways an `Execute` call can end (result, thrown `ObjectHolder`, thrown
`runtime_error`) are the three constructors of `Outcome`.

Every function that can loop or recurse without bound takes a fuel argument and returns
`none` when the fuel is used up.
-/

namespace Mython

/-- Tokens of `lexer.h` (`token_type`), valued ones first. Text is a list of characters. -/
inductive Token where
  | Number (value : Int)
  | Id (value : List Char)
  | Char (value : Char)
  | String (value : List Char)
  | Class | Return | If | Else | Def | Newline | Print | Indent | Dedent
  | And | Or | Not | Eq | NotEq | LessOrEq | GreaterOrEq | None | True | False | Eof
  deriving DecidableEq, Repr

/-- The members of `parse::Lexer`: the unread input and the four private fields. -/
structure Lexer where
  input_ : List Char
  current_token_ : Token
  line_indent_ : Int
  current_indent_ : Int
  is_line_start_ : Bool
  deriving DecidableEq, Repr

/-- The member initialisers of `parse::Lexer` that the source at hand does not show
(`lexer.h` is not part of it): the first value of `current_token_` and of
`is_line_start_`.  Every statement about the lexer is made for all of them. -/
structure Start where
  token : Token
  line_start : Bool
  deriving DecidableEq, Repr

/-- One possible choice of the initialisers: the default-constructed token variant (its
first alternative, `Number` with value 0) and the flag set. -/
def Start.sample : Start := { token := Token.Number 0, line_start := true }

/-- Modelled from the spec: `lexer.h` is missing, and with it the member initialisers.
The first `current_token_` and `is_line_start_` are the parameter `start`; both
indentation counters start at zero, as the spec's `current_indent` is the unit count
active in the emitted stream and nothing is emitted yet. -/
def Lexer.init (start : Start) (input : List Char) : Lexer :=
  { input_ := input, current_token_ := start.token, line_indent_ := 0,
    current_indent_ := 0, is_line_start_ := start.line_start }

/-- `Lexer::IsIndentChanged`: emits one `Indent` or `Dedent` when the line's indentation
differs from the current one and the last token allows it. -/
def IsIndentChanged (lx : Lexer) : Bool × Lexer :=
  if (lx.current_token_ = Token.Newline ∨ lx.current_token_ = Token.Indent)
      ∧ lx.line_indent_ > lx.current_indent_ then
    (true, { lx with current_indent_ := lx.current_indent_ + 1, current_token_ := Token.Indent })
  else if (lx.current_token_ = Token.Newline ∨ lx.current_token_ = Token.Dedent)
      ∧ lx.line_indent_ < lx.current_indent_ then
    (true, { lx with current_indent_ := lx.current_indent_ - 1, current_token_ := Token.Dedent })
  else (false, lx)

/-- `Lexer::ParseEnd`. -/
def ParseEnd (lx : Lexer) : Lexer :=
  if lx.current_token_ = Token.Eof then { lx with current_token_ := Token.Eof }
  else if lx.is_line_start_ = false ∧ lx.current_token_ ≠ Token.Newline then
    { lx with current_token_ := Token.Newline }
  else if lx.current_indent_ > 0 then
    { lx with current_indent_ := lx.current_indent_ - 1, line_indent_ := lx.current_indent_ - 1,
              current_token_ := Token.Dedent }
  else { lx with current_token_ := Token.Eof }

/-- `Lexer::SkipComment`: drops characters up to the newline, and the newline too when
the comment started the line. -/
def SkipComment (lx : Lexer) : Lexer :=
  match lx.input_.dropWhile (fun c => c ≠ '\n') with
  | [] => { lx with input_ := [] }
  | c :: rest => if lx.is_line_start_ then { lx with input_ := rest }
                 else { lx with input_ := c :: rest }

/-- The loop of `ReadNumber`: `result = result * 10 + digit` while a digit is next.
The source computes in `int`; overflow there is undefined and is not modelled. -/
def ReadNumberLoop : Int → List Char → Int × List Char
  | result, [] => (result, [])
  | result, c :: rest =>
    if c.isDigit then ReadNumberLoop (result * 10 + ((c.toNat : Int) - ('0'.toNat : Int))) rest
    else (result, c :: rest)

/-- `ReadNumber`. -/
def ReadNumber (input : List Char) : Token × List Char :=
  let r := ReadNumberLoop 0 input
  (Token.Number r.1, r.2)

/-- The loop of `ReadId`: letters, digits and underscores. -/
def ReadIdLoop : List Char → List Char → List Char × List Char
  | str, [] => (str, [])
  | str, c :: rest =>
    if c = '_' ∨ c.isAlpha ∨ c.isDigit then ReadIdLoop (str ++ [c]) rest
    else (str, c :: rest)

/-- `ReadId`. -/
def ReadId (input : List Char) : List Char × List Char :=
  ReadIdLoop [] input

/-- The `while (c != string_end)` loop of `ReadString`, one iteration per unit of fuel.
`c` and `string_end` are `char` variables: `none` stands for the end-of-file value that
`input.get()` leaves in a `char`.  A failed `input.get(c)` leaves `c` unchanged and its
result is ignored (the `throw` is commented out), so the loop goes on. -/
def ReadStringLoop : Nat → Option Char → Option Char → List Char → List Char →
    Option (List Char × List Char)
  | 0, _, _, _, _ => none
  | fuel + 1, string_end, c, str, input =>
    if c = string_end then some (str, input)
    else
      let body : Option Char × List Char × List Char :=
        if c ≠ some '\\' then (c, str ++ [c.getD (Char.ofNat 255)], input)
        else
          let c1 := input.head?
          let str1 :=
            if c1 = some 'n' then str ++ ['\n']
            else if c1 = some '"' then str ++ ['"']
            else if c1 = some '\'' then str ++ ['\'']
            else if c1 = some 't' then str ++ ['\t']
            else if c1 = some '\\' then str ++ ['\\']
            else str
          (c1, str1, input.tail)
      match body.2.2 with
      | [] => ReadStringLoop fuel string_end body.1 body.2.1 []
      | x :: rest => ReadStringLoop fuel string_end (some x) body.2.1 rest

/-- `ReadString`: the opening quote, the first character, then the loop. -/
def ReadString (fuel : Nat) (input : List Char) : Option (List Char × List Char) :=
  ReadStringLoop fuel input.head? input.tail.head? [] input.tail.tail

/-- `Lexer::ParseNumber`. -/
def ParseNumber (lx : Lexer) : Lexer :=
  let r := ReadNumber lx.input_
  { lx with current_token_ := r.1, input_ := r.2 }

/-- `Lexer::ParseString`; `none` when `ReadString` does not return within the fuel. -/
def ParseString (fuel : Nat) (lx : Lexer) : Option Lexer :=
  (ReadString fuel lx.input_).map fun r =>
    { lx with current_token_ := Token.String r.1, input_ := r.2 }

/-- The keyword table of `Lexer::ParseName`. -/
def keywordToken (str : List Char) : Token :=
  if str = ['c', 'l', 'a', 's', 's'] then Token.Class
  else if str = ['r', 'e', 't', 'u', 'r', 'n'] then Token.Return
  else if str = ['i', 'f'] then Token.If
  else if str = ['e', 'l', 's', 'e'] then Token.Else
  else if str = ['d', 'e', 'f'] then Token.Def
  else if str = ['p', 'r', 'i', 'n', 't'] then Token.Print
  else if str = ['a', 'n', 'd'] then Token.And
  else if str = ['o', 'r'] then Token.Or
  else if str = ['n', 'o', 't'] then Token.Not
  else if str = ['N', 'o', 'n', 'e'] then Token.None
  else if str = ['T', 'r', 'u', 'e'] then Token.True
  else if str = ['F', 'a', 'l', 's', 'e'] then Token.False
  else Token.Id str

/-- `Lexer::ParseName`: an indentation token if one is due, otherwise the name. -/
def ParseName (lx : Lexer) : Lexer :=
  let r := IsIndentChanged lx
  if r.1 then r.2
  else
    let id := ReadId r.2.input_
    { r.2 with current_token_ := keywordToken id.1, input_ := id.2 }

/-- `Lexer::ParseChar`: the four two-character comparison operators, else a `Char`. -/
def ParseChar (lx : Lexer) : Lexer :=
  let ch := lx.input_.head?
  let rest := lx.input_.tail
  if ch = some '=' ∧ rest.head? = some '=' then
    { lx with current_token_ := Token.Eq, input_ := rest.tail }
  else if ch = some '!' ∧ rest.head? = some '=' then
    { lx with current_token_ := Token.NotEq, input_ := rest.tail }
  else if ch = some '<' ∧ rest.head? = some '=' then
    { lx with current_token_ := Token.LessOrEq, input_ := rest.tail }
  else if ch = some '>' ∧ rest.head? = some '=' then
    { lx with current_token_ := Token.GreaterOrEq, input_ := rest.tail }
  else { lx with current_token_ := Token.Char (ch.getD (Char.ofNat 255)), input_ := rest }

/-- `Lexer::ParseToken`: a content token; only `ParseName` looks at the indentation. -/
def ParseToken (fuel : Nat) (lx : Lexer) : Option Lexer :=
  let lx1 := { lx with is_line_start_ := false }
  match lx1.input_.head? with
  | some c =>
    if c.isDigit then some (ParseNumber lx1)
    else if c = '"' ∨ c = '\'' then ParseString fuel lx1
    else if c.isAlpha ∨ c = '_' then some (ParseName lx1)
    else some (ParseChar lx1)
  | none => some (ParseChar lx1)

/-- `Lexer::ParseLineEnd`; `next` is the recursive call of `ParseNextToken`. -/
def ParseLineEnd (next : Lexer → Option Lexer) (lx : Lexer) : Option Lexer :=
  let lx1 := { lx with line_indent_ := 0, is_line_start_ := true, input_ := lx.input_.tail }
  if lx1.current_token_ ≠ Token.Newline then some { lx1 with current_token_ := Token.Newline }
  else next lx1

/-- `Lexer::ParseSpaces`; `next` is the recursive call of `ParseNextToken`. -/
def ParseSpaces (next : Lexer → Option Lexer) (lx : Lexer) : Option Lexer :=
  let spaces_count : Int := (lx.input_.takeWhile (fun c => c = ' ')).length
  let lx1 := { lx with input_ := lx.input_.dropWhile (fun c => c = ' ') }
  match lx1.input_.head? with
  | some c =>
    if c = '#' then next (SkipComment lx1)
    else if c = '\n' then ParseLineEnd next lx1
    else if lx1.is_line_start_ then
      let r := IsIndentChanged { lx1 with line_indent_ := spaces_count / 2 }
      if r.1 then some r.2 else next r.2
    else next lx1
  | none => some (ParseEnd lx1)

/-- `Lexer::ParseNextToken`.  Each recursive call is made after at least one character
has been consumed; the fuel bounds the recursion and the loop of `ReadString`. -/
def ParseNextToken : Nat → Lexer → Option Lexer
  | 0, _ => none
  | fuel + 1, lx =>
    match lx.input_.head? with
    | none => some (ParseEnd lx)
    | some c =>
      if c = '\n' then ParseLineEnd (fun l => ParseNextToken fuel l) lx
      else if c = ' ' then ParseSpaces (fun l => ParseNextToken fuel l) lx
      else if c = '#' then ParseNextToken fuel (SkipComment lx)
      else ParseToken fuel lx

/-- The loop of the constructor: skip `Newline` tokens. -/
def skipNewlines : Nat → Lexer → Option Lexer
  | 0, _ => none
  | fuel + 1, lx =>
    if lx.current_token_ = Token.Newline then (ParseNextToken fuel lx).bind (skipNewlines fuel)
    else some lx

/-- `Lexer::Lexer`: read the first token, then skip leading `Newline`s. -/
def Lexer.new (start : Start) (fuel : Nat) (input : List Char) : Option Lexer :=
  (ParseNextToken fuel (Lexer.init start input)).bind (skipNewlines fuel)

/-- `Lexer::CurrentToken`. -/
def Lexer.CurrentToken (lx : Lexer) : Token := lx.current_token_

/-- `Lexer::NextToken`: the lexer after the call; the returned token is its current token. -/
def Lexer.NextToken (fuel : Nat) (lx : Lexer) : Option Lexer := ParseNextToken fuel lx

/-- The tokens from `CurrentToken` on, followed by the results of `NextToken`, up to and
including the first `Eof`; also the lexer that returned that `Eof`. -/
def tokensFrom : Nat → Lexer → Option (List Token × Lexer)
  | 0, _ => none
  | fuel + 1, lx =>
    if lx.CurrentToken = Token.Eof then some ([Token.Eof], lx)
    else (lx.NextToken fuel).bind fun lx1 =>
      (tokensFrom fuel lx1).map fun r => (lx.CurrentToken :: r.1, r.2)

/-- The token sequence of a source: construction, then `NextToken` up to the first `Eof`. -/
def tokenize (start : Start) (fuel : Nat) (input : List Char) : Option (List Token) :=
  ((Lexer.new start fuel input).bind (tokensFrom fuel)).map (fun r => r.1)

/-- Change of the open-block count that a token stands for. -/
def indentDelta : Token → Int
  | Token.Indent => 1
  | Token.Dedent => -1
  | _ => 0

/-- Both indentation counters are non-negative. -/
def Lexer.IndentOk (lx : Lexer) : Prop :=
  0 ≤ lx.line_indent_ ∧ 0 ≤ lx.current_indent_

/-- What one call of `ParseNextToken` guarantees about the indentation state. -/
def StepOk (lx lx1 : Lexer) : Prop :=
  (lx.IndentOk → lx1.IndentOk) ∧
  lx1.current_indent_ = lx.current_indent_ + indentDelta lx1.current_token_ ∧
  (lx1.current_token_ = Token.Eof →
    lx1.input_ = [] ∧ (lx.current_token_ = Token.Eof ∨ lx1.current_indent_ ≤ 0))

/-- A token that is neither an indentation token nor `Eof`. -/
def Token.Plain (t : Token) : Prop := indentDelta t = 0 ∧ t ≠ Token.Eof

/-- The second lexer has the token and the open-block count of the first. -/
def SameTok (lx lx1 : Lexer) : Prop :=
  lx1.current_token_ = lx.current_token_ ∧ lx1.current_indent_ = lx.current_indent_ ∧
  (lx.IndentOk → lx1.IndentOk)

/-- Sum of the indentation changes of a token list. -/
def sumDelta : List Token → Int
  | [] => 0
  | t :: ts => indentDelta t + sumDelta ts

/-- State reached by the constructor: counters non-negative, the open-block count is what
the current token contributes, and it is zero if that token is `Eof`. -/
def Lexer.Fresh (lx : Lexer) : Prop :=
  lx.IndentOk ∧ lx.current_indent_ = indentDelta lx.current_token_ ∧
  (lx.current_token_ = Token.Eof → lx.input_ = [] ∧ lx.current_indent_ ≤ 0)

/-- The two string delimiters that `ParseToken` sends to `ReadString`. -/
def IsQuote (q : Char) : Prop := q = '"' ∨ q = '\''

/-- A character that is none of the five recognised escape characters. -/
def OtherEscape (c : Char) : Prop :=
  c ≠ 'n' ∧ c ≠ 't' ∧ c ≠ '\\' ∧ c ≠ '"' ∧ c ≠ '\''

instance (q : Char) : Decidable (IsQuote q) := by
  unfold IsQuote
  infer_instance

instance (c : Char) : Decidable (OtherEscape c) := by
  unfold OtherEscape
  infer_instance

/-- No string delimiter occurs in the text. -/
def NoQuote (l : List Char) : Prop := ∀ c ∈ l, c ≠ '"' ∧ c ≠ '\''

/-- A bound on the calls of `ParseNextToken` still needed to reach `Eof`: it counts the
unread characters, the open blocks, the blocks still to open on this line, and a pending
`Newline` at end of input. -/
def Lexer.potential (lx : Lexer) : Nat :=
  4 * lx.input_.length + 2 * lx.current_indent_.toNat +
    4 * (lx.line_indent_ - lx.current_indent_).toNat +
    (if lx.is_line_start_ = false ∧ lx.current_token_ ≠ Token.Newline then 1 else 0)

/-- One call of `ParseNextToken` only consumes input, and unless it returns `Eof` it
lowers the potential. -/
def Progress (lx lx1 : Lexer) : Prop :=
  lx1.input_ <:+ lx.input_ ∧
  (lx.IndentOk → lx1.current_token_ ≠ Token.Eof → lx1.potential < lx.potential)

/-- A state inside a call: same token and open-block count, input consumed, potential not
raised. -/
def Within (lx lx1 : Lexer) : Prop :=
  lx1.input_ <:+ lx.input_ ∧ (lx.IndentOk → lx1.IndentOk ∧ lx1.potential ≤ lx.potential)

/-- The second lexer differs from the first at most in `is_line_start_`. -/
def SameBut (lx lx1 : Lexer) : Prop :=
  lx1.input_ = lx.input_ ∧ lx1.current_token_ = lx.current_token_ ∧
  lx1.current_indent_ = lx.current_indent_ ∧ lx1.line_indent_ = lx.line_indent_

/-- The six comparators of `runtime.cpp` that a `Comparison` node can hold. -/
inductive Comparator where
  | Equal | NotEqual | Less | Greater | LessOrEqual | GreaterOrEqual
  deriving DecidableEq, Repr

mutual
/-- Nodes of the syntax tree (`statement.cpp`).  A `FieldAssignment` holds its object as
the two members of a `VariableValue`; a `NewInstance` holds the identity of the
`ClassInstance` member it owns together with that instance's class.  `Const` stands for
the literal nodes declared in `statement.h`, whose `Execute` returns the value they hold. -/
inductive Statement where
  | Const (value : Value)
  | Assignment (var_ : String) (rv_ : Statement)
  | VariableValue (var_name_ : String) (dotted_ids_ : List String)
  | Print (args_ : List Statement)
  | MethodCall (object_ : Statement) (method_ : String) (args_ : List Statement)
  | Stringify (argument_ : Statement)
  | Add (lhs_ rhs_ : Statement)
  | Sub (lhs_ rhs_ : Statement)
  | Mult (lhs_ rhs_ : Statement)
  | Div (lhs_ rhs_ : Statement)
  | Compound (args_ : List Statement)
  | Return (statement_ : Statement)
  | ClassDefinition (cls_ : Class)
  | FieldAssignment (object_var_name_ : String) (object_dotted_ids_ : List String)
      (field_name_ : String) (rv_ : Statement)
  | IfElse (condition_ if_body_ : Statement) (else_body_ : Option Statement)
  | Or (lhs_ rhs_ : Statement)
  | And (lhs_ rhs_ : Statement)
  | Not (argument_ : Statement)
  | Comparison (cmp_ : Comparator) (lhs_ rhs_ : Statement)
  | NewInstance (class_instance_ : Nat) (cls_ : Class) (args_ : List Statement)
  | MethodBody (body_ : Statement)
/-- `runtime::Class`: name, methods in definition order, optional parent. -/
inductive Class where
  | mk (name_ : String) (methods_ : List Method) (parent_ : Option Class)
/-- `runtime::Method`. -/
inductive Method where
  | mk (name : String) (formal_params : List String) (body : Statement)
/-- What an `ObjectHolder` refers to: nothing (`None`), a value object, a class, or the
`ClassInstance` object with the given identity (its class is fixed at construction). -/
inductive Value where
  | None
  | Number (value : Int)
  | String (value : String)
  | Bool (value : Bool)
  | Class (cls : Class)
  | ClassInstance (id : Nat) (cls : Class)
end

/-- `runtime::Closure`: a map from names to object holders. -/
abbrev Closure := String → Option Value

/-- The empty closure. -/
def Closure.empty : Closure := fun _ => none

/-- `closure[name] = value`. -/
def Closure.set (closure : Closure) (name : String) (value : Value) : Closure :=
  fun k => if k = name then some value else closure k

/-- What execution can change outside the closure it is given: the text written to the
output stream of the `Context`, and the field closure of every `ClassInstance` object. -/
structure Context where
  output : String
  fields : Nat → Closure

/-- Behaviour that C++ leaves to the implementation: the text that `os << this` writes
for an instance, and whether the two operands in the call `cmp_(lhs, rhs, context)` of
`Comparison::Execute` are evaluated right operand first. -/
structure Impl where
  address : Nat → String
  cmpRightFirst : Bool

/-- Ways an `Execute` or runtime call can end: a result, a thrown `ObjectHolder` (from
`Return`), or a thrown `runtime_error` (a failed assertion is listed with these). -/
inductive Outcome (α : Type) where
  | ok (a : α)
  | returned (v : Value)
  | error (msg : String)

/-- Result of `Execute`: how it ended, and the closure and context it left. -/
abbrev ExecResult := Outcome Value × Closure × Context

/-- The recursive call of `Execute` handed to the helpers below. -/
abbrev Exec := Statement → Closure → Context → Option ExecResult

/-- Name of a class (`Class::GetName`). -/
def Class.GetName : Class → String
  | Class.mk name_ _ _ => name_

/-- Methods of a class in definition order. -/
def Class.methods : Class → List Method
  | Class.mk _ methods_ _ => methods_

/-- Parent of a class, if any. -/
def Class.parent : Class → Option Class
  | Class.mk _ _ parent_ => parent_

/-- Name of a method. -/
def Method.name : Method → String
  | Method.mk name _ _ => name

/-- Formal parameters of a method. -/
def Method.formal_params : Method → List String
  | Method.mk _ formal_params _ => formal_params

/-- Body of a method. -/
def Method.body : Method → Statement
  | Method.mk _ _ body => body

/-- `Class::GetMethod`: the first method with that name in the class, else in its parent. -/
def Class.GetMethod : Class → String → Option Method
  | Class.mk _ methods_ parent_, name =>
    match methods_.find? (fun mtd => mtd.name = name) with
    | some mtd => some mtd
    | none =>
      match parent_ with
      | some p => p.GetMethod name
      | none => none

/-- `ClassInstance::HasMethod`. -/
def HasMethod (cls : Class) (method : String) (argument_count : Nat) : Bool :=
  match cls.GetMethod method with
  | some mtd => mtd.formal_params.length = argument_count
  | none => false

/-- `runtime::IsTrue`. -/
def IsTrue : Value → Bool
  | Value.Number value => value ≠ 0
  | Value.Bool value => value
  | Value.String value => value ≠ ""
  | _ => false

/-- The loop of `ClassInstance::Call` that binds each formal parameter to the argument at
the same index; `actual_args.at` throws `out_of_range` past the end. -/
def bindParams : List String → List Value → Closure → Outcome Closure
  | [], _, closure => Outcome.ok closure
  | _ :: _, [], _ => Outcome.error "out_of_range"
  | param :: params, arg :: args, closure => bindParams params args (closure.set param arg)

/-- `ClassInstance::Call` on the instance `id` of class `cls`. -/
def Call (ex : Exec) (id : Nat) (cls : Class) (method : String) (actual_args : List Value)
    (context : Context) : Option (Outcome Value × Context) :=
  if HasMethod cls method actual_args.length = false then
    some (Outcome.error ("Class " ++ cls.GetName ++ " don't have method " ++ method ++
      " with " ++ toString actual_args.length ++ " argemets."), context)
  else
    match cls.GetMethod method with
    | none => some (Outcome.error "null method", context)
    | some mtd =>
      match bindParams mtd.formal_params actual_args
          (Closure.empty.set "self" (Value.ClassInstance id cls)) with
      | Outcome.ok closure =>
        (ex mtd.body closure context).map fun r => (r.1, r.2.2)
      | Outcome.returned v => some (Outcome.returned v, context)
      | Outcome.error msg => some (Outcome.error msg, context)

/-- `Object::Print` for every kind of object: the text sent to `os` and the context after
the calls of `__str__` that were needed.  An instance without `__str__` prints its
address; the result of `__str__` must be a non-empty holder (`operator->` asserts it). -/
def PrintObject (impl : Impl) (ex : Exec) : Nat → Value → Context →
    Option (Outcome String × Context)
  | 0, _, _ => none
  | fuel + 1, object, context =>
    match object with
    | Value.None => some (Outcome.error "assertion failed: data_ != nullptr", context)
    | Value.Number value => some (Outcome.ok (toString value), context)
    | Value.String value => some (Outcome.ok value, context)
    | Value.Bool value => some (Outcome.ok (if value then "True" else "False"), context)
    | Value.Class cls => some (Outcome.ok ("Class " ++ cls.GetName), context)
    | Value.ClassInstance id cls =>
      if HasMethod cls "__str__" 0 then
        match Call ex id cls "__str__" [] context with
        | none => none
        | some (Outcome.ok v, context1) => PrintObject impl ex fuel v context1
        | some (Outcome.returned v, context1) => some (Outcome.returned v, context1)
        | some (Outcome.error msg, context1) => some (Outcome.error msg, context1)
      else some (Outcome.ok (impl.address id), context)

/-- The two function objects passed to `Compare`: `equal_to` and `less`. -/
inductive Comp where
  | equal_to | less
  deriving DecidableEq, Repr

/-- `Compare`: two `Bool`s, two `String`s or two `Number`s, else a `runtime_error`. -/
def Compare (lhs rhs : Value) (comp : Comp) : Outcome Bool :=
  match lhs, rhs with
  | Value.Bool a, Value.Bool b =>
    Outcome.ok (match comp with | Comp.equal_to => a = b | Comp.less => a < b)
  | Value.String a, Value.String b =>
    Outcome.ok (match comp with | Comp.equal_to => a = b | Comp.less => a < b)
  | Value.Number a, Value.Number b =>
    Outcome.ok (match comp with | Comp.equal_to => a = b | Comp.less => a < b)
  | _, _ => Outcome.error "Wrong types to compare"

/-- `IsTrue` applied to the result of a dunder call. -/
def truthOfCall (r : Option (Outcome Value × Context)) : Option (Outcome Bool × Context) :=
  r.map fun p =>
    match p.1 with
    | Outcome.ok v => (Outcome.ok (IsTrue v), p.2)
    | Outcome.returned v => (Outcome.returned v, p.2)
    | Outcome.error msg => (Outcome.error msg, p.2)

/-- `runtime::Equal`. -/
def Equal (ex : Exec) (lhs rhs : Value) (context : Context) : Option (Outcome Bool × Context) :=
  match lhs, rhs with
  | Value.ClassInstance id cls, _ => truthOfCall (Call ex id cls "__eq__" [rhs] context)
  | Value.None, Value.None => some (Outcome.ok true, context)
  | _, _ => some (Compare lhs rhs Comp.equal_to, context)

/-- `runtime::Less`. -/
def Less (ex : Exec) (lhs rhs : Value) (context : Context) : Option (Outcome Bool × Context) :=
  match lhs with
  | Value.ClassInstance id cls => truthOfCall (Call ex id cls "__lt__" [rhs] context)
  | _ => some (Compare lhs rhs Comp.less, context)

/-- Negation of a comparator result (`!f(lhs, rhs, context)`). -/
def negate (r : Option (Outcome Bool × Context)) : Option (Outcome Bool × Context) :=
  r.map fun p =>
    match p.1 with
    | Outcome.ok b => (Outcome.ok (!b), p.2)
    | Outcome.returned v => (Outcome.returned v, p.2)
    | Outcome.error msg => (Outcome.error msg, p.2)

/-- `runtime::NotEqual`. -/
def NotEqual (ex : Exec) (lhs rhs : Value) (context : Context) :
    Option (Outcome Bool × Context) :=
  negate (Equal ex lhs rhs context)

/-- `runtime::Greater`: `!(Less || Equal)`, where `Equal` runs only if `Less` is false. -/
def Greater (ex : Exec) (lhs rhs : Value) (context : Context) :
    Option (Outcome Bool × Context) :=
  match Less ex lhs rhs context with
  | none => none
  | some (Outcome.ok true, context1) => some (Outcome.ok false, context1)
  | some (Outcome.ok false, context1) => negate (Equal ex lhs rhs context1)
  | some (Outcome.returned v, context1) => some (Outcome.returned v, context1)
  | some (Outcome.error msg, context1) => some (Outcome.error msg, context1)

/-- `runtime::LessOrEqual`. -/
def LessOrEqual (ex : Exec) (lhs rhs : Value) (context : Context) :
    Option (Outcome Bool × Context) :=
  negate (Greater ex lhs rhs context)

/-- `runtime::GreaterOrEqual`. -/
def GreaterOrEqual (ex : Exec) (lhs rhs : Value) (context : Context) :
    Option (Outcome Bool × Context) :=
  negate (Less ex lhs rhs context)

/-- The comparator a `Comparison` node holds, applied. -/
def applyComparator (cmp : Comparator) (ex : Exec) (lhs rhs : Value) (context : Context) :
    Option (Outcome Bool × Context) :=
  match cmp with
  | Comparator.Equal => Equal ex lhs rhs context
  | Comparator.NotEqual => NotEqual ex lhs rhs context
  | Comparator.Less => Less ex lhs rhs context
  | Comparator.Greater => Greater ex lhs rhs context
  | Comparator.LessOrEqual => LessOrEqual ex lhs rhs context
  | Comparator.GreaterOrEqual => GreaterOrEqual ex lhs rhs context

/-- Run `k` on the result of a step that ended normally; a thrown value or error of the
step is passed on with the closure and context the step left. -/
def andThen {α β : Type} (r : Option (Outcome α × Closure × Context))
    (k : α → Closure → Context → Option (Outcome β × Closure × Context)) :
    Option (Outcome β × Closure × Context) :=
  match r with
  | none => none
  | some (Outcome.ok a, closure, context) => k a closure context
  | some (Outcome.returned v, closure, context) => some (Outcome.returned v, closure, context)
  | some (Outcome.error msg, closure, context) => some (Outcome.error msg, closure, context)

/-- A runtime call does not touch the caller's closure. -/
def withClosure {α : Type} (closure : Closure) (r : Option (Outcome α × Context)) :
    Option (Outcome α × Closure × Context) :=
  r.map fun p => (p.1, closure, p.2)

/-- `os << text` on the output stream of the context. -/
def Context.write (context : Context) (text : String) : Context :=
  { context with output := context.output ++ text }

/-- `instance.Fields()[field_name] = value` for the instance `id`. -/
def Context.setField (context : Context) (id : Nat) (field_name : String) (value : Value) :
    Context :=
  { context with fields := fun k =>
      if k = id then (context.fields id).set field_name value else context.fields k }

/-- `VariableValue::Execute`: look the name up, then follow the dotted names through the
fields of instances. -/
def VariableValueExecute (fields : Nat → Closure) :
    Closure → String → List String → Outcome Value
  | closure, var_name_, dotted_ids_ =>
    match closure var_name_ with
    | some result =>
      match dotted_ids_ with
      | [] => Outcome.ok result
      | first :: rest =>
        match result with
        | Value.ClassInstance id _ => VariableValueExecute fields (fields id) first rest
        | _ => Outcome.error ("Variable " ++ var_name_ ++ " is not a class")
    | none => Outcome.error ("Variable " ++ var_name_ ++ " not found")

/-- The loops `for (auto& arg : args_) actual_args.push_back(arg->Execute(...))`. -/
def EvalArgs (ex : Exec) : List Statement → Closure → Context →
    Option (Outcome (List Value) × Closure × Context)
  | [], closure, context => some (Outcome.ok [], closure, context)
  | arg :: rest, closure, context =>
    andThen (ex arg closure context) fun v closure1 context1 =>
      andThen (EvalArgs ex rest closure1 context1) fun vs closure2 context2 =>
        some (Outcome.ok (v :: vs), closure2, context2)

/-- The loop of `Compound::Execute`; the results of the children are dropped. -/
def ExecAll (ex : Exec) : List Statement → Closure → Context → Option ExecResult
  | [], closure, context => some (Outcome.ok Value.None, closure, context)
  | arg :: rest, closure, context =>
    andThen (ex arg closure context) fun _ closure1 context1 => ExecAll ex rest closure1 context1

/-- The loop of `Print::Execute` and its final newline; `first` is the local flag. -/
def PrintArgs (impl : Impl) (ex : Exec) (fuel : Nat) :
    Bool → List Statement → Closure → Context → Option ExecResult
  | _, [], closure, context => some (Outcome.ok Value.None, closure, context.write "\n")
  | first, arg :: rest, closure, context =>
    andThen (ex arg closure (if first then context else context.write " "))
      fun obj closure1 context1 =>
        match obj with
        | Value.None => PrintArgs impl ex fuel false rest closure1 (context1.write "None")
        | _ =>
          andThen (withClosure closure1 (PrintObject impl ex fuel obj context1))
            fun text closure2 context2 =>
              PrintArgs impl ex fuel false rest closure2 (context2.write text)

/-- Both operands of a binary operation, left operand first. -/
def EvalBoth (ex : Exec) (lhs_ rhs_ : Statement) (closure : Closure) (context : Context) :
    Option (Outcome (Value × Value) × Closure × Context) :=
  andThen (ex lhs_ closure context) fun a closure1 context1 =>
    andThen (ex rhs_ closure1 context1) fun b closure2 context2 =>
      some (Outcome.ok (a, b), closure2, context2)

/-- Both operands of a `Comparison`, in the order the implementation chose. -/
def EvalBothCmp (impl : Impl) (ex : Exec) (lhs_ rhs_ : Statement) (closure : Closure)
    (context : Context) : Option (Outcome (Value × Value) × Closure × Context) :=
  if impl.cmpRightFirst then
    andThen (ex rhs_ closure context) fun b closure1 context1 =>
      andThen (ex lhs_ closure1 context1) fun a closure2 context2 =>
        some (Outcome.ok (a, b), closure2, context2)
  else EvalBoth ex lhs_ rhs_ closure context

/-- The smallest value of the C++ type `int` (32 bits wide). -/
def INT_MIN : Int := -2147483648

/-- The largest value of the C++ type `int`. -/
def INT_MAX : Int := 2147483647

/-- The value an `int` operation leaves for the exact result `x`: `x` itself when it is
an `int`, and otherwise `x` reduced modulo 2^32 into the range of `int` (signed overflow
is undefined in C++; the built program wraps around). -/
def wrapInt (x : Int) : Int := (x + 2147483648) % 4294967296 - 2147483648

/-- The exact result `x` is a value of the type `int`. -/
def IsInt (x : Int) : Prop := INT_MIN ≤ x ∧ x ≤ INT_MAX

instance (x : Int) : Decidable (IsInt x) := by
  unfold IsInt
  infer_instance

/-- How the division ends when the quotient is not an `int` (the smallest `int` divided
by -1): undefined in C++, and in the built program the division instruction traps and
the process is killed; no exception is thrown and no value is returned. -/
def divisionTrap : String := "trap: the quotient is not an int"

/-- The `Execute` method of every node.  The fuel bounds the depth of nested `Execute`
calls; `none` means the fuel did not suffice.  Arithmetic is the one of `int`: a sum,
difference or product is `wrapInt` of the exact result, `/` truncates toward zero, and
the one quotient that is not an `int` ends in `divisionTrap`, listed with the errors.  In
`Assignment` and `FieldAssignment` the right-hand side is evaluated before the map entry
is created (C++17). -/
def Execute (impl : Impl) : Nat → Statement → Closure → Context → Option ExecResult
  | 0, _, _, _ => none
  | fuel + 1, stmt, closure, context =>
    let ex : Exec := fun s c x => Execute impl fuel s c x
    match stmt with
    | Statement.Const value => some (Outcome.ok value, closure, context)
    | Statement.Assignment var_ rv_ =>
      andThen (ex rv_ closure context) fun v closure1 context1 =>
        some (Outcome.ok v, closure1.set var_ v, context1)
    | Statement.VariableValue var_name_ dotted_ids_ =>
      some (VariableValueExecute context.fields closure var_name_ dotted_ids_, closure, context)
    | Statement.Print args_ => PrintArgs impl ex fuel true args_ closure context
    | Statement.MethodCall object_ method_ args_ =>
      andThen (ex object_ closure context) fun obj closure1 context1 =>
        match obj with
        | Value.ClassInstance id cls =>
          andThen (EvalArgs ex args_ closure1 context1) fun actual_args closure2 context2 =>
            withClosure closure2 (Call ex id cls method_ actual_args context2)
        | _ => some (Outcome.error "Object is not a class", closure1, context1)
    | Statement.Stringify argument_ =>
      andThen (ex argument_ closure context) fun obj closure1 context1 =>
        match obj with
        | Value.None => some (Outcome.ok (Value.String "None"), closure1, context1)
        | _ =>
          andThen (withClosure closure1 (PrintObject impl ex fuel obj context1))
            fun text closure2 context2 => some (Outcome.ok (Value.String text), closure2, context2)
    | Statement.Add lhs_ rhs_ =>
      andThen (EvalBoth ex lhs_ rhs_ closure context) fun p closure1 context1 =>
        match p.1, p.2 with
        | Value.Number a, Value.Number b => some (Outcome.ok (Value.Number (wrapInt (a + b))), closure1, context1)
        | Value.String a, Value.String b => some (Outcome.ok (Value.String (a ++ b)), closure1, context1)
        | Value.ClassInstance id cls, rhs =>
          withClosure closure1 (Call ex id cls "__add__" [rhs] context1)
        | _, _ => some (Outcome.error "Add error", closure1, context1)
    | Statement.Sub lhs_ rhs_ =>
      andThen (EvalBoth ex lhs_ rhs_ closure context) fun p closure1 context1 =>
        match p.1, p.2 with
        | Value.Number a, Value.Number b => some (Outcome.ok (Value.Number (wrapInt (a - b))), closure1, context1)
        | _, _ => some (Outcome.error "Subtract error", closure1, context1)
    | Statement.Mult lhs_ rhs_ =>
      andThen (EvalBoth ex lhs_ rhs_ closure context) fun p closure1 context1 =>
        match p.1, p.2 with
        | Value.Number a, Value.Number b => some (Outcome.ok (Value.Number (wrapInt (a * b))), closure1, context1)
        | _, _ => some (Outcome.error "Multiply error", closure1, context1)
    | Statement.Div lhs_ rhs_ =>
      andThen (EvalBoth ex lhs_ rhs_ closure context) fun p closure1 context1 =>
        match p.1, p.2 with
        | lhs, Value.Number b =>
          if b = 0 then some (Outcome.error "Divison by zero", closure1, context1)
          else
            match lhs with
            | Value.Number a =>
              if a = INT_MIN ∧ b = -1 then some (Outcome.error divisionTrap, closure1, context1)
              else some (Outcome.ok (Value.Number (Int.tdiv a b)), closure1, context1)
            | _ => some (Outcome.error "Divison error", closure1, context1)
        | _, _ => some (Outcome.error "Divison error", closure1, context1)
    | Statement.Compound args_ => ExecAll ex args_ closure context
    | Statement.Return statement_ =>
      andThen (ex statement_ closure context) fun v closure1 context1 =>
        some (Outcome.returned v, closure1, context1)
    | Statement.ClassDefinition cls_ =>
      some (Outcome.ok Value.None, closure.set cls_.GetName (Value.Class cls_), context)
    | Statement.FieldAssignment object_var_name_ object_dotted_ids_ field_name_ rv_ =>
      match VariableValueExecute context.fields closure object_var_name_ object_dotted_ids_ with
      | Outcome.ok (Value.ClassInstance id _) =>
        andThen (ex rv_ closure context) fun v closure1 context1 =>
          some (Outcome.ok v, closure1, context1.setField id field_name_ v)
      | Outcome.ok _ => some (Outcome.error "Not a class", closure, context)
      | Outcome.returned v => some (Outcome.returned v, closure, context)
      | Outcome.error msg => some (Outcome.error msg, closure, context)
    | Statement.IfElse condition_ if_body_ else_body_ =>
      andThen (ex condition_ closure context) fun cond closure1 context1 =>
        if IsTrue cond then ex if_body_ closure1 context1
        else
          match else_body_ with
          | some else_body => ex else_body closure1 context1
          | none => some (Outcome.ok Value.None, closure1, context1)
    | Statement.Or lhs_ rhs_ =>
      andThen (ex lhs_ closure context) fun a closure1 context1 =>
        if IsTrue a then some (Outcome.ok (Value.Bool true), closure1, context1)
        else
          andThen (ex rhs_ closure1 context1) fun b closure2 context2 =>
            some (Outcome.ok (Value.Bool (IsTrue b)), closure2, context2)
    | Statement.And lhs_ rhs_ =>
      andThen (ex lhs_ closure context) fun a closure1 context1 =>
        if IsTrue a then
          andThen (ex rhs_ closure1 context1) fun b closure2 context2 =>
            some (Outcome.ok (Value.Bool (IsTrue b)), closure2, context2)
        else some (Outcome.ok (Value.Bool false), closure1, context1)
    | Statement.Not argument_ =>
      andThen (ex argument_ closure context) fun a closure1 context1 =>
        some (Outcome.ok (Value.Bool (!IsTrue a)), closure1, context1)
    | Statement.Comparison cmp_ lhs_ rhs_ =>
      andThen (EvalBothCmp impl ex lhs_ rhs_ closure context) fun p closure1 context1 =>
        andThen (withClosure closure1 (applyComparator cmp_ ex p.1 p.2 context1))
          fun result closure2 context2 => some (Outcome.ok (Value.Bool result), closure2, context2)
    | Statement.NewInstance class_instance_ cls_ args_ =>
      if HasMethod cls_ "__init__" args_.length then
        andThen (EvalArgs ex args_ closure context) fun actual_args closure1 context1 =>
          andThen (withClosure closure1 (Call ex class_instance_ cls_ "__init__" actual_args context1))
            fun _ closure2 context2 =>
              some (Outcome.ok (Value.ClassInstance class_instance_ cls_), closure2, context2)
      else some (Outcome.ok (Value.ClassInstance class_instance_ cls_), closure, context)
    | Statement.MethodBody body_ =>
      match ex body_ closure context with
      | none => none
      | some (Outcome.ok _, closure1, context1) => some (Outcome.ok Value.None, closure1, context1)
      | some (Outcome.returned result, closure1, context1) =>
        some (Outcome.ok result, closure1, context1)
      | some (Outcome.error msg, closure1, context1) => some (Outcome.error msg, closure1, context1)

/-- Executing the statement reaches a `Return` through `Compound` and `IfElse` nodes only:
the statements before it in each enclosing `Compound` and the conditions of each enclosing
`IfElse` end normally, and the expression of the `Return` evaluates to `v`, leaving the
closure `c2` and the context `x2`.  The first index is the fuel of `Execute`. -/
inductive Unwinds (impl : Impl) :
    Nat → Statement → Closure → Context → Value → Closure → Context → Prop where
  | ret (n : Nat) (e : Statement) (c : Closure) (x : Context) (v : Value) (c2 : Closure)
      (x2 : Context) (h : Execute impl n e c x = some (Outcome.ok v, c2, x2)) :
      Unwinds impl (n + 1) (Statement.Return e) c x v c2 x2
  | compound (n : Nat) (pre post : List Statement) (s : Statement) (c : Closure) (x : Context)
      (w : Value) (c1 : Closure) (x1 : Context) (v : Value) (c2 : Closure) (x2 : Context)
      (hpre : ExecAll (Execute impl n) pre c x = some (Outcome.ok w, c1, x1))
      (h : Unwinds impl n s c1 x1 v c2 x2) :
      Unwinds impl (n + 1) (Statement.Compound (pre ++ s :: post)) c x v c2 x2
  | ifThen (n : Nat) (cond t : Statement) (e : Option Statement) (c : Closure) (x : Context)
      (w : Value) (c1 : Closure) (x1 : Context) (v : Value) (c2 : Closure) (x2 : Context)
      (hcond : Execute impl n cond c x = some (Outcome.ok w, c1, x1)) (hw : IsTrue w = true)
      (h : Unwinds impl n t c1 x1 v c2 x2) :
      Unwinds impl (n + 1) (Statement.IfElse cond t e) c x v c2 x2
  | ifElse (n : Nat) (cond t e : Statement) (c : Closure) (x : Context)
      (w : Value) (c1 : Closure) (x1 : Context) (v : Value) (c2 : Closure) (x2 : Context)
      (hcond : Execute impl n cond c x = some (Outcome.ok w, c1, x1)) (hw : IsTrue w = false)
      (h : Unwinds impl n e c1 x1 v c2 x2) :
      Unwinds impl (n + 1) (Statement.IfElse cond t (some e)) c x v c2 x2

/-- The context at program start: nothing written, every instance object with the empty
field closure it is constructed with. -/
def Context.start : Context := { output := "", fields := fun _ => Closure.empty }

/-- One admissible implementation: addresses print as the identity number, comparison
operands are evaluated left operand first. -/
def Impl.sample : Impl := { address := fun id => toString id, cmpRightFirst := false }

/-- The four statements of claim C2: `x = E`, `y = x`, `y.f = V`, `print x.f`. -/
def aliasProgram (x y f : String) (E V : Statement) : Statement :=
  Statement.Compound
    [Statement.Assignment x E, Statement.Assignment y (Statement.VariableValue x []),
      Statement.FieldAssignment y [] f V, Statement.Print [Statement.VariableValue x [f]]]

/-- Identity of the instance a holder refers to, if it refers to one. -/
def Value.instanceId : Value → Option Nat
  | Value.ClassInstance id _ => some id
  | _ => none

/-- The class `Box` without methods, for the example of claim C3. -/
def boxClass : Class := Class.mk "Box" [] none

/-- The class `Factory` whose method `make` is `return Box()`; the `NewInstance` node in
its body owns the instance with identity 0. -/
def factoryClass : Class :=
  Class.mk "Factory"
    [Method.mk "make" []
      (Statement.MethodBody (Statement.Compound
        [Statement.Return (Statement.NewInstance 0 boxClass [])]))]
    none

/-- The program `f = Factory(); a = f.make(); a.v = 1; b = f.make(); print b.v`. -/
def factoryProgram : Statement :=
  Statement.Compound
    [Statement.Assignment "f" (Statement.NewInstance 1 factoryClass []),
      Statement.Assignment "a" (Statement.MethodCall (Statement.VariableValue "f" []) "make" []),
      Statement.FieldAssignment "a" [] "v" (Statement.Const (Value.Number 1)),
      Statement.Assignment "b" (Statement.MethodCall (Statement.VariableValue "f" []) "make" []),
      Statement.Print [Statement.VariableValue "b" ["v"]]]

/-- Expression nodes: the nodes that compute a value from their operands.  Assignments,
`FieldAssignment`, `Print`, `Compound`, `Return`, `IfElse`, `ClassDefinition` and
`MethodBody` are statements and are not expressions. -/
inductive IsExpression : Statement → Prop where
  | const (v : Value) : IsExpression (Statement.Const v)
  | var (name : String) (dotted : List String) :
      IsExpression (Statement.VariableValue name dotted)
  | methodCall (obj : Statement) (method : String) (args : List Statement)
      (hobj : IsExpression obj) (hargs : ∀ a ∈ args, IsExpression a) :
      IsExpression (Statement.MethodCall obj method args)
  | stringify (a : Statement) (h : IsExpression a) : IsExpression (Statement.Stringify a)
  | add (l r : Statement) (hl : IsExpression l) (hr : IsExpression r) :
      IsExpression (Statement.Add l r)
  | sub (l r : Statement) (hl : IsExpression l) (hr : IsExpression r) :
      IsExpression (Statement.Sub l r)
  | mult (l r : Statement) (hl : IsExpression l) (hr : IsExpression r) :
      IsExpression (Statement.Mult l r)
  | div (l r : Statement) (hl : IsExpression l) (hr : IsExpression r) :
      IsExpression (Statement.Div l r)
  | disj (l r : Statement) (hl : IsExpression l) (hr : IsExpression r) :
      IsExpression (Statement.Or l r)
  | conj (l r : Statement) (hl : IsExpression l) (hr : IsExpression r) :
      IsExpression (Statement.And l r)
  | neg (a : Statement) (h : IsExpression a) : IsExpression (Statement.Not a)
  | comparison (cmp : Comparator) (l r : Statement) (hl : IsExpression l)
      (hr : IsExpression r) : IsExpression (Statement.Comparison cmp l r)
  | newInstance (id : Nat) (cls : Class) (args : List Statement)
      (hargs : ∀ a ∈ args, IsExpression a) : IsExpression (Statement.NewInstance id cls args)

/-- Every result of the step has the closure `c`. -/
def Keeps {α : Type} (c : Closure) (r : Option (Outcome α × Closure × Context)) : Prop :=
  ∀ o c1 x1, r = some (o, c1, x1) → c1 = c

/-- Whatever the first computation returns, the second returns too (the second may have
more fuel). -/
def Le {α : Type} (r1 r2 : Option α) : Prop := ∀ v, r1 = some v → r2 = some v

/-- The second executor returns whatever the first returns. -/
def ExLe (ex1 ex2 : Exec) : Prop := ∀ s c x, Le (ex1 s c x) (ex2 s c x)

/-- After a `Newline`, the next token is not a `Newline`. -/
def NotTwice (lx lx1 : Lexer) : Prop :=
  lx.current_token_ = Token.Newline → lx1.current_token_ ≠ Token.Newline

/-- The inheritance chain of a class: the class itself, its parent, and so on. -/
def Class.chain : Class → List Class
  | Class.mk name_ methods_ parent_ =>
    Class.mk name_ methods_ parent_ ::
      (match parent_ with
       | some p => p.chain
       | none => [])

/-- Example base class: one method `m` with two parameters. -/
def baseClass : Class :=
  Class.mk "Base"
    [Method.mk "m" ["a", "b"] (Statement.MethodBody (Statement.Return (Statement.Const (Value.Number 2))))]
    none

/-- Example derived class: its own `m` has one parameter. -/
def derivedClass : Class :=
  Class.mk "Derived"
    [Method.mk "m" ["a"] (Statement.MethodBody (Statement.Return (Statement.Const (Value.Number 1))))]
    (some baseClass)

/-- The message of the `runtime_error` that `ClassInstance::Call` throws when
`HasMethod` is false. -/
def methodNotFound (cls : Class) (method : String) (argument_count : Nat) : String :=
  "Class " ++ cls.GetName ++ " don't have method " ++ method ++ " with " ++
    toString argument_count ++ " argemets."

/-- The closure `ClassInstance::Call` builds before it runs the body, when the argument
count matches: `self`, then each formal parameter in order. -/
def callClosure (id : Nat) (cls : Class) : List String → List Value → Closure → Closure
  | param :: params, arg :: args, closure => callClosure id cls params args (closure.set param arg)
  | _, _, closure => closure

/-- An executor that never returns: with it, a `Call` that returns has run no method body. -/
def neverReturns : Exec := fun _ _ _ => none

/-- The value an outcome carries when it is a normal result. -/
def Outcome.value? : Outcome Value → Option Value
  | Outcome.ok v => some v
  | _ => none

/-- The integer a holder refers to, if it refers to a `Number`. -/
def Value.asNumber : Value → Option Int
  | Value.Number value => some value
  | _ => none

/-- Example class whose method `get` declares a parameter named `self` and returns it. -/
def selfParamClass : Class :=
  Class.mk "K"
    [Method.mk "get" ["self"]
      (Statement.MethodBody (Statement.Return (Statement.VariableValue "self" [])))]
    none

/-- The environment a method body runs in: built from the empty closure by binding `self`
to the receiving instance and then the formal parameters, in order, to the arguments. -/
def methodEnv (id : Nat) (cls : Class) (params : List String) (args : List Value) : Closure :=
  callClosure id cls params args (Closure.empty.set "self" (Value.ClassInstance id cls))

/-- The result of `Equal` for a left operand that is not an instance, as the claim words
it: true for two `None`s, equality of the values for two operands of the same primitive
variant, type mismatch in every other case. -/
def equalByClaim : Value → Value → Outcome Bool
  | Value.None, Value.None => Outcome.ok true
  | Value.Number a, Value.Number b => Outcome.ok (decide (a = b))
  | Value.String a, Value.String b => Outcome.ok (decide (a = b))
  | Value.Bool a, Value.Bool b => Outcome.ok (decide (a = b))
  | _, _ => Outcome.error "Wrong types to compare"

/-- The message of the `runtime_error` an outcome carries, if it is one. -/
def Outcome.message? {α : Type} : Outcome α → Option String
  | Outcome.error msg => some msg
  | _ => none

/-- The text a holder refers to, if it refers to a `String`. -/
def textOf : Value → Option String
  | Value.String value => some value
  | _ => none

/-- The class `Point` whose `__init__` takes two parameters. -/
def pointClass : Class :=
  Class.mk "Point"
    [Method.mk "__init__" ["x", "y"]
      (Statement.MethodBody (Statement.Compound
        [Statement.Print [Statement.Const (Value.String "init")]]))]
    none

/-- What `MethodBody` makes of the way its body ended: only a `Return` becomes a normal
result; an error stays the same error. -/
def caught : Outcome Value → Outcome Value
  | Outcome.ok _ => Outcome.ok Value.None
  | Outcome.returned result => Outcome.ok result
  | Outcome.error msg => Outcome.error msg

/-- The lexer states behind `tokensFrom`: the state after construction, followed by the
state after each call of `NextToken`, up to and including the first one at `Eof`. -/
def lexersFrom : Nat → Lexer → Option (List Lexer)
  | 0, _ => none
  | fuel + 1, lx =>
    if lx.CurrentToken = Token.Eof then some [lx]
    else (lx.NextToken fuel).bind fun lx1 =>
      (lexersFrom fuel lx1).map fun r => lx :: r

/-- The lexer states after construction and after each of the next `k` calls of
`NextToken`, whatever tokens these return. -/
def lexersAfter (fuel : Nat) : Nat → Lexer → Option (List Lexer)
  | 0, lx => some [lx]
  | k + 1, lx => (lx.NextToken fuel).bind fun lx1 =>
    (lexersAfter fuel k lx1).map fun r => lx :: r

/-- The body of the loop of `Print::Execute` once the argument is evaluated: the text for
the value, `None` for an empty holder and else what the object's `Print` sends to `os`. -/
def PrintValue (impl : Impl) (ex : Exec) (fuel : Nat) (obj : Value) (closure : Closure)
    (context : Context) : Option (Outcome String × Closure × Context) :=
  match obj with
  | Value.None => some (Outcome.ok "None", closure, context)
  | _ => withClosure closure (PrintObject impl ex fuel obj context)

/-- The `for` loop of `Print::Execute` over the arguments `args`, without the newline
that follows the loop; the result is the value of the local flag `first` after it. -/
def PrintLoop (impl : Impl) (ex : Exec) (fuel : Nat) :
    Bool → List Statement → Closure → Context → Option (Outcome Bool × Closure × Context)
  | first, [], closure, context => some (Outcome.ok first, closure, context)
  | first, arg :: rest, closure, context =>
    andThen (ex arg closure (if first then context else context.write " "))
      fun obj closure1 context1 =>
        andThen (PrintValue impl ex fuel obj closure1 context1) fun text closure2 context2 =>
          PrintLoop impl ex fuel false rest closure2 (context2.write text)

/-- An implementation that evaluates the arguments of a function call right to left, as
the C++ standard allows. -/
def Impl.rightFirst : Impl := { address := fun id => toString id, cmpRightFirst := true }

/-- The class `Talk` with the methods `left` (`print 'L'`, `return 1`) and `right`
(`print 'R'`, `return 2`). -/
def talkClass : Class :=
  Class.mk "Talk"
    [Method.mk "left" []
      (Statement.MethodBody (Statement.Compound
        [Statement.Print [Statement.Const (Value.String "L")],
          Statement.Return (Statement.Const (Value.Number 1))])),
     Method.mk "right" []
      (Statement.MethodBody (Statement.Compound
        [Statement.Print [Statement.Const (Value.String "R")],
          Statement.Return (Statement.Const (Value.Number 2))]))]
    none

/-! ## Theorems -/

theorem ite_token (P : Token → Prop) (c : Prop) [Decidable c] (a b : Token)
    (ha : P a) (hb : P b) : P (if c then a else b) := by
  split <;> assumption

theorem keywordToken_plain (str : List Char) : (keywordToken str).Plain := by
  unfold keywordToken
  repeat (first
    | exact ⟨rfl, fun h => Token.noConfusion h⟩
    | refine ite_token Token.Plain _ _ _ ⟨rfl, fun h => Token.noConfusion h⟩ ?_)

theorem ParseEnd_stepOk (lx : Lexer) (h : lx.input_ = []) : StepOk lx (ParseEnd lx) := by
  unfold ParseEnd StepOk Lexer.IndentOk
  split
  · simp_all [indentDelta]
  · split
    · simp_all [indentDelta]
    · split
      · simp_all [indentDelta]
        omega
      · simp_all [indentDelta]

theorem IsIndentChanged_true (lx : Lexer) (h : (IsIndentChanged lx).1 = true) :
    StepOk lx (IsIndentChanged lx).2 ∧ (IsIndentChanged lx).2.input_ = lx.input_ ∧
    (IsIndentChanged lx).2.current_token_ ≠ Token.Eof := by
  unfold IsIndentChanged StepOk Lexer.IndentOk at *
  split
  · simp_all [indentDelta]
    omega
  · split
    · simp_all [indentDelta]
      omega
    · simp_all

theorem IsIndentChanged_false (lx : Lexer) (h : (IsIndentChanged lx).1 = false) :
    (IsIndentChanged lx).2 = lx := by
  unfold IsIndentChanged at *
  split
  · simp_all
  · split
    · simp_all
    · rfl

theorem stepOk_plain (lx lx1 : Lexer) (hc : lx1.current_indent_ = lx.current_indent_)
    (hl : lx1.line_indent_ = lx.line_indent_) (ht : lx1.current_token_.Plain) :
    StepOk lx lx1 := by
  obtain ⟨h0, hne⟩ := ht
  refine ⟨?_, ?_, ?_⟩
  · intro h
    unfold Lexer.IndentOk at *
    rw [hc, hl]
    exact h
  · rw [hc, h0]
    simp
  · intro h
    exact absurd h hne

theorem StepOk.of_sameTok {lx lx1 lx2 : Lexer} (h : SameTok lx lx1) (h2 : StepOk lx1 lx2) :
    StepOk lx lx2 := by
  obtain ⟨ht, hc, hi⟩ := h
  obtain ⟨a, b, c⟩ := h2
  refine ⟨fun h => a (hi h), ?_, ?_⟩
  · rw [b, hc]
  · intro h
    have := c h
    rw [ht] at this
    exact this

theorem ParseName_stepOk (lx : Lexer) : StepOk lx (ParseName lx) := by
  unfold ParseName
  by_cases h : (IsIndentChanged lx).1 = true
  · simp only [h, if_true]
    exact (IsIndentChanged_true lx h).1
  · have hf : (IsIndentChanged lx).1 = false := by simpa using h
    have he := IsIndentChanged_false lx hf
    simp only [hf, he]
    exact stepOk_plain _ _ rfl rfl (keywordToken_plain _)

theorem ParseChar_stepOk (lx : Lexer) : StepOk lx (ParseChar lx) := by
  unfold ParseChar
  simp only
  split_ifs <;> exact stepOk_plain _ _ rfl rfl ⟨rfl, fun h => Token.noConfusion h⟩

theorem ParseNumber_stepOk (lx : Lexer) : StepOk lx (ParseNumber lx) := by
  unfold ParseNumber ReadNumber
  exact stepOk_plain _ _ rfl rfl ⟨rfl, fun h => Token.noConfusion h⟩

theorem ParseString_stepOk (fuel : Nat) (lx lx1 : Lexer) (h : ParseString fuel lx = some lx1) :
    StepOk lx lx1 := by
  unfold ParseString at h
  rcases hr : ReadString fuel lx.input_ with _ | r
  · simp [hr] at h
  · simp [hr] at h
    subst h
    exact stepOk_plain _ _ rfl rfl ⟨rfl, fun h => Token.noConfusion h⟩

theorem ParseToken_stepOk (fuel : Nat) (lx lx1 : Lexer) (h : ParseToken fuel lx = some lx1) :
    StepOk lx lx1 := by
  have hs : SameTok lx { lx with is_line_start_ := false } := ⟨rfl, rfl, fun h => h⟩
  refine StepOk.of_sameTok hs ?_
  unfold ParseToken at h
  simp only at h
  split at h
  · split_ifs at h
    · cases h; exact ParseNumber_stepOk _
    · exact ParseString_stepOk _ _ _ h
    · cases h; exact ParseName_stepOk _
    · cases h; exact ParseChar_stepOk _
  · cases h; exact ParseChar_stepOk _

theorem SkipComment_sameTok (lx : Lexer) : SameTok lx (SkipComment lx) := by
  unfold SkipComment
  split
  · exact ⟨rfl, rfl, fun h => h⟩
  · split_ifs <;> exact ⟨rfl, rfl, fun h => h⟩

theorem ParseLineEnd_stepOk (next : Lexer → Option Lexer)
    (hnext : ∀ l l1, next l = some l1 → StepOk l l1) (lx lx1 : Lexer)
    (h : ParseLineEnd next lx = some lx1) : StepOk lx lx1 := by
  have hs : SameTok lx ⟨lx.input_.tail, lx.current_token_, 0, lx.current_indent_, true⟩ :=
    ⟨rfl, rfl, fun h => ⟨le_refl 0, h.2⟩⟩
  refine StepOk.of_sameTok hs ?_
  unfold ParseLineEnd at h
  simp only at h
  split_ifs at h
  · cases h
    exact stepOk_plain _ _ rfl rfl ⟨rfl, fun h => Token.noConfusion h⟩
  · exact hnext _ _ h

theorem ParseSpaces_stepOk (next : Lexer → Option Lexer)
    (hnext : ∀ l l1, next l = some l1 → StepOk l l1) (lx lx1 : Lexer)
    (h : ParseSpaces next lx = some lx1) : StepOk lx lx1 := by
  have hs : SameTok lx { lx with input_ := lx.input_.dropWhile (fun c => c = ' ') } :=
    ⟨rfl, rfl, fun h => h⟩
  refine StepOk.of_sameTok hs ?_
  unfold ParseSpaces at h
  simp only at h
  split at h
  · split_ifs at h with h1 h2 h3 h4
    · exact StepOk.of_sameTok (SkipComment_sameTok _) (hnext _ _ h)
    · exact ParseLineEnd_stepOk next hnext _ _ h
    · cases h
      refine StepOk.of_sameTok ?_ (IsIndentChanged_true _ h4).1
      refine ⟨rfl, rfl, fun h => ⟨?_, h.2⟩⟩
      simp only
      omega
    · have hf := IsIndentChanged_false _ (by simpa using h4)
      rw [hf] at h
      refine StepOk.of_sameTok ?_ (hnext _ _ h)
      refine ⟨rfl, rfl, fun h => ⟨?_, h.2⟩⟩
      simp only
      omega
    · exact hnext _ _ h
  · rename_i hnone
    cases h
    refine ParseEnd_stepOk _ ?_
    simpa using hnone

theorem ParseNextToken_stepOk (fuel : Nat) :
    ∀ lx lx1 : Lexer, ParseNextToken fuel lx = some lx1 → StepOk lx lx1 := by
  induction fuel with
  | zero => intro lx lx1 h; simp [ParseNextToken] at h
  | succ n ih =>
    intro lx lx1 h
    unfold ParseNextToken at h
    split at h
    · rename_i hnone
      cases h
      exact ParseEnd_stepOk _ (by simpa using hnone)
    · split_ifs at h
      · exact ParseLineEnd_stepOk _ ih _ _ h
      · exact ParseSpaces_stepOk _ ih _ _ h
      · exact StepOk.of_sameTok (SkipComment_sameTok _) (ih _ _ h)
      · exact ParseToken_stepOk _ _ _ h

theorem sumDelta_count (ts : List Token) :
    sumDelta ts = (ts.count Token.Indent : Int) - (ts.count Token.Dedent : Int) := by
  induction ts with
  | nil => simp [sumDelta]
  | cons t ts ih =>
    rw [sumDelta, ih]
    cases t <;> simp [indentDelta, List.count_cons] <;> omega

theorem skipNewlines_fresh (fuel : Nat) :
    ∀ lx lx1 : Lexer, lx.Fresh → skipNewlines fuel lx = some lx1 → lx1.Fresh := by
  induction fuel with
  | zero => intro lx lx1 _ h; simp [skipNewlines] at h
  | succ n ih =>
    intro lx lx1 hf h
    unfold skipNewlines at h
    split_ifs at h with hn
    · rcases hp : ParseNextToken n lx with _ | l2
      · simp [hp] at h
      · simp [hp] at h
        obtain ⟨a, b, c⟩ := ParseNextToken_stepOk n lx l2 hp
        obtain ⟨f1, f2, _⟩ := hf
        refine ih l2 lx1 ⟨a f1, ?_, ?_⟩ h
        · rw [b, f2, hn]
          simp [indentDelta]
        · intro he
          obtain ⟨c1, c2⟩ := c he
          rw [hn] at c2
          simpa [c1] using c2
    · cases h
      exact hf

theorem Lexer.new_fresh (start : Start) (fuel : Nat) (input : List Char) (lx : Lexer)
    (h : Lexer.new start fuel input = some lx) : lx.Fresh := by
  unfold Lexer.new at h
  rcases hp : ParseNextToken fuel (Lexer.init start input) with _ | l1
  · simp [hp] at h
  · simp [hp] at h
    obtain ⟨a, b, c⟩ := ParseNextToken_stepOk fuel _ l1 hp
    refine skipNewlines_fresh fuel l1 lx ⟨a ?_, ?_, ?_⟩ h
    · exact ⟨le_refl 0, le_refl 0⟩
    · simpa [Lexer.init] using b
    · intro he
      obtain ⟨c1, c2⟩ := c he
      refine ⟨c1, ?_⟩
      rcases c2 with c2 | c2
      · rw [b, he]
        simp [Lexer.init, indentDelta]
      · exact c2

theorem tokensFrom_sumDelta (fuel : Nat) :
    ∀ (lx : Lexer) (ts : List Token) (lxf : Lexer), lx.IndentOk →
      (lx.current_token_ = Token.Eof → lx.current_indent_ ≤ 0) →
      tokensFrom fuel lx = some (ts, lxf) →
      sumDelta ts = indentDelta lx.current_token_ - lx.current_indent_ := by
  induction fuel with
  | zero => intro lx ts lxf _ _ h; simp [tokensFrom] at h
  | succ n ih =>
    intro lx ts lxf hok he h
    unfold tokensFrom Lexer.CurrentToken Lexer.NextToken at h
    split_ifs at h with hn
    · cases h
      have h0 := he hn
      have h1 := hok.2
      simp [sumDelta, hn, indentDelta]
      omega
    · rcases hp : ParseNextToken n lx with _ | l2
      · simp [hp] at h
      · rcases hr : tokensFrom n l2 with _ | r
        · simp [hp, hr] at h
        · simp [hp, hr] at h
          obtain ⟨a, b, c⟩ := ParseNextToken_stepOk n lx l2 hp
          have hrec := ih l2 r.1 r.2 (a hok)
            (fun e => by
              rcases (c e).2 with h1 | h1
              · exact absurd h1 hn
              · exact h1) hr
          rw [← h.1, sumDelta, hrec, b]
          ring

theorem tokensFrom_eof (fuel : Nat) :
    ∀ (lx : Lexer) (ts : List Token) (lxf : Lexer),
      (lx.current_token_ = Token.Eof → lx.input_ = []) →
      tokensFrom fuel lx = some (ts, lxf) →
      ts.count Token.Eof = 1 ∧ ts.getLast? = some Token.Eof ∧
        lxf.current_token_ = Token.Eof ∧ lxf.input_ = [] := by
  induction fuel with
  | zero => intro lx ts lxf _ h; simp [tokensFrom] at h
  | succ n ih =>
    intro lx ts lxf he h
    unfold tokensFrom Lexer.CurrentToken Lexer.NextToken at h
    split_ifs at h with hn
    · cases h
      exact ⟨by simp, by simp, hn, he hn⟩
    · rcases hp : ParseNextToken n lx with _ | l2
      · simp [hp] at h
      · rcases hr : tokensFrom n l2 with _ | r
        · simp [hp, hr] at h
        · simp [hp, hr] at h
          obtain ⟨_, _, c⟩ := ParseNextToken_stepOk n lx l2 hp
          obtain ⟨r1, r2, r3, r4⟩ := ih l2 r.1 r.2 (fun e => (c e).1) hr
          obtain ⟨h1, h2⟩ := h
          subst h1 h2
          refine ⟨?_, ?_, r3, r4⟩
          · rw [List.count_cons, r1]
            simp [hn]
          · rcases hl : r.1 with _ | ⟨t, tl⟩
            · simp [hl] at r2
            · rw [hl] at r2
              rw [List.getLast?_cons_cons]
              exact r2

theorem ParseNextToken_content (start : Start) (fuel : Nat) (c : Char) (rest : List Char)
    (h1 : c ≠ '\n') (h2 : c ≠ ' ') (h3 : c ≠ '#') :
    ParseNextToken fuel (Lexer.init start (c :: rest)) =
      ParseNextToken fuel (Lexer.init Start.sample (c :: rest)) := by
  cases fuel with
  | zero => rfl
  | succ n =>
    simp only [ParseNextToken, Lexer.init, List.head?_cons, h1, h2, h3, if_false, ParseToken]
    split_ifs
    · rfl
    · rfl
    · simp [ParseName, IsIndentChanged]
    · rfl

theorem tokenize_content (start : Start) (fuel : Nat) (c : Char) (rest : List Char)
    (h1 : c ≠ '\n') (h2 : c ≠ ' ') (h3 : c ≠ '#') :
    tokenize start fuel (c :: rest) = tokenize Start.sample fuel (c :: rest) := by
  unfold tokenize Lexer.new
  rw [ParseNextToken_content start fuel c rest h1 h2 h3]

/-- Claim C4. For every source whose lexing reaches `Eof` (every string literal is
terminated), the token sequence made of `CurrentToken` after construction followed by the
results of `NextToken` up to and including the first `Eof` has as many `Indent` tokens as
`Dedent` tokens. -/
theorem indent_dedent_balanced (start : Start) (fuel : Nat) (input : List Char)
    (ts : List Token) (h : tokenize start fuel input = some ts) :
    ts.count Token.Indent = ts.count Token.Dedent := by
  unfold tokenize at h
  rcases hl : Lexer.new start fuel input with _ | lx
  · simp [hl] at h
  · rcases hr : tokensFrom fuel lx with _ | r
    · simp [hl, hr] at h
    · simp [hl, hr] at h
      obtain ⟨f1, f2, f3⟩ := Lexer.new_fresh start fuel input lx hl
      have hs := tokensFrom_sumDelta fuel lx r.1 r.2 f1 (fun e => (f3 e).2) hr
      rw [sumDelta_count, h, f2] at hs
      omega

/-- Instance of C4 on a program with two nested blocks. -/
theorem indent_dedent_balanced_witness :
    [Token.If, Token.Id ['a'], Token.Char ':', Token.Newline, Token.Indent, Token.If,
      Token.Id ['b'], Token.Char ':', Token.Newline, Token.Indent, Token.Id ['c'],
      Token.Newline, Token.Dedent, Token.Dedent, Token.Eof].count Token.Indent =
    [Token.If, Token.Id ['a'], Token.Char ':', Token.Newline, Token.Indent, Token.If,
      Token.Id ['b'], Token.Char ':', Token.Newline, Token.Indent, Token.Id ['c'],
      Token.Newline, Token.Dedent, Token.Dedent, Token.Eof].count Token.Dedent :=
  indent_dedent_balanced Start.sample 40 "if a:\n  if b:\n    c\n".toList _ (by decide)

/-- Claim C6. `Eof` is final: the token sequence up to and including the first `Eof`
contains `Eof` exactly once, as its last token, and the lexer that returned it is a fixed
point of `NextToken`: every later call returns `Eof` again and changes nothing. -/
theorem eof_is_final (start : Start) (fuel : Nat) (input : List Char) (ts : List Token)
    (lx : Lexer) (h : (Lexer.new start fuel input).bind (tokensFrom fuel) = some (ts, lx)) :
    ts.count Token.Eof = 1 ∧ ts.getLast? = some Token.Eof ∧
    lx.CurrentToken = Token.Eof ∧ ∀ k : Nat, lx.NextToken (k + 1) = some lx := by
  rcases hl : Lexer.new start fuel input with _ | l0
  · simp [hl] at h
  · simp [hl] at h
    obtain ⟨_, _, f3⟩ := Lexer.new_fresh start fuel input l0 hl
    obtain ⟨r1, r2, r3, r4⟩ := tokensFrom_eof fuel l0 ts lx (fun e => (f3 e).1) h
    refine ⟨r1, r2, r3, fun k => ?_⟩
    unfold Lexer.NextToken ParseNextToken
    simp [r4, ParseEnd, r3]
    rw [← r3, ← r4]

/-- Instance of C6 on a source that ends inside an indented block without a newline. -/
theorem eof_is_final_witness :
    [Token.If, Token.Id ['a'], Token.Char ':', Token.Newline, Token.Indent, Token.Id ['b'],
      Token.Newline, Token.Dedent, Token.Newline, Token.Eof].count Token.Eof = 1 ∧
    [Token.If, Token.Id ['a'], Token.Char ':', Token.Newline, Token.Indent, Token.Id ['b'],
      Token.Newline, Token.Dedent, Token.Newline, Token.Eof].getLast? = some Token.Eof ∧
    Lexer.CurrentToken ⟨[], Token.Eof, 0, 0, false⟩ = Token.Eof ∧
    ∀ k : Nat, Lexer.NextToken (k + 1) ⟨[], Token.Eof, 0, 0, false⟩ =
      some ⟨[], Token.Eof, 0, 0, false⟩ :=
  eof_is_final Start.sample 40 "if a:\n  b".toList _ _ (by decide)

/-- Claim C5 on the code: a line that starts with a number gets no `Dedent` before it.
In `a`, `  b`, `5` the third line has indentation 0, yet when its first content token
`Number 5` is returned one `Indent` and no `Dedent` have been emitted; the `Dedent` only
comes at end of input. -/
theorem dedent_missing_before_number :
    (∀ start : Start, tokenize start 40 "a\n  b\n5\n".toList =
      some ([Token.Id ['a'], Token.Newline, Token.Indent, Token.Id ['b'], Token.Newline] ++
        Token.Number 5 :: [Token.Newline, Token.Dedent, Token.Eof])) ∧
    ([Token.Id ['a'], Token.Newline, Token.Indent, Token.Id ['b'], Token.Newline].count
        Token.Indent : Int) -
      [Token.Id ['a'], Token.Newline, Token.Indent, Token.Id ['b'], Token.Newline].count
        Token.Dedent = 1 := by
  refine ⟨fun start => ?_, by decide⟩
  rw [show "a\n  b\n5\n".toList = 'a' :: "\n  b\n5\n".toList from rfl,
    tokenize_content start 40 'a' _ (by decide) (by decide) (by decide)]
  decide

/-- What a blank line after a leading comment line does depends on the initialisers of
`lexer.h`: with `p` the comment line, `L` the empty line and `q` an indented name,
`p ++ L ++ q` starts with an `Indent` that `p ++ q` does not have when the lexer starts
with the flag set and a token other than `Newline` and `Indent`; the two token
sequences are equal when it starts with the flag cleared or with the token `Newline`. -/
theorem blank_line_depends_on_start :
    (tokenize Start.sample 40 ("#c\n".toList ++ "\n".toList ++ "  x".toList) =
        some [Token.Indent, Token.Id ['x'], Token.Newline, Token.Dedent, Token.Newline,
          Token.Eof] ∧
      tokenize Start.sample 40 ("#c\n".toList ++ "  x".toList) =
        some [Token.Id ['x'], Token.Newline, Token.Eof]) ∧
    tokenize ⟨Token.Number 0, false⟩ 40 ("#c\n".toList ++ "\n".toList ++ "  x".toList) =
      tokenize ⟨Token.Number 0, false⟩ 40 ("#c\n".toList ++ "  x".toList) ∧
    tokenize ⟨Token.Newline, true⟩ 40 ("#c\n".toList ++ "\n".toList ++ "  x".toList) =
      tokenize ⟨Token.Newline, true⟩ 40 ("#c\n".toList ++ "  x".toList) := by
  decide

/-- Claim C10 on the code: without a final newline, a `Newline` follows the closing
`Dedent`, so the tokens of `s` differ from those of `s` followed by a newline. -/
theorem newline_after_closing_dedent :
    (∀ start : Start, tokenize start 40 "a\n  b".toList =
      some [Token.Id ['a'], Token.Newline, Token.Indent, Token.Id ['b'], Token.Newline,
        Token.Dedent, Token.Newline, Token.Eof]) ∧
    (∀ start : Start, tokenize start 40 ("a\n  b".toList ++ ['\n']) =
      some [Token.Id ['a'], Token.Newline, Token.Indent, Token.Id ['b'], Token.Newline,
        Token.Dedent, Token.Eof]) := by
  constructor
  · intro start
    rw [show "a\n  b".toList = 'a' :: "\n  b".toList from rfl,
      tokenize_content start 40 'a' _ (by decide) (by decide) (by decide)]
    decide
  · intro start
    rw [show "a\n  b".toList ++ ['\n'] = 'a' :: "\n  b\n".toList from rfl,
      tokenize_content start 40 'a' _ (by decide) (by decide) (by decide)]
    decide

theorem ReadStringLoop_stuck (q : Char) (fuel : Nat) :
    ∀ (c : Option Char) (str : List Char), c ≠ some q →
      ReadStringLoop fuel (some q) c str [] = none := by
  induction fuel with
  | zero => intro c str _; rfl
  | succ n ih =>
    intro c str hc
    unfold ReadStringLoop
    rw [if_neg hc]
    by_cases hb : c = some '\\'
    · subst hb
      simp only [ne_eq, not_true_eq_false, if_false, List.head?_nil, List.tail_nil]
      exact ih none _ (by simp)
    · simp only [ne_eq, hb, not_false_eq_true, if_true]
      exact ih c _ hc

theorem ReadStringLoop_unterminated (q : Char) (fuel : Nat) :
    ∀ (input : List Char) (c : Option Char) (str : List Char),
      (∀ x ∈ input, x ≠ q ∧ x ≠ '\\') → c ≠ some q → c ≠ some '\\' →
      ReadStringLoop fuel (some q) c str input = none := by
  induction fuel with
  | zero => intro input c str _ _ _; rfl
  | succ n ih =>
    intro input c str hin hc hb
    unfold ReadStringLoop
    rw [if_neg hc]
    simp only [ne_eq, hb, not_false_eq_true, if_true]
    cases input with
    | nil => exact ReadStringLoop_stuck q n c _ hc
    | cons x rest =>
      have hx := hin x (List.mem_cons_self x rest)
      refine ih rest (some x) _ (fun y hy => hin y (List.mem_cons_of_mem x hy)) ?_ ?_
      · simpa using hx.1
      · simpa using hx.2

/-- A literal opened by `q` whose text has neither `q` nor a backslash and then ends with
the input: `ReadString` returns for no amount of fuel. -/
theorem ReadString_unterminated (q : Char) (body : List Char)
    (h : ∀ x ∈ body, x ≠ q ∧ x ≠ '\\') (fuel : Nat) :
    ReadString fuel (q :: body) = none := by
  unfold ReadString
  cases body with
  | nil => exact ReadStringLoop_stuck q fuel none _ (by simp)
  | cons x rest =>
    have hx := h x (List.mem_cons_self x rest)
    refine ReadStringLoop_unterminated q fuel rest (some x) _
      (fun y hy => h y (List.mem_cons_of_mem x hy)) ?_ ?_
    · simpa using hx.1
    · simpa using hx.2

/-- Claim C8 on the code: on the source `'abc` (the quote is never closed) neither
`ReadString` nor the constructor of the lexer returns, whatever the fuel: the loop goes on
at end of input instead of failing with a lex error.  On `'\'` a `String` token is even
returned, although the only later quote is escaped. -/
theorem unterminated_string_no_error :
    (∀ fuel : Nat, ReadString fuel "'abc".toList = none) ∧
    (∀ (start : Start) (fuel : Nat), Lexer.new start fuel "'abc".toList = none) ∧
    (∀ start : Start, tokenize start 40 "'\\'".toList =
      some [Token.String ['\''], Token.Newline, Token.Eof]) := by
  have h1 : ∀ fuel : Nat, ReadString fuel ['\'', 'a', 'b', 'c'] = none := fun fuel =>
    ReadString_unterminated '\'' ['a', 'b', 'c'] (by decide) fuel
  refine ⟨h1, ?_, ?_⟩
  · intro start fuel
    cases fuel with
    | zero => rfl
    | succ n =>
      have h2 : ParseNextToken (n + 1) (Lexer.init start ['\'', 'a', 'b', 'c']) = none := by
        simp [ParseNextToken, Lexer.init, ParseToken, ParseString, h1 n]
      show (ParseNextToken (n + 1) (Lexer.init start ['\'', 'a', 'b', 'c'])).bind _ = none
      rw [h2]
      rfl
  · intro start
    rw [show "'\\'".toList = '\'' :: "\\'".toList from rfl,
      tokenize_content start 40 '\'' _ (by decide) (by decide) (by decide)]
    decide

theorem ReadStringLoop_plain (q x : Char) (fuel : Nat) (str l : List Char)
    (hq : x ≠ q) (hb : x ≠ '\\') (hl : l ≠ []) :
    ReadStringLoop (fuel + 1) (some q) (some x) str l =
      ReadStringLoop fuel (some q) l.head? (str ++ [x]) l.tail := by
  cases l with
  | nil => exact absurd rfl hl
  | cons y t => simp [ReadStringLoop, hq, hb]

theorem ReadStringLoop_escape (q c : Char) (fuel : Nat) (str l : List Char)
    (hq : IsQuote q) (hc : OtherEscape c) (hl : l ≠ []) :
    ReadStringLoop (fuel + 1) (some q) (some '\\') str (c :: l) =
      ReadStringLoop fuel (some q) l.head? str l.tail := by
  obtain ⟨h1, h2, h3, h4, h5⟩ := hc
  have hq2 : ¬ ('\\' = q) := by
    rcases hq with h | h <;> subst h <;> decide
  cases l with
  | nil => exact absurd rfl hl
  | cons y t => simp [ReadStringLoop, hq2, h1, h2, h3, h4, h5]

theorem ReadStringLoop_run (q : Char) (fuel : Nat) (y : Char) (l : List Char) :
    ∀ (xs str : List Char), (∀ x ∈ xs, x ≠ q ∧ x ≠ '\\') →
      ReadStringLoop (fuel + xs.length) (some q) (xs ++ y :: l).head? str (xs ++ y :: l).tail =
        ReadStringLoop fuel (some q) (some y) (str ++ xs) l := by
  intro xs
  induction xs with
  | nil => intro str _; simp
  | cons x xs ih =>
    intro str h
    have hx := h x (List.mem_cons_self x xs)
    have hne : xs ++ y :: l ≠ [] := by simp
    have := ReadStringLoop_plain q x (fuel + xs.length) str (xs ++ y :: l) hx.1 hx.2 hne
    simp only [List.cons_append, List.head?_cons, List.tail_cons, List.length_cons]
    rw [← Nat.add_assoc, this, ih (str ++ [x]) (fun z hz => h z (List.mem_cons_of_mem x hz))]
    simp

/-- Claim C9 as stated fails: the literal `"a\qb"` lexes to `String` with value `ab`,
not `aqb`; the character after the backslash is dropped too. -/
theorem other_escape_not_kept :
    (∀ start : Start, tokenize start 40 "\"a\\qb\"".toList =
      some [Token.String ['a', 'b'], Token.Newline, Token.Eof]) ∧
    (∀ start : Start, tokenize start 40 "\"a\\qb\"".toList ≠
      some [Token.String ['a', 'q', 'b'], Token.Newline, Token.Eof]) := by
  have h : ∀ start : Start, tokenize start 40 "\"a\\qb\"".toList =
      some [Token.String ['a', 'b'], Token.Newline, Token.Eof] := by
    intro start
    rw [show "\"a\\qb\"".toList = '"' :: "a\\qb\"".toList from rfl,
      tokenize_content start 40 '"' _ (by decide) (by decide) (by decide)]
    decide
  exact ⟨h, fun start => by rw [h start]; decide⟩

/-- Claim C9, amended. In a string literal a backslash followed by a character `c` that is
none of `n`, `t`, backslash, double quote, single quote contributes nothing to the value:
for a literal `q pre \c post q` whose parts `pre` and `post` hold neither the delimiter nor
a backslash, `ReadString` returns `pre ++ post` and leaves the input after the closing
delimiter, as soon as the fuel covers the literal. -/
theorem other_escape_dropped (q c : Char) (pre post rest : List Char) (k : Nat)
    (hq : IsQuote q) (hc : OtherEscape c)
    (hpre : ∀ x ∈ pre, x ≠ q ∧ x ≠ '\\') (hpost : ∀ x ∈ post, x ≠ q ∧ x ≠ '\\') :
    ReadString (k + 1 + post.length + 1 + pre.length)
        (q :: (pre ++ '\\' :: c :: (post ++ q :: rest))) =
      some (pre ++ post, rest) := by
  unfold ReadString
  simp only [List.head?_cons, List.tail_cons]
  rw [ReadStringLoop_run q (k + 1 + post.length + 1) '\\' (c :: (post ++ q :: rest)) pre []
    hpre]
  rw [ReadStringLoop_escape q c (k + 1 + post.length) _ _ hq hc (by simp)]
  rw [ReadStringLoop_run q (k + 1) q rest post _ hpost]
  simp [ReadStringLoop]

/-- Instance of the amended C9: the literal `"a\qb"` followed by ` x`. -/
theorem other_escape_dropped_witness :
    ReadString (0 + 1 + ['b'].length + 1 + ['a'].length)
        ('"' :: (['a'] ++ '\\' :: 'q' :: (['b'] ++ '"' :: [' ', 'x']))) =
      some (['a'] ++ ['b'], [' ', 'x']) :=
  other_escape_dropped '"' 'q' ['a'] ['b'] [' ', 'x'] 0 (Or.inl rfl) (by decide)
    (by decide) (by decide)

theorem Progress.of_within {lx lx1 lx2 : Lexer} (h : Within lx lx1) (h2 : Progress lx1 lx2) :
    Progress lx lx2 := by
  obtain ⟨s1, p1⟩ := h
  obtain ⟨s2, p2⟩ := h2
  refine ⟨s2.trans s1, fun hi hne => ?_⟩
  obtain ⟨i1, le1⟩ := p1 hi
  exact lt_of_lt_of_le (p2 i1 hne) le1

theorem ParseEnd_progress (lx : Lexer) : Progress lx (ParseEnd lx) := by
  unfold ParseEnd Progress Lexer.potential Lexer.IndentOk
  split
  · simp_all
  · split
    · refine ⟨List.suffix_refl _, fun _ _ => ?_⟩
      simp_all
    · split
      · refine ⟨List.suffix_refl _, fun hi _ => ?_⟩
        simp only [sub_self, Int.toNat_zero]
        split <;> omega
      · simp_all

theorem progress_of_shorter (lx lx1 : Lexer) (hs : lx1.input_ <:+ lx.input_)
    (hl : lx1.input_.length < lx.input_.length)
    (hc : lx1.current_indent_ = lx.current_indent_) (hi : lx1.line_indent_ = lx.line_indent_) :
    Progress lx lx1 := by
  refine ⟨hs, fun _ _ => ?_⟩
  unfold Lexer.potential
  rw [hc, hi]
  split <;> split <;> omega

theorem ReadNumberLoop_suffix : ∀ (l : List Char) (r : Int),
    (ReadNumberLoop r l).2 <:+ l := by
  intro l
  induction l with
  | nil => intro r; exact List.suffix_refl _
  | cons c rest ih =>
    intro r
    unfold ReadNumberLoop
    split
    · exact (ih _).trans (List.suffix_cons c rest)
    · exact List.suffix_refl _

theorem ReadIdLoop_suffix : ∀ (l str : List Char), (ReadIdLoop str l).2 <:+ l := by
  intro l
  induction l with
  | nil => intro str; exact List.suffix_refl _
  | cons c rest ih =>
    intro str
    unfold ReadIdLoop
    split
    · exact (ih _).trans (List.suffix_cons c rest)
    · exact List.suffix_refl _

theorem IsIndentChanged_progress (lx0 lx : Lexer) (hs : SameBut lx0 lx)
    (h : (IsIndentChanged lx).1 = true) : Progress lx0 (IsIndentChanged lx).2 := by
  obtain ⟨h1, h2, h3, h4⟩ := hs
  unfold IsIndentChanged at *
  unfold Progress Lexer.potential Lexer.IndentOk
  split
  · rename_i hc
    refine ⟨by simp [h1], fun hi _ => ?_⟩
    simp only [h1, h3, h4]
    rw [h2, h3, h4] at hc
    split <;> split <;> simp_all <;> omega
  · split
    · rename_i hc
      refine ⟨by simp [h1], fun hi _ => ?_⟩
      simp only [h1, h3, h4]
      rw [h2, h3, h4] at hc
      split <;> split <;> simp_all <;> omega
    · rename_i hc1 hc2
      rw [if_neg hc1, if_neg hc2] at h
      exact absurd h (by simp)

theorem ParseName_progress (lx0 lx : Lexer) (hs : SameBut lx0 lx) (c : Char)
    (rest : List Char) (hin : lx.input_ = c :: rest) (hc : c.isAlpha = true ∨ c = '_') :
    Progress lx0 (ParseName lx) := by
  unfold ParseName
  by_cases h : (IsIndentChanged lx).1 = true
  · simp only [h, if_true]
    exact IsIndentChanged_progress lx0 lx hs h
  · have hf : (IsIndentChanged lx).1 = false := by simpa using h
    have he := IsIndentChanged_false lx hf
    simp only [hf, he]
    obtain ⟨h1, _, h3, h4⟩ := hs
    have hsuf : (ReadId (c :: rest)).2 <:+ rest := by
      unfold ReadId ReadIdLoop
      have : (c = '_' ∨ c.isAlpha = true ∨ c.isDigit = true) := by
        rcases hc with h | h
        · exact Or.inr (Or.inl h)
        · exact Or.inl h
      rw [if_pos this]
      exact ReadIdLoop_suffix rest _
    refine progress_of_shorter lx0 _ ?_ ?_ h3 h4
    · show (ReadId lx.input_).2 <:+ lx0.input_
      rw [← h1, hin]
      exact hsuf.trans (List.suffix_cons c rest)
    · show (ReadId lx.input_).2.length < lx0.input_.length
      rw [← h1, hin]
      have := hsuf.length_le
      simp only [List.length_cons]
      omega

theorem ParseNumber_progress (lx0 lx : Lexer) (hs : SameBut lx0 lx) (c : Char)
    (rest : List Char) (hin : lx.input_ = c :: rest) (hc : c.isDigit = true) :
    Progress lx0 (ParseNumber lx) := by
  obtain ⟨h1, _, h3, h4⟩ := hs
  have hsuf : (ReadNumberLoop 0 (c :: rest)).2 <:+ rest := by
    unfold ReadNumberLoop
    rw [if_pos hc]
    exact ReadNumberLoop_suffix rest _
  unfold ParseNumber ReadNumber
  refine progress_of_shorter lx0 _ ?_ ?_ h3 h4
  · show (ReadNumberLoop 0 lx.input_).2 <:+ lx0.input_
    rw [← h1, hin]
    exact hsuf.trans (List.suffix_cons c rest)
  · show (ReadNumberLoop 0 lx.input_).2.length < lx0.input_.length
    rw [← h1, hin]
    have := hsuf.length_le
    simp only [List.length_cons]
    omega

theorem ParseChar_progress (lx0 lx : Lexer) (hs : SameBut lx0 lx) (c : Char)
    (rest : List Char) (hin : lx.input_ = c :: rest) : Progress lx0 (ParseChar lx) := by
  obtain ⟨h1, _, h3, h4⟩ := hs
  have ht : rest.tail <:+ rest := List.tail_suffix rest
  have hl := ht.length_le
  unfold ParseChar
  simp only [hin, List.head?_cons, List.tail_cons]
  split_ifs <;> refine progress_of_shorter lx0 _ ?_ ?_ h3 h4 <;>
    simp only [← h1, hin, List.length_cons] <;>
    first
    | exact ht.trans (List.suffix_cons c rest)
    | exact List.suffix_cons c rest
    | omega

theorem NoQuote.of_suffix {l1 l : List Char} (h : NoQuote l) (hs : l1 <:+ l) : NoQuote l1 :=
  fun c hc => h c (hs.subset hc)

theorem ParseToken_progress (fuel : Nat) (lx : Lexer) (c : Char) (rest : List Char)
    (hin : lx.input_ = c :: rest) (hq : NoQuote lx.input_) :
    ∃ lx1, ParseToken fuel lx = some lx1 ∧ Progress lx lx1 := by
  have hs : SameBut lx { lx with is_line_start_ := false } := ⟨rfl, rfl, rfl, rfl⟩
  have hc := hq c (by rw [hin]; exact List.mem_cons_self c rest)
  have hh : lx.input_.head? = some c := by rw [hin]; rfl
  unfold ParseToken
  simp only [hh]
  split_ifs with h1 h2 h3
  · exact ⟨_, rfl, ParseNumber_progress lx _ hs c rest hin h1⟩
  · rcases h2 with h | h
    · exact absurd h hc.1
    · exact absurd h hc.2
  · exact ⟨_, rfl, ParseName_progress lx _ hs c rest hin h3⟩
  · exact ⟨_, rfl, ParseChar_progress lx _ hs c rest hin⟩

theorem potential_input_le (lx : Lexer) (l : List Char) (h : l.length ≤ lx.input_.length) :
    Lexer.potential { lx with input_ := l } ≤ lx.potential := by
  unfold Lexer.potential
  simp only []
  split_ifs <;> omega

theorem SkipComment_within (lx : Lexer) : Within lx (SkipComment lx) := by
  have hd : lx.input_.dropWhile (fun c => c ≠ '\n') <:+ lx.input_ :=
    List.dropWhile_suffix _
  have hl := hd.length_le
  unfold SkipComment
  split
  · rename_i he
    exact ⟨List.nil_suffix, fun hi => ⟨hi, potential_input_le lx [] (Nat.zero_le _)⟩⟩
  · rename_i c rest he
    rw [he] at hd hl
    simp only [List.length_cons] at hl
    split_ifs
    · exact ⟨(List.suffix_cons c rest).trans hd,
        fun hi => ⟨hi, potential_input_le lx rest (by omega)⟩⟩
    · exact ⟨hd, fun hi => ⟨hi, potential_input_le lx (c :: rest) (by simpa using hl)⟩⟩

theorem ParseLineEnd_progress (next : Lexer → Option Lexer) (n : Nat)
    (hnext : ∀ l, NoQuote l.input_ → l.input_.length < n →
      ∃ l1, next l = some l1 ∧ Progress l l1)
    (lx : Lexer) (hq : NoQuote lx.input_) (hlen : lx.input_.length < n + 1)
    (hne : lx.input_ ≠ []) : ∃ lx1, ParseLineEnd next lx = some lx1 ∧ Progress lx lx1 := by
  have ht : lx.input_.tail <:+ lx.input_ := List.tail_suffix _
  have hl : lx.input_.tail.length + 1 = lx.input_.length := by
    cases h : lx.input_ with
    | nil => exact absurd h hne
    | cons c rest => simp
  have hw : Within lx ⟨lx.input_.tail, lx.current_token_, 0, lx.current_indent_, true⟩ := by
    refine ⟨ht, fun hi => ⟨⟨le_refl 0, hi.2⟩, ?_⟩⟩
    unfold Lexer.potential
    simp only []
    have := hi.2
    split_ifs <;> simp_all <;> omega
  unfold ParseLineEnd
  simp only []
  split_ifs with h1
  · refine ⟨_, rfl, ht, fun hi _ => ?_⟩
    unfold Lexer.potential
    simp only []
    have := hi.2
    split_ifs <;> simp_all <;> omega
  · obtain ⟨l1, e1, p1⟩ := hnext ⟨lx.input_.tail, lx.current_token_, 0, lx.current_indent_, true⟩
      (hq.of_suffix ht) (by simp only []; omega)
    exact ⟨l1, e1, Progress.of_within hw p1⟩

theorem spaces_split (l : List Char) (rest : List Char) (h : l = ' ' :: rest) :
    (l.takeWhile (fun c => c = ' ')).length + (l.dropWhile (fun c => c = ' ')).length =
      l.length ∧ 1 ≤ (l.takeWhile (fun c => c = ' ')).length := by
  constructor
  · rw [← List.length_append, List.takeWhile_append_dropWhile]
  · subst h
    simp [List.takeWhile_cons]

set_option linter.unnecessarySeqFocus false in
theorem ParseSpaces_progress (next : Lexer → Option Lexer) (n : Nat)
    (hnext : ∀ l, NoQuote l.input_ → l.input_.length < n →
      ∃ l1, next l = some l1 ∧ Progress l l1)
    (lx : Lexer) (hq : NoQuote lx.input_) (hlen : lx.input_.length < n + 1)
    (rest : List Char) (hin : lx.input_ = ' ' :: rest) :
    ∃ lx1, ParseSpaces next lx = some lx1 ∧ Progress lx lx1 := by
  obtain ⟨hsum, hpos⟩ := spaces_split lx.input_ rest hin
  have hd : lx.input_.dropWhile (fun c => c = ' ') <:+ lx.input_ := List.dropWhile_suffix _
  have hw : Within lx { lx with input_ := lx.input_.dropWhile (fun c => c = ' ') } :=
    ⟨hd, fun hi => ⟨hi, potential_input_le lx _ hd.length_le⟩⟩
  have hq1 := hq.of_suffix hd
  have hlen1 : (lx.input_.dropWhile (fun c => c = ' ')).length < n := by omega
  have hm : lx.is_line_start_ = true → Within lx ⟨lx.input_.dropWhile (fun c => c = ' '),
      lx.current_token_, ((lx.input_.takeWhile (fun c => c = ' ')).length : Int) / 2,
      lx.current_indent_, lx.is_line_start_⟩ := by
    intro hls
    refine ⟨hd, fun hi => ⟨⟨by simp only []; omega, hi.2⟩, ?_⟩⟩
    have := hi.2
    unfold Lexer.potential
    simp only [hls]
    split_ifs <;> simp_all <;> omega
  unfold ParseSpaces
  simp only []
  split
  · rename_i c hc
    split_ifs with h1 h2 h3 h4
    · have hk := SkipComment_within { lx with input_ := lx.input_.dropWhile (fun c => c = ' ') }
      obtain ⟨l1, e1, p1⟩ := hnext _ (hq1.of_suffix hk.1) (by
        have := hk.1.length_le
        simp only [] at this
        omega)
      exact ⟨l1, e1, Progress.of_within hw (Progress.of_within hk p1)⟩
    · have hne : lx.input_.dropWhile (fun c => c = ' ') ≠ [] := by
        intro he
        simp [he] at hc
      obtain ⟨l1, e1, p1⟩ := ParseLineEnd_progress next n hnext
        { lx with input_ := lx.input_.dropWhile (fun c => c = ' ') } hq1
        (by simp only []; omega) hne
      exact ⟨l1, e1, Progress.of_within hw p1⟩
    · exact ⟨_, rfl, Progress.of_within (hm h3) (IsIndentChanged_progress _ _ ⟨rfl, rfl, rfl, rfl⟩ h4)⟩
    · have hf := IsIndentChanged_false _ (by simpa using h4)
      rw [hf]
      obtain ⟨l1, e1, p1⟩ := hnext ⟨lx.input_.dropWhile (fun c => c = ' '), lx.current_token_,
        ((lx.input_.takeWhile (fun c => c = ' ')).length : Int) / 2, lx.current_indent_,
        lx.is_line_start_⟩ hq1 hlen1
      exact ⟨l1, e1, Progress.of_within (hm h3) p1⟩
    · obtain ⟨l1, e1, p1⟩ := hnext ⟨lx.input_.dropWhile (fun c => c = ' '), lx.current_token_,
        lx.line_indent_, lx.current_indent_, lx.is_line_start_⟩ hq1 hlen1
      exact ⟨l1, e1, Progress.of_within hw p1⟩
  · exact ⟨_, rfl, Progress.of_within hw (ParseEnd_progress _)⟩

theorem ParseNextToken_progress (fuel : Nat) :
    ∀ lx : Lexer, NoQuote lx.input_ → lx.input_.length < fuel →
      ∃ lx1, ParseNextToken fuel lx = some lx1 ∧ Progress lx lx1 := by
  induction fuel with
  | zero => intro lx _ h; exact absurd h (Nat.not_lt_zero _)
  | succ n ih =>
    intro lx hq hlen
    unfold ParseNextToken
    rcases hin : lx.input_ with _ | ⟨c, rest⟩
    · simp only [List.head?_nil]
      have := ParseEnd_progress lx
      exact ⟨_, rfl, this⟩
    · simp only [List.head?_cons]
      split_ifs with h1 h2 h3
      · exact ParseLineEnd_progress _ n ih lx hq hlen (by simp [hin])
      · exact ParseSpaces_progress _ n ih lx hq hlen rest (by rw [hin, h2])
      · have hk := SkipComment_within lx
        have hlt : (SkipComment lx).input_.length < n := by
          unfold SkipComment
          have hd : (c :: rest).dropWhile (fun c => c ≠ '\n') <:+ rest := by
            rw [List.dropWhile_cons_of_pos (by simp [h3])]
            exact List.dropWhile_suffix _
          have hl := hd.length_le
          rw [hin] at hlen ⊢
          simp only [List.length_cons] at hlen
          split
          · simp
            omega
          · rename_i c1 r1 he
            rw [he] at hl
            simp only [List.length_cons] at hl
            split_ifs <;> simp only [List.length_cons] <;> omega
        obtain ⟨l1, e1, p1⟩ := ih _ (hq.of_suffix hk.1) hlt
        exact ⟨l1, e1, Progress.of_within hk p1⟩
      · exact ParseToken_progress n lx c rest hin hq

theorem tokensFrom_total (fuel : Nat) :
    ∀ lx : Lexer, NoQuote lx.input_ → lx.IndentOk → 1 ≤ fuel →
      (lx.current_token_ ≠ Token.Eof → lx.potential + 2 ≤ fuel) →
      ∃ r, tokensFrom fuel lx = some r := by
  induction fuel with
  | zero => intro lx _ _ h; omega
  | succ n ih =>
    intro lx hq hi _ hp
    unfold tokensFrom Lexer.CurrentToken Lexer.NextToken
    split_ifs with he
    · exact ⟨_, rfl⟩
    · have hp1 := hp he
      have hlen : lx.input_.length < n := by
        unfold Lexer.potential at hp1
        omega
      obtain ⟨l1, e1, hs, pr⟩ := ParseNextToken_progress n lx hq hlen
      have hi1 := (ParseNextToken_stepOk n lx l1 e1).1 hi
      obtain ⟨r, hr⟩ := ih l1 (hq.of_suffix hs) hi1 (by omega)
        (fun h1 => by have := pr hi h1; omega)
      exact ⟨(lx.current_token_ :: r.1, r.2), by rw [e1]; simp [hr]⟩

theorem skipNewlines_total (fuel : Nat) :
    ∀ lx : Lexer, NoQuote lx.input_ → lx.IndentOk → 1 ≤ fuel →
      (lx.current_token_ ≠ Token.Eof → lx.potential + 2 ≤ fuel) →
      ∃ l1, skipNewlines fuel lx = some l1 ∧ NoQuote l1.input_ ∧ l1.IndentOk ∧
        (l1.current_token_ ≠ Token.Eof → l1.potential + 2 ≤ fuel) := by
  induction fuel with
  | zero => intro lx _ _ h; omega
  | succ n ih =>
    intro lx hq hi _ hp
    unfold skipNewlines
    split_ifs with hn
    · have hp1 := hp (by rw [hn]; exact fun h => Token.noConfusion h)
      have hlen : lx.input_.length < n := by
        unfold Lexer.potential at hp1
        omega
      obtain ⟨l1, e1, hs, pr⟩ := ParseNextToken_progress n lx hq hlen
      have hi1 := (ParseNextToken_stepOk n lx l1 e1).1 hi
      obtain ⟨l2, e2, q2, i2, p2⟩ := ih l1 (hq.of_suffix hs) hi1 (by omega)
        (fun h1 => by have := pr hi h1; omega)
      exact ⟨l2, by rw [e1]; simpa using e2, q2, i2, fun h => by have := p2 h; omega⟩
    · exact ⟨lx, rfl, hq, hi, hp⟩

/-- A source without string delimiters is lexed to the end: with fuel `4 * length + 4` or
more the constructor and the calls of `NextToken` up to the first `Eof` all return. -/
theorem tokenize_total (start : Start) (input : List Char) (hq : NoQuote input) (fuel : Nat)
    (hf : 4 * input.length + 4 ≤ fuel) : ∃ ts, tokenize start fuel input = some ts := by
  have hi : (Lexer.init start input).IndentOk := ⟨le_refl 0, le_refl 0⟩
  have hp : (Lexer.init start input).potential ≤ 4 * input.length + 1 := by
    simp only [Lexer.potential, Lexer.init]
    split_ifs <;> simp
  obtain ⟨l1, e1, hs, pr⟩ := ParseNextToken_progress fuel (Lexer.init start input) hq
    (by show input.length < fuel; omega)
  have hi1 := (ParseNextToken_stepOk fuel _ l1 e1).1 hi
  obtain ⟨l2, e2, q2, i2, p2⟩ := skipNewlines_total fuel l1 (hq.of_suffix hs) hi1 (by omega)
    (fun h1 => by have := pr hi h1; omega)
  obtain ⟨r, hr⟩ := tokensFrom_total fuel l2 q2 i2 (by omega) p2
  exact ⟨r.1, by simp [tokenize, Lexer.new, e1, e2, hr]⟩

theorem Execute_Return (impl : Impl) (n : Nat) (e : Statement) (c : Closure) (x : Context) :
    Execute impl (n + 1) (Statement.Return e) c x =
      andThen (Execute impl n e c x) fun v c1 x1 => some (Outcome.returned v, c1, x1) := rfl

theorem Execute_Compound (impl : Impl) (n : Nat) (args : List Statement) (c : Closure)
    (x : Context) :
    Execute impl (n + 1) (Statement.Compound args) c x = ExecAll (Execute impl n) args c x := rfl

theorem Execute_IfElse (impl : Impl) (n : Nat) (cond t : Statement) (e : Option Statement)
    (c : Closure) (x : Context) :
    Execute impl (n + 1) (Statement.IfElse cond t e) c x =
      andThen (Execute impl n cond c x) fun w c1 x1 =>
        if IsTrue w then Execute impl n t c1 x1
        else
          match e with
          | some else_body => Execute impl n else_body c1 x1
          | none => some (Outcome.ok Value.None, c1, x1) := rfl

theorem Execute_MethodBody (impl : Impl) (n : Nat) (body : Statement) (c : Closure)
    (x : Context) :
    Execute impl (n + 1) (Statement.MethodBody body) c x =
      match Execute impl n body c x with
      | none => none
      | some (Outcome.ok _, c1, x1) => some (Outcome.ok Value.None, c1, x1)
      | some (Outcome.returned result, c1, x1) => some (Outcome.ok result, c1, x1)
      | some (Outcome.error msg, c1, x1) => some (Outcome.error msg, c1, x1) := rfl

theorem ExecAll_returned (ex : Exec) (s : Statement) (post : List Statement) (v : Value)
    (c2 : Closure) (x2 : Context) :
    ∀ (pre : List Statement) (c : Closure) (x : Context) (w : Value) (c1 : Closure)
      (x1 : Context), ExecAll ex pre c x = some (Outcome.ok w, c1, x1) →
      ex s c1 x1 = some (Outcome.returned v, c2, x2) →
      ExecAll ex (pre ++ s :: post) c x = some (Outcome.returned v, c2, x2) := by
  intro pre
  induction pre with
  | nil =>
    intro c x w c1 x1 h hs
    simp only [ExecAll, Option.some.injEq, Prod.mk.injEq] at h
    obtain ⟨_, hc, hx⟩ := h
    subst hc hx
    simp [ExecAll, andThen, hs]
  | cons a pre ih =>
    intro c x w c1 x1 h hs
    simp only [ExecAll, List.cons_append] at h ⊢
    rcases ha : ex a c x with _ | ⟨o, ca, xa⟩
    · simp [ha, andThen] at h
    · cases o with
      | ok wa =>
        simp only [ha, andThen] at h ⊢
        exact ih ca xa w c1 x1 h hs
      | returned r => simp [ha, andThen] at h
      | error m => simp [ha, andThen] at h

theorem Unwinds.execute {impl : Impl} {n : Nat} {s : Statement} {c : Closure} {x : Context}
    {v : Value} {c2 : Closure} {x2 : Context} (h : Unwinds impl n s c x v c2 x2) :
    Execute impl n s c x = some (Outcome.returned v, c2, x2) := by
  induction h with
  | ret n e c x v c2 x2 h => simp [Execute_Return, h, andThen]
  | compound n pre post s c x w c1 x1 v c2 x2 hpre _ ih =>
    rw [Execute_Compound]
    exact ExecAll_returned _ s post v c2 x2 pre c x w c1 x1 hpre ih
  | ifThen n cond t e c x w c1 x1 v c2 x2 hcond hw _ ih =>
    simp [Execute_IfElse, hcond, andThen, hw, ih]
  | ifElse n cond t e c x w c1 x1 v c2 x2 hcond hw _ ih =>
    simp [Execute_IfElse, hcond, andThen, hw, ih]

theorem bindParams_not_returned (params : List String) :
    ∀ (args : List Value) (closure : Closure) (r : Value),
      bindParams params args closure ≠ Outcome.returned r := by
  induction params with
  | nil => intro args closure r h; simp [bindParams] at h
  | cons p ps ih =>
    intro args closure r h
    cases args with
    | nil => simp [bindParams] at h
    | cons a as => exact ih as _ r (by simpa [bindParams] using h)

theorem MethodBody_not_returned (impl : Impl) (m : Nat) (body : Statement) (c : Closure)
    (x : Context) (r : Value) (c1 : Closure) (x1 : Context) :
    Execute impl m (Statement.MethodBody body) c x ≠ some (Outcome.returned r, c1, x1) := by
  cases m with
  | zero => simp [Execute]
  | succ n =>
    rw [Execute_MethodBody]
    rcases Execute impl n body c x with _ | ⟨o, c0, x0⟩
    · simp
    · cases o <;> simp

theorem Call_not_returned (impl : Impl) (m id : Nat) (cls : Class) (method : String)
    (mtd : Method) (b : Statement) (args : List Value) (ctx : Context) (r : Value)
    (ctx1 : Context) (hm : cls.GetMethod method = some mtd)
    (hb : mtd.body = Statement.MethodBody b) :
    Call (Execute impl m) id cls method args ctx ≠ some (Outcome.returned r, ctx1) := by
  unfold Call
  split
  · simp
  · simp only [hm]
    split
    · rename_i closure _
      rw [hb]
      rcases he : Execute impl m (Statement.MethodBody b) closure ctx with _ | ⟨o, c0, x0⟩
      · simp
      · intro h
        simp only [Option.map_some', Option.some.injEq, Prod.mk.injEq] at h
        exact MethodBody_not_returned impl m b closure ctx r c0 x0 (by rw [he, h.1])
    · rename_i v hv
      exact absurd hv (bindParams_not_returned _ _ _ _)
    · simp

/-- Claim C1. If executing the body of a `MethodBody` reaches a `Return` at any depth
inside `Compound` and `IfElse` nodes, the `MethodBody` yields the value of that `Return`
and leaves exactly the closure and context the `Return` expression left, whatever
statements follow in the enclosing `Compound`s; a body that ends normally makes it yield
`None`; and a thrown value never leaves a `MethodBody`, so a `Return` inside a called
method (whose body is a `MethodBody`) does not end the caller's body. -/
theorem MethodBody_catches_return (impl : Impl) (n : Nat) (body : Statement) (c : Closure)
    (x : Context) (v : Value) (c2 : Closure) (x2 : Context)
    (h : Unwinds impl n body c x v c2 x2) :
    Execute impl (n + 1) (Statement.MethodBody body) c x = some (Outcome.ok v, c2, x2) ∧
    (∀ (body1 : Statement) (c0 : Closure) (x0 : Context) (w : Value) (c1 : Closure)
      (x1 : Context), Execute impl n body1 c0 x0 = some (Outcome.ok w, c1, x1) →
      Execute impl (n + 1) (Statement.MethodBody body1) c0 x0 =
        some (Outcome.ok Value.None, c1, x1)) ∧
    (∀ (m : Nat) (body1 : Statement) (c0 : Closure) (x0 : Context) (r : Value) (c1 : Closure)
      (x1 : Context),
      Execute impl m (Statement.MethodBody body1) c0 x0 ≠ some (Outcome.returned r, c1, x1)) ∧
    (∀ (m id : Nat) (cls : Class) (method : String) (mtd : Method) (b : Statement)
      (args : List Value) (ctx : Context) (r : Value) (ctx1 : Context),
      cls.GetMethod method = some mtd → mtd.body = Statement.MethodBody b →
      Call (Execute impl m) id cls method args ctx ≠ some (Outcome.returned r, ctx1)) := by
  refine ⟨?_, ?_, ?_, ?_⟩
  · rw [Execute_MethodBody, h.execute]
  · intro body1 c0 x0 w c1 x1 hw
    rw [Execute_MethodBody, hw]
  · intro m body1 c0 x0 r c1 x1
    exact MethodBody_not_returned impl m body1 c0 x0 r c1 x1
  · intro m id cls method mtd b args ctx r ctx1 hm hb
    exact Call_not_returned impl m id cls method mtd b args ctx r ctx1 hm hb

/-- Instance of C1: in `print 1; if True: (return 5; print 2); print 3` the method body
yields 5 and only `1` has been printed. -/
theorem MethodBody_catches_return_witness :
    Execute Impl.sample 6
        (Statement.MethodBody (Statement.Compound
          ([Statement.Print [Statement.Const (Value.Number 1)]] ++
            Statement.IfElse (Statement.Const (Value.Bool true))
              (Statement.Compound ([] ++ Statement.Return (Statement.Const (Value.Number 5)) ::
                [Statement.Print [Statement.Const (Value.Number 2)]])) none ::
            [Statement.Print [Statement.Const (Value.Number 3)]])))
        Closure.empty Context.start =
      some (Outcome.ok (Value.Number 5), Closure.empty,
        (Context.start.write "1").write "\n") := by
  refine (MethodBody_catches_return Impl.sample 5 _ Closure.empty Context.start
    (Value.Number 5) Closure.empty ((Context.start.write "1").write "\n") ?_).1
  refine Unwinds.compound 4 [Statement.Print [Statement.Const (Value.Number 1)]]
    [Statement.Print [Statement.Const (Value.Number 3)]] _ _ _ Value.None Closure.empty
    ((Context.start.write "1").write "\n") _ _ _ rfl ?_
  refine Unwinds.ifThen 3 _ _ _ _ _ (Value.Bool true) Closure.empty
    ((Context.start.write "1").write "\n") _ _ _ rfl rfl ?_
  refine Unwinds.compound 2 [] [Statement.Print [Statement.Const (Value.Number 2)]] _ _ _
    Value.None Closure.empty ((Context.start.write "1").write "\n") _ _ _ rfl ?_
  exact Unwinds.ret 1 _ _ _ _ _ _ rfl

theorem Execute_Assignment (impl : Impl) (n : Nat) (var : String) (rv : Statement)
    (c : Closure) (x : Context) :
    Execute impl (n + 1) (Statement.Assignment var rv) c x =
      andThen (Execute impl n rv c x) fun v c1 x1 =>
        some (Outcome.ok v, c1.set var v, x1) := rfl

theorem Execute_VariableValue (impl : Impl) (n : Nat) (name : String) (dotted : List String)
    (c : Closure) (x : Context) :
    Execute impl (n + 1) (Statement.VariableValue name dotted) c x =
      some (VariableValueExecute x.fields c name dotted, c, x) := rfl

theorem Execute_Const (impl : Impl) (n : Nat) (value : Value) (c : Closure) (x : Context) :
    Execute impl (n + 1) (Statement.Const value) c x = some (Outcome.ok value, c, x) := rfl

theorem Execute_Print (impl : Impl) (n : Nat) (args : List Statement) (c : Closure)
    (x : Context) :
    Execute impl (n + 1) (Statement.Print args) c x =
      PrintArgs impl (Execute impl n) n true args c x := rfl

theorem Execute_FieldAssignment (impl : Impl) (n : Nat) (name : String)
    (dotted : List String) (field : String) (rv : Statement) (c : Closure) (x : Context) :
    Execute impl (n + 1) (Statement.FieldAssignment name dotted field rv) c x =
      match VariableValueExecute x.fields c name dotted with
      | Outcome.ok (Value.ClassInstance id _) =>
        andThen (Execute impl n rv c x) fun v c1 x1 =>
          some (Outcome.ok v, c1, x1.setField id field v)
      | Outcome.ok _ => some (Outcome.error "Not a class", c, x)
      | Outcome.returned v => some (Outcome.returned v, c, x)
      | Outcome.error msg => some (Outcome.error msg, c, x) := rfl

theorem Closure.set_same (c : Closure) (name : String) (v : Value) :
    (c.set name v) name = some v := by
  simp [Closure.set]

theorem VariableValueExecute_plain (fields : Nat → Closure) (c : Closure) (name : String)
    (v : Value) (h : c name = some v) :
    VariableValueExecute fields c name [] = Outcome.ok v := by
  simp [VariableValueExecute, h]

theorem VariableValueExecute_field (fields : Nat → Closure) (c : Closure)
    (name field : String) (id : Nat) (cls : Class) (v : Value)
    (h : c name = some (Value.ClassInstance id cls)) (hf : fields id field = some v) :
    VariableValueExecute fields c name [field] = Outcome.ok v := by
  simp [VariableValueExecute, h, hf]

theorem Context.setField_same (x : Context) (id : Nat) (field : String) (v : Value) :
    (x.setField id field v).fields id field = some v := by
  simp [Context.setField, Closure.set]

theorem aliasProgram_eq (impl : Impl) (n : Nat) (x y f : String) (E V : Statement)
    (closure0 closure1 closure3 : Closure) (context0 context1 context3 : Context)
    (id : Nat) (cls : Class) (v : Value)
    (hE : Execute impl n E closure0 context0 =
      some (Outcome.ok (Value.ClassInstance id cls), closure1, context1))
    (hV : Execute impl n V
        ((closure1.set x (Value.ClassInstance id cls)).set y (Value.ClassInstance id cls))
        context1 = some (Outcome.ok v, closure3, context3))
    (hx : closure3 x = some (Value.ClassInstance id cls)) :
    Execute impl (n + 2) (aliasProgram x y f E V) closure0 context0 =
      Execute impl (n + 1) (Statement.Print [Statement.Const v]) closure3
        (context3.setField id f v) := by
  cases n with
  | zero => simp [Execute] at hE
  | succ m =>
    have hy : ((closure1.set x (Value.ClassInstance id cls)).set y
        (Value.ClassInstance id cls)) y = some (Value.ClassInstance id cls) :=
      Closure.set_same _ _ _
    have h1 : Execute impl (m + 1 + 1) (Statement.Assignment x E) closure0 context0 =
        some (Outcome.ok (Value.ClassInstance id cls),
          closure1.set x (Value.ClassInstance id cls), context1) := by
      rw [Execute_Assignment, hE]
      rfl
    have h2 : Execute impl (m + 1 + 1)
        (Statement.Assignment y (Statement.VariableValue x []))
        (closure1.set x (Value.ClassInstance id cls)) context1 =
        some (Outcome.ok (Value.ClassInstance id cls),
          (closure1.set x (Value.ClassInstance id cls)).set y (Value.ClassInstance id cls),
          context1) := by
      rw [Execute_Assignment, Execute_VariableValue,
        VariableValueExecute_plain _ _ _ _ (Closure.set_same _ _ _)]
      rfl
    have h3 : Execute impl (m + 1 + 1) (Statement.FieldAssignment y [] f V)
        ((closure1.set x (Value.ClassInstance id cls)).set y (Value.ClassInstance id cls))
        context1 = some (Outcome.ok v, closure3, context3.setField id f v) := by
      rw [Execute_FieldAssignment, VariableValueExecute_plain _ _ _ _ hy]
      simp only [hV, andThen]
    have h4 : Execute impl (m + 1) (Statement.VariableValue x [f]) closure3
        (context3.setField id f v) =
        some (Outcome.ok v, closure3, context3.setField id f v) := by
      rw [Execute_VariableValue,
        VariableValueExecute_field _ _ _ _ id cls v hx (Context.setField_same _ _ _ _)]
    unfold aliasProgram
    rw [Execute_Compound]
    simp only [ExecAll, h1, h2, h3, andThen]
    rw [Execute_Print, Execute_Print]
    simp only [PrintArgs, h4, Execute_Const, andThen, if_true]
    cases v <;> try rfl
    all_goals
      generalize withClosure closure3 _ = r
      rcases r with _ | ⟨⟨⟩, c, x⟩ <;> rfl

theorem Print_Const (impl : Impl) (n : Nat) (v : Value) (c : Closure) (x : Context) :
    Execute impl (n + 2) (Statement.Print [Statement.Const v]) c x =
      match v with
      | Value.None => some (Outcome.ok Value.None, c, (x.write "None").write "\n")
      | _ =>
        andThen (withClosure c (PrintObject impl (Execute impl (n + 1)) (n + 1) v x))
          fun text c1 x1 => some (Outcome.ok Value.None, c1, (x1.write text).write "\n") := by
  rw [Execute_Print]
  simp only [PrintArgs, Execute_Const, andThen, if_true]

/-- Claim C3 as stated fails: the `NewInstance` node inside `make` is executed twice and
both executions return the instance with identity 0; the field `v` written on the first
result is read through the second, so the program prints `1`. -/
theorem NewInstance_not_fresh :
    (Execute Impl.sample 10 factoryProgram Closure.empty Context.start).map
        (fun r => (r.2.2.output, (r.2.1 "a").bind Value.instanceId,
          (r.2.1 "b").bind Value.instanceId)) =
      some ("1\n", some 0, some 0) := by
  decide

theorem Execute_NewInstance (impl : Impl) (n id : Nat) (cls : Class) (args : List Statement)
    (c : Closure) (x : Context) :
    Execute impl (n + 1) (Statement.NewInstance id cls args) c x =
      if HasMethod cls "__init__" args.length then
        andThen (EvalArgs (Execute impl n) args c x) fun actual_args c1 x1 =>
          andThen (withClosure c1 (Call (Execute impl n) id cls "__init__" actual_args x1))
            fun _ c2 x2 => some (Outcome.ok (Value.ClassInstance id cls), c2, x2)
      else some (Outcome.ok (Value.ClassInstance id cls), c, x) := rfl

theorem andThen_ok {α β : Type} (r : Option (Outcome α × Closure × Context))
    (k : α → Closure → Context → Option (Outcome β × Closure × Context)) (b : β) (c : Closure)
    (x : Context) (h : andThen r k = some (Outcome.ok b, c, x)) :
    ∃ a c1 x1, r = some (Outcome.ok a, c1, x1) ∧ k a c1 x1 = some (Outcome.ok b, c, x) := by
  rcases r with _ | ⟨o, c1, x1⟩
  · simp [andThen] at h
  · cases o with
    | ok a => exact ⟨a, c1, x1, rfl, h⟩
    | returned v => simp [andThen] at h
    | error msg => simp [andThen] at h

theorem NewInstance_result (impl : Impl) (n id : Nat) (cls : Class) (args : List Statement)
    (c c1 : Closure) (x x1 : Context) (v : Value)
    (h : Execute impl n (Statement.NewInstance id cls args) c x = some (Outcome.ok v, c1, x1)) :
    v = Value.ClassInstance id cls ∧
      (HasMethod cls "__init__" args.length = false → c1 = c ∧ x1 = x) := by
  cases n with
  | zero => simp [Execute] at h
  | succ m =>
    rw [Execute_NewInstance] at h
    by_cases hm : HasMethod cls "__init__" args.length = true
    · rw [if_pos hm] at h
      refine ⟨?_, fun hf => by simp [hm] at hf⟩
      obtain ⟨vs, ca, xa, _, h2⟩ := andThen_ok _ _ _ _ _ h
      obtain ⟨_, cb, xb, _, h3⟩ := andThen_ok _ _ _ _ _ h2
      simp only [Option.some.injEq, Prod.mk.injEq, Outcome.ok.injEq] at h3
      exact h3.1.symm
    · rw [if_neg hm] at h
      simp only [Option.some.injEq, Prod.mk.injEq, Outcome.ok.injEq] at h
      exact ⟨h.1.symm, fun _ => ⟨h.2.1.symm, h.2.2.symm⟩⟩

/-- Claim C3, amended. A `NewInstance` node returns the one instance it owns at every
execution: when the node is executed twice (in any closures and contexts) both results
are the same instance.  The node itself changes no field: without a matching `__init__`
an execution leaves closure and context as they were, and with one it is the `__init__`
body that runs on the instance, in the context left by the arguments.  The fields of the
instance are empty only at program start. -/
theorem NewInstance_same_instance (impl : Impl) (n m id : Nat) (cls : Class)
    (args : List Statement) (c0 c1 c2 c3 : Closure) (x0 x1 x2 x3 : Context) (v1 v2 : Value)
    (h1 : Execute impl n (Statement.NewInstance id cls args) c0 x0 =
      some (Outcome.ok v1, c1, x1))
    (h2 : Execute impl m (Statement.NewInstance id cls args) c2 x2 =
      some (Outcome.ok v2, c3, x3)) :
    v1 = Value.ClassInstance id cls ∧ v2 = v1 ∧
    (HasMethod cls "__init__" args.length = false → c3 = c2 ∧ x3 = x2) ∧
    (HasMethod cls "__init__" args.length = true → ∀ (k : Nat) (c : Closure) (x : Context),
      Execute impl (k + 1) (Statement.NewInstance id cls args) c x =
        andThen (EvalArgs (Execute impl k) args c x) fun actual_args ca xa =>
          andThen (withClosure ca (Call (Execute impl k) id cls "__init__" actual_args xa))
            fun _ cb xb => some (Outcome.ok (Value.ClassInstance id cls), cb, xb)) ∧
    Context.start.fields id = Closure.empty := by
  obtain ⟨a1, _⟩ := NewInstance_result impl n id cls args c0 c1 x0 x1 v1 h1
  obtain ⟨a2, b2⟩ := NewInstance_result impl m id cls args c2 c3 x2 x3 v2 h2
  refine ⟨a1, by rw [a1, a2], b2, ?_, rfl⟩
  intro hm k c x
  rw [Execute_NewInstance, if_pos hm]

/-- Instance of the amended C3: the node `Box()` of identity 0 executed in the start
context and again after the field `v` of instance 0 was set. -/
theorem NewInstance_same_instance_witness :
    Value.ClassInstance 0 boxClass = Value.ClassInstance 0 boxClass ∧
    Value.ClassInstance 0 boxClass = Value.ClassInstance 0 boxClass ∧
    (HasMethod boxClass "__init__" ([] : List Statement).length = false →
      Closure.empty = Closure.empty ∧
      Context.start.setField 0 "v" (Value.Number 1) =
        Context.start.setField 0 "v" (Value.Number 1)) :=
  have h := NewInstance_same_instance Impl.sample 1 1 0 boxClass [] Closure.empty
    Closure.empty Closure.empty Closure.empty Context.start Context.start
    (Context.start.setField 0 "v" (Value.Number 1))
    (Context.start.setField 0 "v" (Value.Number 1))
    (Value.ClassInstance 0 boxClass) (Value.ClassInstance 0 boxClass) rfl rfl
  ⟨h.1, h.2.1, h.2.2.1⟩

theorem Keeps.ofSome {α : Type} (c : Closure) (o : Outcome α) (x : Context) :
    Keeps c (some (o, c, x)) := by
  intro o1 c1 x1 h
  simp only [Option.some.injEq, Prod.mk.injEq] at h
  exact h.2.1.symm

theorem Keeps.ofCall {α : Type} (c : Closure) (r : Option (Outcome α × Context)) :
    Keeps c (withClosure c r) := by
  intro o c1 x1 h
  rcases r with _ | ⟨o2, x2⟩
  · simp [Mython.withClosure] at h
  · simp only [Mython.withClosure, Option.map_some', Option.some.injEq, Prod.mk.injEq] at h
    exact h.2.1.symm

theorem Keeps.seq {α β : Type} (c : Closure) (r : Option (Outcome α × Closure × Context))
    (k : α → Closure → Context → Option (Outcome β × Closure × Context))
    (hr : Keeps c r) (hk : ∀ a x, Keeps c (k a c x)) : Keeps c (andThen r k) := by
  intro o c1 x1 h
  rcases r with _ | ⟨o2, c2, x2⟩
  · simp [Mython.andThen] at h
  · have hc := hr o2 c2 x2 rfl
    subst hc
    cases o2 with
    | ok a => exact hk a x2 o c1 x1 h
    | returned v =>
      simp only [Mython.andThen, Option.some.injEq, Prod.mk.injEq] at h
      exact h.2.1.symm
    | error msg =>
      simp only [Mython.andThen, Option.some.injEq, Prod.mk.injEq] at h
      exact h.2.1.symm

theorem EvalArgs_keeps (ex : Exec) :
    ∀ (args : List Statement) (c : Closure) (x : Context),
      (∀ a ∈ args, ∀ x1, Keeps c (ex a c x1)) → Keeps c (EvalArgs ex args c x) := by
  intro args
  induction args with
  | nil => intro c x _; exact Keeps.ofSome c _ x
  | cons a rest ih =>
    intro c x h
    unfold EvalArgs
    refine Keeps.seq c _ _ (h a (List.mem_cons_self a rest) x) ?_
    intro v x1
    refine Keeps.seq c _ _ (ih c x1 (fun b hb => h b (List.mem_cons_of_mem a hb))) ?_
    intro vs x2
    exact Keeps.ofSome c _ x2

theorem EvalBoth_keeps (ex : Exec) (l r : Statement) (c : Closure) (x : Context)
    (hl : ∀ x1, Keeps c (ex l c x1)) (hr : ∀ x1, Keeps c (ex r c x1)) :
    Keeps c (EvalBoth ex l r c x) := by
  unfold EvalBoth
  refine Keeps.seq c _ _ (hl x) ?_
  intro a x1
  refine Keeps.seq c _ _ (hr x1) ?_
  intro b x2
  exact Keeps.ofSome c _ x2

theorem EvalBothCmp_keeps (impl : Impl) (ex : Exec) (l r : Statement) (c : Closure)
    (x : Context) (hl : ∀ x1, Keeps c (ex l c x1)) (hr : ∀ x1, Keeps c (ex r c x1)) :
    Keeps c (EvalBothCmp impl ex l r c x) := by
  unfold EvalBothCmp
  split
  · refine Keeps.seq c _ _ (hr x) ?_
    intro b x1
    refine Keeps.seq c _ _ (hl x1) ?_
    intro a x2
    exact Keeps.ofSome c _ x2
  · exact EvalBoth_keeps ex l r c x hl hr

theorem Execute_keeps (impl : Impl) (n : Nat) :
    ∀ (s : Statement), IsExpression s → ∀ (c : Closure) (x : Context),
      Keeps c (Execute impl n s c x) := by
  induction n with
  | zero =>
    intro s _ c x o c1 x1 h
    simp [Execute] at h
  | succ m ih =>
    intro s hs c x
    cases hs with
    | const v => exact Keeps.ofSome c _ x
    | var name dotted => exact Keeps.ofSome c _ x
    | methodCall obj method args hobj hargs =>
      rw [Execute]
      try simp only []
      refine Keeps.seq c _ _ (ih obj hobj c x) ?_
      intro o x1
      cases o
      case ClassInstance id cls =>
        refine Keeps.seq c _ _
          (EvalArgs_keeps _ args c x1 (fun a ha x2 => ih a (hargs a ha) c x2)) ?_
        intro vs x2
        exact Keeps.ofCall c _
      all_goals exact Keeps.ofSome c _ x1
    | stringify a h =>
      rw [Execute]
      try simp only []
      refine Keeps.seq c _ _ (ih a h c x) ?_
      intro o x1
      cases o
      case None => exact Keeps.ofSome c _ x1
      all_goals
        refine Keeps.seq c _ _ (Keeps.ofCall c _) ?_
        intro text x2
        exact Keeps.ofSome c _ x2
    | add l r hl hr =>
      rw [Execute]
      try simp only []
      refine Keeps.seq c _ _ (EvalBoth_keeps _ l r c x (ih l hl c) (ih r hr c)) ?_
      rintro ⟨a, b⟩ x1
      cases a <;> cases b <;> first | exact Keeps.ofSome c _ x1 | exact Keeps.ofCall c _
    | sub l r hl hr =>
      rw [Execute]
      try simp only []
      refine Keeps.seq c _ _ (EvalBoth_keeps _ l r c x (ih l hl c) (ih r hr c)) ?_
      rintro ⟨a, b⟩ x1
      cases a <;> cases b <;> exact Keeps.ofSome c _ x1
    | mult l r hl hr =>
      rw [Execute]
      try simp only []
      refine Keeps.seq c _ _ (EvalBoth_keeps _ l r c x (ih l hl c) (ih r hr c)) ?_
      rintro ⟨a, b⟩ x1
      cases a <;> cases b <;> exact Keeps.ofSome c _ x1
    | div l r hl hr =>
      rw [Execute]
      try simp only []
      refine Keeps.seq c _ _ (EvalBoth_keeps _ l r c x (ih l hl c) (ih r hr c)) ?_
      rintro ⟨a, b⟩ x1
      cases a <;> cases b <;> simp only [] <;> (try split_ifs) <;>
        exact Keeps.ofSome c _ x1
    | disj l r hl hr =>
      rw [Execute]
      try simp only []
      refine Keeps.seq c _ _ (ih l hl c x) ?_
      intro a x1
      split
      · exact Keeps.ofSome c _ x1
      · refine Keeps.seq c _ _ (ih r hr c x1) ?_
        intro b x2
        exact Keeps.ofSome c _ x2
    | conj l r hl hr =>
      rw [Execute]
      try simp only []
      refine Keeps.seq c _ _ (ih l hl c x) ?_
      intro a x1
      split
      · refine Keeps.seq c _ _ (ih r hr c x1) ?_
        intro b x2
        exact Keeps.ofSome c _ x2
      · exact Keeps.ofSome c _ x1
    | neg a h =>
      rw [Execute]
      try simp only []
      refine Keeps.seq c _ _ (ih a h c x) ?_
      intro b x1
      exact Keeps.ofSome c _ x1
    | comparison cmp l r hl hr =>
      rw [Execute]
      try simp only []
      refine Keeps.seq c _ _ (EvalBothCmp_keeps impl _ l r c x (ih l hl c) (ih r hr c)) ?_
      intro p x1
      refine Keeps.seq c _ _ (Keeps.ofCall c _) ?_
      intro b x2
      exact Keeps.ofSome c _ x2
    | newInstance id cls args hargs =>
      rw [Execute]
      try simp only []
      split
      · refine Keeps.seq c _ _
          (EvalArgs_keeps _ args c x (fun a ha x2 => ih a (hargs a ha) c x2)) ?_
        intro vs x1
        refine Keeps.seq c _ _ (Keeps.ofCall c _) ?_
        intro w x2
        exact Keeps.ofSome c _ x2
      · exact Keeps.ofSome c _ x

theorem Le.same {α : Type} (r : Option α) : Le r r := fun _ h => h

theorem Le.start {α : Type} (r : Option α) : Le none r := fun _ h => by simp at h

theorem Le.step {α β : Type} {r1 r2 : Option (Outcome α × Closure × Context)}
    {k1 k2 : α → Closure → Context → Option (Outcome β × Closure × Context)}
    (hr : Le r1 r2) (hk : ∀ a c x, Le (k1 a c x) (k2 a c x)) :
    Le (andThen r1 k1) (andThen r2 k2) := by
  intro v h
  rcases r1 with _ | ⟨o, c, x⟩
  · simp [Mython.andThen] at h
  · rw [hr _ rfl]
    cases o with
    | ok a => exact hk a c x v h
    | returned w => exact h
    | error msg => exact h

theorem Le.mapped {α β : Type} {r1 r2 : Option α} (f : α → β) (hr : Le r1 r2) :
    Le (r1.map f) (r2.map f) := by
  intro v h
  rcases r1 with _ | a
  · simp at h
  · rw [hr _ rfl]
    exact h

theorem Le.call {α : Type} {r1 r2 : Option (Outcome α × Context)} (c : Closure)
    (hr : Le r1 r2) : Le (withClosure c r1) (withClosure c r2) :=
  Le.mapped _ hr

theorem Call_le {ex1 ex2 : Exec} (h : ExLe ex1 ex2) (id : Nat) (cls : Class)
    (method : String) (args : List Value) (x : Context) :
    Le (Call ex1 id cls method args x) (Call ex2 id cls method args x) := by
  unfold Call
  split
  · exact Le.same _
  · split
    · exact Le.same _
    · split
      · exact Le.mapped _ (h _ _ _)
      · exact Le.same _
      · exact Le.same _

theorem PrintObject_le (impl : Impl) {ex1 ex2 : Exec} (h : ExLe ex1 ex2) (k : Nat) :
    ∀ (v : Value) (x : Context),
      Le (PrintObject impl ex1 k v x) (PrintObject impl ex2 (k + 1) v x) := by
  induction k with
  | zero => intro v x; exact Le.start _
  | succ n ih =>
    intro v x
    cases v
    case ClassInstance id cls =>
      rw [PrintObject, PrintObject]
      split
      · intro r hr
        have hc := Call_le h id cls "__str__" [] x
        rcases hcall : Call ex1 id cls "__str__" [] x with _ | ⟨o, x1⟩
        · simp [hcall] at hr
        · rw [hc _ hcall]
          rw [hcall] at hr
          cases o with
          | ok w => exact ih w x1 r hr
          | returned w => exact hr
          | error msg => exact hr
      · exact Le.same _
    all_goals exact Le.same _

theorem Equal_le {ex1 ex2 : Exec} (h : ExLe ex1 ex2) (lhs rhs : Value) (x : Context) :
    Le (Equal ex1 lhs rhs x) (Equal ex2 lhs rhs x) := by
  unfold Equal
  split
  · exact Le.mapped _ (Call_le h _ _ _ _ _)
  · exact Le.same _
  · exact Le.same _

theorem Less_le {ex1 ex2 : Exec} (h : ExLe ex1 ex2) (lhs rhs : Value) (x : Context) :
    Le (Less ex1 lhs rhs x) (Less ex2 lhs rhs x) := by
  unfold Less
  split
  · exact Le.mapped _ (Call_le h _ _ _ _ _)
  · exact Le.same _

theorem Greater_le {ex1 ex2 : Exec} (h : ExLe ex1 ex2) (lhs rhs : Value) (x : Context) :
    Le (Greater ex1 lhs rhs x) (Greater ex2 lhs rhs x) := by
  intro r hr
  unfold Greater at hr ⊢
  rcases hl : Less ex1 lhs rhs x with _ | ⟨o, x1⟩
  · simp [hl] at hr
  · rw [Less_le h lhs rhs x _ hl]
    rw [hl] at hr
    cases o with
    | ok b =>
      cases b with
      | true => exact hr
      | false => exact Le.mapped _ (Equal_le h lhs rhs x1) r hr
    | returned w => exact hr
    | error msg => exact hr

theorem applyComparator_le {ex1 ex2 : Exec} (h : ExLe ex1 ex2) (cmp : Comparator)
    (lhs rhs : Value) (x : Context) :
    Le (applyComparator cmp ex1 lhs rhs x) (applyComparator cmp ex2 lhs rhs x) := by
  cases cmp
  · exact Equal_le h lhs rhs x
  · exact Le.mapped _ (Equal_le h lhs rhs x)
  · exact Less_le h lhs rhs x
  · exact Greater_le h lhs rhs x
  · exact Le.mapped _ (Greater_le h lhs rhs x)
  · exact Le.mapped _ (Less_le h lhs rhs x)

theorem EvalArgs_le {ex1 ex2 : Exec} (h : ExLe ex1 ex2) :
    ∀ (args : List Statement) (c : Closure) (x : Context),
      Le (EvalArgs ex1 args c x) (EvalArgs ex2 args c x) := by
  intro args
  induction args with
  | nil => intro c x; exact Le.same _
  | cons a rest ih =>
    intro c x
    unfold EvalArgs
    exact Le.step (h a c x) fun v c1 x1 =>
      Le.step (ih c1 x1) fun vs c2 x2 => Le.same _

theorem ExecAll_le {ex1 ex2 : Exec} (h : ExLe ex1 ex2) :
    ∀ (args : List Statement) (c : Closure) (x : Context),
      Le (ExecAll ex1 args c x) (ExecAll ex2 args c x) := by
  intro args
  induction args with
  | nil => intro c x; exact Le.same _
  | cons a rest ih =>
    intro c x
    unfold ExecAll
    exact Le.step (h a c x) fun v c1 x1 => ih c1 x1

theorem PrintArgs_le (impl : Impl) {ex1 ex2 : Exec} (h : ExLe ex1 ex2) (k : Nat) :
    ∀ (args : List Statement) (first : Bool) (c : Closure) (x : Context),
      Le (PrintArgs impl ex1 k first args c x) (PrintArgs impl ex2 (k + 1) first args c x) := by
  intro args
  induction args with
  | nil => intro first c x; exact Le.same _
  | cons a rest ih =>
    intro first c x
    unfold PrintArgs
    refine Le.step (h a c _) fun obj c1 x1 => ?_
    cases obj
    case None => exact ih false c1 _
    all_goals
      exact Le.step (Le.call c1 (PrintObject_le impl h k _ x1))
        fun text c2 x2 => ih false c2 _

theorem EvalBoth_le {ex1 ex2 : Exec} (h : ExLe ex1 ex2) (l r : Statement) (c : Closure)
    (x : Context) : Le (EvalBoth ex1 l r c x) (EvalBoth ex2 l r c x) := by
  unfold EvalBoth
  exact Le.step (h l c x) fun a c1 x1 => Le.step (h r c1 x1) fun b c2 x2 => Le.same _

theorem EvalBothCmp_le (impl : Impl) {ex1 ex2 : Exec} (h : ExLe ex1 ex2) (l r : Statement)
    (c : Closure) (x : Context) :
    Le (EvalBothCmp impl ex1 l r c x) (EvalBothCmp impl ex2 l r c x) := by
  unfold EvalBothCmp
  split
  · exact Le.step (h r c x) fun b c1 x1 => Le.step (h l c1 x1) fun a c2 x2 => Le.same _
  · exact EvalBoth_le h l r c x

theorem Execute_le (impl : Impl) (n : Nat) :
    ExLe (Execute impl n) (Execute impl (n + 1)) := by
  induction n with
  | zero => intro s c x; exact Le.start _
  | succ m ih =>
    intro s c x
    cases s with
    | Const v => exact Le.same _
    | Assignment var rv =>
      exact Le.step (ih rv c x) fun v c1 x1 => Le.same _
    | VariableValue name dotted => exact Le.same _
    | Print args => exact PrintArgs_le impl ih m args true c x
    | MethodCall obj method args =>
      rw [Execute, Execute]
      refine Le.step (ih obj c x) fun o c1 x1 => ?_
      cases o
      case ClassInstance id cls =>
        exact Le.step (EvalArgs_le ih args c1 x1) fun vs c2 x2 =>
          Le.call c2 (Call_le ih id cls method vs x2)
      all_goals exact Le.same _
    | Stringify a =>
      rw [Execute, Execute]
      refine Le.step (ih a c x) fun o c1 x1 => ?_
      cases o
      case None => exact Le.same _
      all_goals
        exact Le.step (Le.call c1 (PrintObject_le impl ih m _ x1))
          fun text c2 x2 => Le.same _
    | Add l r =>
      rw [Execute, Execute]
      refine Le.step (EvalBoth_le ih l r c x) fun p c1 x1 => ?_
      rcases p with ⟨a, b⟩
      cases a <;> cases b <;>
        first
        | exact Le.same _
        | exact Le.call c1 (Call_le ih _ _ _ _ _)
    | Sub l r =>
      rw [Execute, Execute]
      exact Le.step (EvalBoth_le ih l r c x) fun p c1 x1 => Le.same _
    | Mult l r =>
      rw [Execute, Execute]
      exact Le.step (EvalBoth_le ih l r c x) fun p c1 x1 => Le.same _
    | Div l r =>
      rw [Execute, Execute]
      exact Le.step (EvalBoth_le ih l r c x) fun p c1 x1 => Le.same _
    | Compound args => exact ExecAll_le ih args c x
    | Return e => exact Le.step (ih e c x) fun v c1 x1 => Le.same _
    | ClassDefinition cls => exact Le.same _
    | FieldAssignment name dotted field rv =>
      rw [Execute_FieldAssignment, Execute_FieldAssignment]
      split
      · exact Le.step (ih rv c x) fun v c1 x1 => Le.same _
      · exact Le.same _
      · exact Le.same _
      · exact Le.same _
    | IfElse cond t e =>
      rw [Execute_IfElse, Execute_IfElse]
      refine Le.step (ih cond c x) fun w c1 x1 => ?_
      split
      · exact ih t c1 x1
      · cases e with
        | none => exact Le.same _
        | some eb => exact ih eb c1 x1
    | Or l r =>
      rw [Execute, Execute]
      refine Le.step (ih l c x) fun a c1 x1 => ?_
      split
      · exact Le.same _
      · exact Le.step (ih r c1 x1) fun b c2 x2 => Le.same _
    | And l r =>
      rw [Execute, Execute]
      refine Le.step (ih l c x) fun a c1 x1 => ?_
      split
      · exact Le.step (ih r c1 x1) fun b c2 x2 => Le.same _
      · exact Le.same _
    | Not a =>
      rw [Execute, Execute]
      exact Le.step (ih a c x) fun b c1 x1 => Le.same _
    | Comparison cmp l r =>
      rw [Execute, Execute]
      exact Le.step (EvalBothCmp_le impl ih l r c x) fun p c1 x1 =>
        Le.step (Le.call c1 (applyComparator_le ih cmp p.1 p.2 x1))
          fun b c2 x2 => Le.same _
    | NewInstance id cls args =>
      rw [Execute_NewInstance, Execute_NewInstance]
      split
      · exact Le.step (EvalArgs_le ih args c x) fun vs c1 x1 =>
          Le.step (Le.call c1 (Call_le ih id cls "__init__" vs x1))
            fun w c2 x2 => Le.same _
      · exact Le.same _
    | MethodBody body =>
      rw [Execute_MethodBody, Execute_MethodBody]
      intro r hr
      rcases hb : Execute impl m body c x with _ | ⟨o, c1, x1⟩
      · simp [hb] at hr
      · rw [ih body c x _ hb]
        rw [hb] at hr
        exact hr

/-- More fuel never changes a result of `Execute`: what returns with fuel `n` returns the
same with any fuel `m ≥ n`. -/
theorem Execute_mono (impl : Impl) (n m : Nat) (h : n ≤ m) (s : Statement) (c : Closure)
    (x : Context) (r : ExecResult) (hr : Execute impl n s c x = some r) :
    Execute impl m s c x = some r := by
  induction m with
  | zero =>
    have : n = 0 := by omega
    subst this
    exact hr
  | succ k ih =>
    by_cases hk : n ≤ k
    · exact Execute_le impl k s c x r (ih hk)
    · have : n = k + 1 := by omega
      subst this
      exact hr

/-- Claim C2. Assignment aliases instances: when `E` evaluates to an instance and `V`
is an expression that evaluates to `v`, the program `x = E; y = x; y.f = V; print x.f`
(with enough fuel for both) ends exactly like `print v` run after the field write: the field written through `y` is
read through `x`, and the `Print` writes the printed form of `v` (the text `None` for an
empty holder, else what `PrintObject` gives) followed by a newline. -/
theorem assignment_aliases (impl : Impl) (nE nV n : Nat) (x y f : String)
    (E V : Statement)
    (closure0 closure1 closure3 : Closure) (context0 context1 context3 : Context)
    (id : Nat) (cls : Class) (v : Value)
    (hE0 : Execute impl nE E closure0 context0 =
      some (Outcome.ok (Value.ClassInstance id cls), closure1, context1))
    (hV0 : Execute impl nV V
        ((closure1.set x (Value.ClassInstance id cls)).set y (Value.ClassInstance id cls))
        context1 = some (Outcome.ok v, closure3, context3))
    (hexpr : IsExpression V) (hnE : nE ≤ n) (hnV : nV ≤ n) :
    Execute impl (n + 2) (aliasProgram x y f E V) closure0 context0 =
      Execute impl (n + 1) (Statement.Print [Statement.Const v]) closure3
        (context3.setField id f v) ∧
    VariableValueExecute (context3.setField id f v).fields closure3 x [f] = Outcome.ok v ∧
    (v = Value.None →
      Execute impl (n + 2) (aliasProgram x y f E V) closure0 context0 =
        some (Outcome.ok Value.None, closure3,
          ((context3.setField id f v).write "None").write "\n")) ∧
    (∀ (text : String) (context4 : Context), v ≠ Value.None →
      PrintObject impl (Execute impl n) n v (context3.setField id f v) =
        some (Outcome.ok text, context4) →
      Execute impl (n + 2) (aliasProgram x y f E V) closure0 context0 =
        some (Outcome.ok Value.None, closure3, (context4.write text).write "\n")) := by
  have hE := Execute_mono impl nE n hnE _ _ _ _ hE0
  have hV := Execute_mono impl nV n hnV _ _ _ _ hV0
  have hc := Execute_keeps impl n V hexpr _ _ _ _ _ hV
  have hx : closure3 x = some (Value.ClassInstance id cls) := by
    rw [hc]
    by_cases hxy : x = y
    · subst hxy
      exact Closure.set_same _ _ _
    · simp [Closure.set, hxy]
  have key := aliasProgram_eq impl n x y f E V closure0 closure1 closure3 context0 context1
    context3 id cls v hE hV hx
  refine ⟨key, ?_, ?_, ?_⟩
  · exact VariableValueExecute_field _ _ _ _ id cls v hx (Context.setField_same _ _ _ _)
  · intro hv
    rw [key]
    cases n with
    | zero => simp [Execute] at hE
    | succ m =>
      rw [Print_Const, hv]
  · intro text context4 hv hp
    rw [key]
    cases n with
    | zero => simp [Execute] at hE
    | succ m =>
      rw [Print_Const, hp]
      cases v <;> first | exact absurd rfl hv | rfl

/-- Instance of C2: `x = C(); y = x; y.f = 7; print x.f` prints `7`. -/
theorem assignment_aliases_witness :
    Execute Impl.sample 3
        (aliasProgram "x" "y" "f" (Statement.NewInstance 0 (Class.mk "C" [] none) [])
          (Statement.Const (Value.Number 7)))
        Closure.empty Context.start =
      some (Outcome.ok Value.None,
        (Closure.empty.set "x" (Value.ClassInstance 0 (Class.mk "C" [] none))).set "y"
          (Value.ClassInstance 0 (Class.mk "C" [] none)),
        ((Context.start.setField 0 "f" (Value.Number 7)).write "7").write "\n") :=
  (assignment_aliases Impl.sample 1 1 1 "x" "y" "f"
    (Statement.NewInstance 0 (Class.mk "C" [] none) []) (Statement.Const (Value.Number 7))
    Closure.empty Closure.empty
    ((Closure.empty.set "x" (Value.ClassInstance 0 (Class.mk "C" [] none))).set "y"
      (Value.ClassInstance 0 (Class.mk "C" [] none)))
    Context.start Context.start Context.start 0 (Class.mk "C" [] none) (Value.Number 7)
    rfl rfl (IsExpression.const _) (le_refl 1) (le_refl 1)).2.2.2 "7" _ (fun h => Value.noConfusion h) rfl

theorem NotTwice.through {lx lx1 lx2 : Lexer} (h : SameTok lx lx1) (h2 : NotTwice lx1 lx2) :
    NotTwice lx lx2 := fun hn => h2 (by rw [h.1]; exact hn)

theorem keywordToken_ne_newline (str : List Char) : keywordToken str ≠ Token.Newline := by
  unfold keywordToken
  repeat (first
    | exact fun h => Token.noConfusion h
    | refine ite_token (fun t => t ≠ Token.Newline) _ _ _ (fun h => Token.noConfusion h) ?_)

theorem IsIndentChanged_ne_newline (lx : Lexer) (h : (IsIndentChanged lx).1 = true) :
    (IsIndentChanged lx).2.current_token_ ≠ Token.Newline := by
  unfold IsIndentChanged at *
  split
  · exact fun h => Token.noConfusion h
  · split
    · exact fun h => Token.noConfusion h
    · rename_i h1 h2
      rw [if_neg h1, if_neg h2] at h
      exact absurd h (by simp)

theorem ParseToken_ne_newline (fuel : Nat) (lx lx1 : Lexer)
    (h : ParseToken fuel lx = some lx1) : lx1.current_token_ ≠ Token.Newline := by
  unfold ParseToken at h
  simp only at h
  have hchar : ∀ l : Lexer, (ParseChar l).current_token_ ≠ Token.Newline := by
    intro l
    unfold ParseChar
    simp only
    split_ifs <;> simp
  have hname : ∀ l : Lexer, (ParseName l).current_token_ ≠ Token.Newline := by
    intro l
    unfold ParseName
    by_cases hi : (IsIndentChanged l).1 = true
    · simp only [hi, if_true]
      exact IsIndentChanged_ne_newline l hi
    · have hf : (IsIndentChanged l).1 = false := by simpa using hi
      simp only [hf]
      exact keywordToken_ne_newline _
  split at h
  · split_ifs at h
    · cases h
      exact fun h => Token.noConfusion h
    · unfold ParseString at h
      rcases hr : ReadString fuel lx.input_ with _ | r
      · simp [hr] at h
      · simp [hr] at h
        subst h
        exact fun h => Token.noConfusion h
    · cases h
      exact hname _
    · cases h
      exact hchar _
  · cases h
    exact hchar _

theorem ParseEnd_notTwice (lx : Lexer) : NotTwice lx (ParseEnd lx) := by
  intro hn
  unfold ParseEnd
  rw [hn]
  simp only [ne_eq, not_true_eq_false, and_false, if_false]
  split_ifs <;> simp

theorem ParseLineEnd_notTwice (next : Lexer → Option Lexer)
    (hnext : ∀ l l1, next l = some l1 → NotTwice l l1) (lx lx1 : Lexer)
    (h : ParseLineEnd next lx = some lx1) : NotTwice lx lx1 := by
  intro hn
  unfold ParseLineEnd at h
  simp only [hn, ne_eq, not_true_eq_false, if_false] at h
  exact hnext _ _ h rfl

theorem ParseSpaces_notTwice (next : Lexer → Option Lexer)
    (hnext : ∀ l l1, next l = some l1 → NotTwice l l1) (lx lx1 : Lexer)
    (h : ParseSpaces next lx = some lx1) : NotTwice lx lx1 := by
  unfold ParseSpaces at h
  simp only at h
  split at h
  · split_ifs at h with h1 h2 h3 h4
    · exact fun hn => hnext _ _ h (by rw [(SkipComment_sameTok _).1]; exact hn)
    · exact fun hn => ParseLineEnd_notTwice next hnext _ _ h hn
    · cases h
      exact fun _ => IsIndentChanged_ne_newline _ h4
    · have hf := IsIndentChanged_false _ (by simpa using h4)
      rw [hf] at h
      exact fun hn => hnext _ _ h hn
    · exact fun hn => hnext _ _ h hn
  · cases h
    exact fun hn => ParseEnd_notTwice _ hn

theorem ParseNextToken_notTwice (fuel : Nat) :
    ∀ lx lx1 : Lexer, ParseNextToken fuel lx = some lx1 → NotTwice lx lx1 := by
  induction fuel with
  | zero => intro lx lx1 h; simp [ParseNextToken] at h
  | succ n ih =>
    intro lx lx1 h
    unfold ParseNextToken at h
    split at h
    · cases h
      exact ParseEnd_notTwice _
    · split_ifs at h
      · exact ParseLineEnd_notTwice _ ih _ _ h
      · exact ParseSpaces_notTwice _ ih _ _ h
      · exact NotTwice.through (SkipComment_sameTok _) (ih _ _ h)
      · exact fun _ => ParseToken_ne_newline _ _ _ h

theorem skipNewlines_ne_newline (fuel : Nat) :
    ∀ lx lx1 : Lexer, skipNewlines fuel lx = some lx1 → lx1.current_token_ ≠ Token.Newline := by
  induction fuel with
  | zero => intro lx lx1 h; simp [skipNewlines] at h
  | succ n ih =>
    intro lx lx1 h
    unfold skipNewlines at h
    split_ifs at h with hn
    · rcases hp : ParseNextToken n lx with _ | l2
      · simp [hp] at h
      · simp [hp] at h
        exact ih l2 lx1 h
    · cases h
      exact hn

theorem tokensFrom_chain (fuel : Nat) :
    ∀ (lx : Lexer) (ts : List Token) (lxf : Lexer), tokensFrom fuel lx = some (ts, lxf) →
      ts.head? = some lx.current_token_ ∧
      ts.Chain' (fun a b => a = Token.Newline → b ≠ Token.Newline) := by
  induction fuel with
  | zero => intro lx ts lxf h; simp [tokensFrom] at h
  | succ n ih =>
    intro lx ts lxf h
    unfold tokensFrom Lexer.CurrentToken Lexer.NextToken at h
    split_ifs at h with hn
    · cases h
      exact ⟨by simp [hn], by simp⟩
    · rcases hp : ParseNextToken n lx with _ | l2
      · simp [hp] at h
      · rcases hr : tokensFrom n l2 with _ | r
        · simp [hp, hr] at h
        · simp [hp, hr] at h
          obtain ⟨r1, r2⟩ := ih l2 r.1 r.2 hr
          obtain ⟨h1, _⟩ := h
          subst h1
          refine ⟨rfl, ?_⟩
          rw [List.chain'_cons']
          refine ⟨?_, r2⟩
          intro y hy
          rw [r1] at hy
          simp only [Option.mem_def, Option.some.injEq] at hy
          subst hy
          exact ParseNextToken_notTwice n lx l2 hp

/-- Claim C11. `Newline` tokens are collapsed: `CurrentToken` right after construction is
never `Newline`; a call of `NextToken` made when the current token is `Newline` never
returns `Newline` (in any lexer state, so no two `Newline`s are ever returned in a row);
and the token sequence up to the first `Eof` neither starts with `Newline` nor has two
adjacent `Newline`s. -/
theorem newlines_collapsed (start : Start) (fuel : Nat) (input : List Char) (lx : Lexer)
    (h : Lexer.new start fuel input = some lx) :
    lx.CurrentToken ≠ Token.Newline ∧
    (∀ (f : Nat) (l1 l2 : Lexer), l1.NextToken f = some l2 →
      l1.CurrentToken = Token.Newline → l2.CurrentToken ≠ Token.Newline) ∧
    (∀ ts : List Token, tokenize start fuel input = some ts →
      ts.head? ≠ some Token.Newline ∧
      ts.Chain' (fun a b => a = Token.Newline → b ≠ Token.Newline)) := by
  have h0 : lx.current_token_ ≠ Token.Newline := by
    unfold Lexer.new at h
    rcases hp : ParseNextToken fuel (Lexer.init start input) with _ | l1
    · simp [hp] at h
    · simp [hp] at h
      exact skipNewlines_ne_newline fuel l1 lx h
  refine ⟨h0, fun f l1 l2 hs hn => ParseNextToken_notTwice f l1 l2 hs hn, ?_⟩
  intro ts hts
  unfold tokenize at hts
  rw [h] at hts
  rcases hr : tokensFrom fuel lx with _ | r
  · simp [hr] at hts
  · simp [hr] at hts
    obtain ⟨r1, r2⟩ := tokensFrom_chain fuel lx r.1 r.2 hr
    subst hts
    refine ⟨?_, r2⟩
    rw [r1]
    simpa using h0

/-- Instance of C11: a source that starts with blank lines and has blank lines inside. -/
theorem newlines_collapsed_witness :
    Lexer.CurrentToken ⟨['\n', '\n', 'y', '\n'], Token.Id ['x'], 0, 0, false⟩ ≠ Token.Newline :=
  (newlines_collapsed Start.sample 40 "\n\nx\n\ny\n".toList _ (by decide)).1

theorem find_first (methods : List Method) (m : String) (pre post : List Method)
    (mtd : Method) (h : methods = pre ++ mtd :: post) (hpre : ∀ x ∈ pre, x.name ≠ m)
    (hm : mtd.name = m) : methods.find? (fun x => x.name = m) = some mtd := by
  subst h
  induction pre with
  | nil => simp [List.find?, hm]
  | cons a pre ih =>
    have ha := hpre a (List.mem_cons_self a pre)
    simp only [List.cons_append, List.find?_cons]
    simp only [ha, decide_False]
    exact ih (fun x hx => hpre x (List.mem_cons_of_mem a hx))

theorem find_none (methods : List Method) (m : String) :
    methods.find? (fun x => x.name = m) = none ↔ ∀ x ∈ methods, x.name ≠ m := by
  simp [List.find?_eq_none]

theorem GetMethod_eq (name_ : String) (methods_ : List Method) (parent_ : Option Class)
    (m : String) :
    (Class.mk name_ methods_ parent_).GetMethod m =
      match methods_.find? (fun x => x.name = m) with
      | some mtd => some mtd
      | none =>
        match parent_ with
        | some p => p.GetMethod m
        | none => none := by
  delta Class.GetMethod
  dsimp only [Class.brecOn]
  generalize List.find? (fun x : Method => decide (x.name = m)) methods_ = r
  cases r <;> cases parent_ <;> rfl

theorem GetMethod_own (name_ : String) (methods_ : List Method) (parent_ : Option Class)
    (m : String) (mtd : Method) (h : methods_.find? (fun x => x.name = m) = some mtd) :
    (Class.mk name_ methods_ parent_).GetMethod m = some mtd := by
  rw [GetMethod_eq]
  simp only [h]

theorem GetMethod_parent (name_ : String) (methods_ : List Method) (parent_ : Option Class)
    (m : String) (h : ∀ x ∈ methods_, x.name ≠ m) :
    (Class.mk name_ methods_ parent_).GetMethod m =
      match parent_ with
      | some p => p.GetMethod m
      | none => none := by
  have hf := (find_none methods_ m).2 h
  rw [GetMethod_eq]
  simp only [hf]

theorem GetMethod_none_iff : ∀ (cls : Class) (m : String),
    cls.GetMethod m = none ↔ ∀ K ∈ cls.chain, ∀ x ∈ K.methods, x.name ≠ m
  | Class.mk name_ methods_ none, m => by
    unfold Class.chain
    simp only [List.mem_singleton, forall_eq, Class.methods]
    constructor
    · intro h
      rw [← find_none]
      rcases hf : methods_.find? (fun x => x.name = m) with _ | mtd
      · exact hf
      · rw [GetMethod_own name_ methods_ none m mtd hf] at h
        exact absurd h (by simp)
    · intro h
      rw [GetMethod_parent name_ methods_ none m h]
  | Class.mk name_ methods_ (some p), m => by
    have ih := GetMethod_none_iff p m
    unfold Class.chain
    simp only [List.mem_cons, forall_eq_or_imp, Class.methods]
    constructor
    · intro h
      rcases hf : methods_.find? (fun x => x.name = m) with _ | mtd
      · have hown := (find_none methods_ m).1 hf
        rw [GetMethod_parent name_ methods_ (some p) m hown] at h
        exact ⟨hown, ih.1 h⟩
      · rw [GetMethod_own name_ methods_ (some p) m mtd hf] at h
        exact absurd h (by simp)
    · rintro ⟨hown, hrest⟩
      rw [GetMethod_parent name_ methods_ (some p) m hown]
      exact ih.2 hrest

/-- Claim C12. Method lookup follows the single-inheritance chain: `GetMethod` returns
the first method of that name in the class's own list (whatever the ancestors define);
if the class has none it returns the lookup in the parent, or none without a parent; and
it returns none exactly when no class on the chain has a method of that name. -/
theorem GetMethod_follows_chain (name_ : String) (methods_ : List Method)
    (parent_ : Option Class) (m : String) :
    (∀ (pre : List Method) (mtd : Method) (post : List Method),
      methods_ = pre ++ mtd :: post → (∀ x ∈ pre, x.name ≠ m) → mtd.name = m →
      (Class.mk name_ methods_ parent_).GetMethod m = some mtd) ∧
    ((∀ x ∈ methods_, x.name ≠ m) → ∀ p : Class, parent_ = some p →
      (Class.mk name_ methods_ parent_).GetMethod m = p.GetMethod m) ∧
    ((∀ x ∈ methods_, x.name ≠ m) → parent_ = none →
      (Class.mk name_ methods_ parent_).GetMethod m = none) ∧
    ((Class.mk name_ methods_ parent_).GetMethod m = none ↔
      ∀ K ∈ (Class.mk name_ methods_ parent_).chain, ∀ x ∈ K.methods, x.name ≠ m) := by
  refine ⟨?_, ?_, ?_, GetMethod_none_iff _ m⟩
  · intro pre mtd post h hpre hm
    exact GetMethod_own name_ methods_ parent_ m mtd (find_first methods_ m pre post mtd h hpre hm)
  · intro h p hp
    rw [GetMethod_parent name_ methods_ parent_ m h, hp]
  · intro h hp
    rw [GetMethod_parent name_ methods_ parent_ m h, hp]

/-- Instance of C12: `Derived` defines `m`, so its `m` is found, not the one of `Base`. -/
theorem GetMethod_follows_chain_witness :
    derivedClass.GetMethod "m" =
      some (Method.mk "m" ["a"]
        (Statement.MethodBody (Statement.Return (Statement.Const (Value.Number 1))))) :=
  (GetMethod_follows_chain "Derived" _ (some baseClass) "m").1 [] _ [] rfl
    (fun _ h => absurd h (List.not_mem_nil _)) rfl

theorem bindParams_ok (id : Nat) (cls : Class) (params : List String) :
    ∀ (args : List Value) (closure : Closure), params.length = args.length →
      bindParams params args closure = Outcome.ok (callClosure id cls params args closure) := by
  induction params with
  | nil =>
    intro args closure h
    cases args with
    | nil => rfl
    | cons a as => simp at h
  | cons p ps ih =>
    intro args closure h
    cases args with
    | nil => simp at h
    | cons a as =>
      simp only [bindParams, callClosure]
      exact ih as _ (by simpa using h)

theorem HasMethod_iff (cls : Class) (method : String) (n : Nat) :
    HasMethod cls method n = true ↔
      ∃ mtd, cls.GetMethod method = some mtd ∧ mtd.formal_params.length = n := by
  unfold HasMethod
  rcases h : cls.GetMethod method with _ | mtd
  · simp
  · simp

theorem Call_found (ex : Exec) (id : Nat) (cls : Class) (method : String)
    (args : List Value) (ctx : Context) (mtd : Method) (hm : cls.GetMethod method = some mtd)
    (hl : mtd.formal_params.length = args.length) :
    Call ex id cls method args ctx =
      (ex mtd.body
        (callClosure id cls mtd.formal_params args
          (Closure.empty.set "self" (Value.ClassInstance id cls))) ctx).map
        fun r => (r.1, r.2.2) := by
  have hh : HasMethod cls method args.length = true :=
    (HasMethod_iff cls method args.length).2 ⟨mtd, hm, hl⟩
  unfold Call
  rw [if_neg (by simp [hh])]
  simp only [hm, bindParams_ok id cls mtd.formal_params args _ hl]

theorem Call_missing (ex : Exec) (id : Nat) (cls : Class) (method : String)
    (args : List Value) (ctx : Context) (h : HasMethod cls method args.length = false) :
    Call ex id cls method args ctx =
      some (Outcome.error (methodNotFound cls method args.length), ctx) := by
  unfold Call
  rw [if_pos h]
  rfl

/-- Claim C13. `HasMethod(m, n)` is true exactly when lookup finds a method named `m` and
the found method has `n` formal parameters.  When it is false, `Call` fails with
method-not-found and runs no method body (it returns even with an executor that never
returns, leaving the context as it was); when it is true, `Call` runs the body of the
found method and ends as that body ends.  So `Call` stops at the check if and only if
`HasMethod` is false, and a first definition of `m` in the class with another parameter
count hides whatever the ancestors define. -/
theorem Call_fails_iff_not_HasMethod (id : Nat) (cls : Class) (m : String) (args : List Value)
    (ctx : Context) :
    (∀ n : Nat, HasMethod cls m n = true ↔
      ∃ mtd, cls.GetMethod m = some mtd ∧ mtd.formal_params.length = n) ∧
    (HasMethod cls m args.length = false → ∀ ex : Exec,
      Call ex id cls m args ctx =
        some (Outcome.error (methodNotFound cls m args.length), ctx)) ∧
    (HasMethod cls m args.length = true → ∃ mtd, cls.GetMethod m = some mtd ∧ ∀ ex : Exec,
      Call ex id cls m args ctx =
        (ex mtd.body
          (callClosure id cls mtd.formal_params args
            (Closure.empty.set "self" (Value.ClassInstance id cls))) ctx).map
          fun r => (r.1, r.2.2)) ∧
    (Call neverReturns id cls m args ctx =
        some (Outcome.error (methodNotFound cls m args.length), ctx) ↔
      HasMethod cls m args.length = false) ∧
    (∀ (name_ : String) (methods_ : List Method) (parent_ : Option Class) (mtd : Method)
      (n : Nat), methods_.find? (fun x => x.name = m) = some mtd →
      mtd.formal_params.length ≠ n → HasMethod (Class.mk name_ methods_ parent_) m n = false) := by
  have hfound : HasMethod cls m args.length = true → ∃ mtd, cls.GetMethod m = some mtd ∧
      ∀ ex : Exec, Call ex id cls m args ctx =
        (ex mtd.body
          (callClosure id cls mtd.formal_params args
            (Closure.empty.set "self" (Value.ClassInstance id cls))) ctx).map
          fun r => (r.1, r.2.2) := by
    intro h
    obtain ⟨mtd, hm, hl⟩ := (HasMethod_iff cls m args.length).1 h
    exact ⟨mtd, hm, fun ex => Call_found ex id cls m args ctx mtd hm hl⟩
  refine ⟨fun n => HasMethod_iff cls m n, fun h ex => Call_missing ex id cls m args ctx h,
    hfound, ?_, ?_⟩
  · constructor
    · intro hc
      by_cases h : HasMethod cls m args.length = true
      · obtain ⟨mtd, _, he⟩ := hfound h
        rw [he neverReturns] at hc
        simp [neverReturns] at hc
      · simpa using h
    · intro h
      exact Call_missing neverReturns id cls m args ctx h
  · intro name_ methods_ parent_ mtd n hf hn
    unfold HasMethod
    rw [GetMethod_own name_ methods_ parent_ m mtd hf]
    simpa using hn

/-- Instance of C13: `Derived` has `m` with one parameter, so a call of `m` with two
arguments fails although `Base` has `m` with two parameters. -/
theorem Call_fails_iff_not_HasMethod_witness :
    Call neverReturns 0 derivedClass "m" [Value.Number 1, Value.Number 2] Context.start =
      some (Outcome.error
        (methodNotFound derivedClass "m" [Value.Number 1, Value.Number 2].length),
        Context.start) :=
  (Call_fails_iff_not_HasMethod 0 derivedClass "m" [Value.Number 1, Value.Number 2]
    Context.start).2.1 (by decide) neverReturns

theorem callClosure_other (id : Nat) (cls : Class) (k : String) :
    ∀ (params : List String) (args : List Value) (closure : Closure), k ∉ params →
      callClosure id cls params args closure k = closure k := by
  intro params
  induction params with
  | nil => intro args closure _; rfl
  | cons p ps ih =>
    intro args closure hk
    cases args with
    | nil => rfl
    | cons a as =>
      simp only [callClosure]
      rw [ih as _ (fun h => hk (List.mem_cons_of_mem p h))]
      have hne : k ≠ p := fun h => hk (by rw [h]; exact List.mem_cons_self p ps)
      simp [Closure.set, hne]

theorem callClosure_param (id : Nat) (cls : Class) :
    ∀ (params : List String) (args : List Value) (closure : Closure), params.Nodup →
      ∀ (i : Nat) (k : String) (v : Value), params[i]? = some k → args[i]? = some v →
        callClosure id cls params args closure k = some v := by
  intro params
  induction params with
  | nil => intro args closure _ i k v hk _; simp at hk
  | cons p ps ih =>
    intro args closure hnd i k v hk hv
    cases args with
    | nil => simp at hv
    | cons a as =>
      obtain ⟨hp, hps⟩ := List.nodup_cons.1 hnd
      simp only [callClosure]
      cases i with
      | zero =>
        simp only [List.getElem?_cons_zero, Option.some.injEq] at hk hv
        subst hk hv
        rw [callClosure_other id cls p ps as _ hp]
        exact Closure.set_same _ _ _
      | succ j =>
        simp only [List.getElem?_cons_succ] at hk hv
        exact ih as _ hps j k v hk hv

/-- Claim C14 as stated fails: for a method declared as `def get(self)`, the call
`K().get(5)` runs the body with `self` bound to the argument 5, not to the receiving
instance; the call returns the number 5. -/
theorem self_can_be_rebound :
    (Execute Impl.sample 10
        (Statement.MethodCall (Statement.NewInstance 0 selfParamClass []) "get"
          [Statement.Const (Value.Number 5)])
        Closure.empty Context.start).map
        (fun r => (r.1.value?.bind Value.asNumber, r.1.value?.bind Value.instanceId)) =
      some (some 5, none) := by
  decide

theorem MethodCall_closure (impl : Impl) (n id : Nat) (cls : Class) (m : String)
    (obj : Statement) (margs : List Statement) (c c1 c2 : Closure) (x x1 x2 : Context)
    (vs : List Value)
    (hobj : Execute impl n obj c x = some (Outcome.ok (Value.ClassInstance id cls), c1, x1))
    (hargs : EvalArgs (Execute impl n) margs c1 x1 = some (Outcome.ok vs, c2, x2)) :
    Execute impl (n + 1) (Statement.MethodCall obj m margs) c x =
      withClosure c2 (Call (Execute impl n) id cls m vs x2) := by
  rw [Execute]
  simp only [hobj, andThen, hargs]

/-- Claim C14, amended. A successful `Call` runs the method body in a fresh environment
built from the empty closure: `self` is bound first, then each formal parameter in order.
A name that is neither `self` nor a formal parameter is unbound there, so reading it
fails with undefined-name, whatever the caller's environment holds.  When the formal
parameter names are pairwise distinct and none is `self`, `self` is the receiving
instance and `formal_params[i]` is bound to `args[i]`.  The environment of the caller
after a `MethodCall` is the one left by evaluating the receiver and the arguments,
whatever the body assigns. -/
theorem Call_fresh_environment (impl : Impl) (n id : Nat) (cls : Class) (m : String)
    (mtd : Method) (args : List Value) (ctx : Context)
    (hm : cls.GetMethod m = some mtd) (hl : mtd.formal_params.length = args.length) :
    Call (Execute impl n) id cls m args ctx =
      (Execute impl n mtd.body (methodEnv id cls mtd.formal_params args) ctx).map
        (fun r => (r.1, r.2.2)) ∧
    (∀ k : String, k ≠ "self" → k ∉ mtd.formal_params →
      methodEnv id cls mtd.formal_params args k = none ∧
      ∀ (fields : Nat → Closure) (dotted : List String),
        VariableValueExecute fields (methodEnv id cls mtd.formal_params args) k dotted =
          Outcome.error ("Variable " ++ k ++ " not found")) ∧
    (("self" :: mtd.formal_params).Nodup →
      methodEnv id cls mtd.formal_params args "self" = some (Value.ClassInstance id cls) ∧
      ∀ (i : Nat) (k : String) (v : Value), mtd.formal_params[i]? = some k →
        args[i]? = some v → methodEnv id cls mtd.formal_params args k = some v) ∧
    (∀ (obj : Statement) (margs : List Statement) (c c1 c2 : Closure) (x x1 x2 : Context)
      (o : Outcome Value) (c3 : Closure) (x3 : Context),
      Execute impl n obj c x = some (Outcome.ok (Value.ClassInstance id cls), c1, x1) →
      EvalArgs (Execute impl n) margs c1 x1 = some (Outcome.ok args, c2, x2) →
      Execute impl (n + 1) (Statement.MethodCall obj m margs) c x = some (o, c3, x3) →
      c3 = c2) := by
  refine ⟨Call_found _ id cls m args ctx mtd hm hl, ?_, ?_, ?_⟩
  · intro k hs hk
    have hnone : methodEnv id cls mtd.formal_params args k = none := by
      unfold methodEnv
      rw [callClosure_other id cls k _ _ _ hk]
      simp [Closure.set, Closure.empty, hs]
    refine ⟨hnone, fun fields dotted => ?_⟩
    unfold VariableValueExecute
    simp only [hnone]
  · intro hnd
    obtain ⟨hself, hps⟩ := List.nodup_cons.1 hnd
    refine ⟨?_, fun i k v hk hv => callClosure_param id cls _ _ _ hps i k v hk hv⟩
    unfold methodEnv
    rw [callClosure_other id cls "self" _ _ _ hself]
    exact Closure.set_same _ _ _
  · intro obj margs c c1 c2 x x1 x2 o c3 x3 hobj hargs hex
    rw [MethodCall_closure impl n id cls m obj margs c c1 c2 x x1 x2 args hobj hargs] at hex
    exact (Keeps.ofCall c2 _) o c3 x3 hex

/-- Instance of the amended C14: `Derived.m(a)` called with the argument 7. -/
theorem Call_fresh_environment_witness :
    Call (Execute Impl.sample 5) 0 derivedClass "m" [Value.Number 7] Context.start =
      (Execute Impl.sample 5
        (Method.mk "m" ["a"]
          (Statement.MethodBody (Statement.Return (Statement.Const (Value.Number 1))))).body
        (methodEnv 0 derivedClass
          (Method.mk "m" ["a"]
            (Statement.MethodBody
              (Statement.Return (Statement.Const (Value.Number 1))))).formal_params
          [Value.Number 7])
        Context.start).map (fun r => (r.1, r.2.2)) :=
  (Call_fresh_environment Impl.sample 5 0 derivedClass "m" _ [Value.Number 7] Context.start
    rfl rfl).1

/-- Claim C15. For a left operand that is not an instance, `Equal` is true when both
operands are `None`, is the equality of the values when both are `Number`, both `String`
or both `Bool`, and fails with type mismatch in every other case: different primitive
variants, exactly one `None`, a `Class` operand, an instance on the right (also
`Equal(None, instance)`).  No method is called and the context is unchanged. -/
theorem Equal_without_instance (ex : Exec) (lhs rhs : Value) (ctx : Context)
    (h : lhs.instanceId = none) :
    Equal ex lhs rhs ctx = some (equalByClaim lhs rhs, ctx) ∧
    (∀ (id : Nat) (cls : Class), Equal ex Value.None (Value.ClassInstance id cls) ctx =
      some (Outcome.error "Wrong types to compare", ctx)) ∧
    (∀ (k : Class) (v : Value), Equal ex (Value.Class k) v ctx =
      some (Outcome.error "Wrong types to compare", ctx)) ∧
    (∀ (a : Int) (s : String), Equal ex (Value.Number a) (Value.String s) ctx =
      some (Outcome.error "Wrong types to compare", ctx)) ∧
    (∀ a : Int, Equal ex Value.None (Value.Number a) ctx =
      some (Outcome.error "Wrong types to compare", ctx)) := by
  refine ⟨?_, fun _ _ => rfl, ?_, fun _ _ => rfl, fun _ => rfl⟩
  · cases lhs <;> cases rhs <;> first | rfl | simp [Value.instanceId] at h
  · intro k v
    cases v <;> rfl

/-- Instance of C15: `Equal(3, 3)` is true. -/
theorem Equal_without_instance_witness :
    Equal neverReturns (Value.Number 3) (Value.Number 3) Context.start =
      some (equalByClaim (Value.Number 3) (Value.Number 3), Context.start) :=
  (Equal_without_instance neverReturns (Value.Number 3) (Value.Number 3) Context.start rfl).1

theorem Less_without_instance (ex : Exec) (a b : Value) (ctx : Context)
    (h : a.instanceId = none) : Less ex a b ctx = some (Compare a b Comp.less, ctx) := by
  cases a <;> first | rfl | simp [Value.instanceId] at h

theorem Greater_numbers (ex : Exec) (a b : Int) (ctx : Context) :
    Greater ex (Value.Number a) (Value.Number b) ctx = some (Outcome.ok (decide (b < a)), ctx) := by
  unfold Greater Less Equal Compare
  simp only [negate, Option.map_some']
  by_cases h1 : a < b
  · have h2 : ¬ b < a := not_lt.2 (le_of_lt h1)
    simp [h1, h2]
  · by_cases h3 : a = b
    · subst h3
      simp
    · have h2 : b < a := lt_of_le_of_ne (not_lt.1 h1) (fun h => h3 h.symm)
      simp [h1, h2, h3]

theorem Greater_strings (ex : Exec) (a b : String) (ctx : Context) :
    Greater ex (Value.String a) (Value.String b) ctx = some (Outcome.ok (decide (b < a)), ctx) := by
  unfold Greater Less Equal Compare
  simp only [negate, Option.map_some']
  by_cases h1 : a < b
  · have h2 : ¬ b < a := not_lt.2 (le_of_lt h1)
    simp [h1, h2]
  · by_cases h3 : a = b
    · subst h3
      simp
    · have h2 : b < a := lt_of_le_of_ne (not_lt.1 h1) (fun h => h3 h.symm)
      simp [h1, h2, h3]

theorem Greater_bools (ex : Exec) (a b : Bool) (ctx : Context) :
    Greater ex (Value.Bool a) (Value.Bool b) ctx = some (Outcome.ok (decide (b < a)), ctx) := by
  cases a <;> cases b <;> rfl

/-- Claim C16. For operands that are not instances, whenever `Greater(a, b)` and
`Less(b, a)` both succeed they return the same boolean, `Greater` being computed as
`!(Less(a, b) || Equal(a, b))`.  Both do succeed on two `Number`s, two `String`s
(lexicographic order) and two `Bool`s (`False` below `True`), where `Greater(a, b)` is
`b < a`. -/
theorem Greater_is_Less_swapped (ex : Exec) (a b : Value) (ctx x1 x2 : Context)
    (ga la : Bool) (ha : a.instanceId = none) (hb : b.instanceId = none)
    (hg : Greater ex a b ctx = some (Outcome.ok ga, x1))
    (hl : Less ex b a ctx = some (Outcome.ok la, x2)) :
    ga = la ∧
    (∀ i j : Int, Greater ex (Value.Number i) (Value.Number j) ctx =
        some (Outcome.ok (decide (j < i)), ctx) ∧
      Less ex (Value.Number j) (Value.Number i) ctx = some (Outcome.ok (decide (j < i)), ctx)) ∧
    (∀ s t : String, Greater ex (Value.String s) (Value.String t) ctx =
        some (Outcome.ok (decide (t < s)), ctx) ∧
      Less ex (Value.String t) (Value.String s) ctx = some (Outcome.ok (decide (t < s)), ctx)) ∧
    (∀ p q : Bool, Greater ex (Value.Bool p) (Value.Bool q) ctx =
        some (Outcome.ok (decide (q < p)), ctx) ∧
      Less ex (Value.Bool q) (Value.Bool p) ctx = some (Outcome.ok (decide (q < p)), ctx)) ∧
    Greater ex (Value.Bool true) (Value.Bool false) ctx = some (Outcome.ok true, ctx) := by
  refine ⟨?_, fun i j => ⟨Greater_numbers ex i j ctx, rfl⟩,
    fun s t => ⟨Greater_strings ex s t ctx, rfl⟩, fun p q => ⟨Greater_bools ex p q ctx, rfl⟩, rfl⟩
  cases a <;> cases b <;>
    first
    | (simp [Value.instanceId] at ha; done)
    | (simp [Value.instanceId] at hb; done)
    | (simp [Greater, Less, Compare] at hg; done)
    | skip
  · rw [Greater_numbers] at hg
    simp only [Less, Compare, Option.some.injEq, Prod.mk.injEq, Outcome.ok.injEq] at hg hl
    rw [← hg.1, ← hl.1]
  · rw [Greater_strings] at hg
    simp only [Less, Compare, Option.some.injEq, Prod.mk.injEq, Outcome.ok.injEq] at hg hl
    rw [← hg.1, ← hl.1]
  · rw [Greater_bools] at hg
    simp only [Less, Compare, Option.some.injEq, Prod.mk.injEq, Outcome.ok.injEq] at hg hl
    rw [← hg.1, ← hl.1]

/-- Instance of C16: `Greater(5, 3)` and `Less(3, 5)` are both true. -/
theorem Greater_is_Less_swapped_witness :
    Greater neverReturns (Value.Number 5) (Value.Number 3) Context.start =
      some (Outcome.ok true, Context.start) ∧
    Less neverReturns (Value.Number 3) (Value.Number 5) Context.start =
      some (Outcome.ok true, Context.start) ∧
    true = true :=
  ⟨rfl, rfl,
    (Greater_is_Less_swapped neverReturns (Value.Number 5) (Value.Number 3) Context.start
      Context.start Context.start true true rfl rfl rfl rfl).1⟩

theorem tdiv_nat (m n : Nat) : Int.tdiv (m : Int) (n : Int) = ((m / n : Nat) : Int) := by
  rw [Int.tdiv_eq_ediv (Int.ofNat_nonneg m) (Int.ofNat_nonneg n)]
  simp

theorem sign_nat_mul (m : Nat) (k : Int) (h : m = 0 → k = 0) : Int.sign (m : Int) * k = k := by
  rcases Nat.eq_zero_or_pos m with h0 | h0
  · subst h0
    simp [h rfl]
  · rw [Int.sign_eq_one_of_pos (by exact_mod_cast h0)]
    simp

/-- `Int.tdiv` truncates toward zero: its magnitude is the quotient of the magnitudes and
its sign the product of the signs. -/
theorem tdiv_truncates (a b : Int) :
    Int.tdiv a b = Int.sign a * Int.sign b * ((a.natAbs / b.natAbs : Nat) : Int) := by
  obtain ⟨m, rfl | rfl⟩ := Int.eq_nat_or_neg a <;> obtain ⟨n, rfl | rfl⟩ := Int.eq_nat_or_neg b <;>
    simp only [Int.neg_tdiv, Int.tdiv_neg, Int.sign_neg, Int.natAbs_neg, Int.natAbs_ofNat,
      tdiv_nat, neg_neg, neg_mul, mul_neg] <;>
    rw [mul_assoc, sign_nat_mul m, sign_nat_mul n] <;>
    (intro h; subst h; simp)

theorem EvalBoth_ok (ex : Exec) (l r : Statement) (c c1 c2 : Closure) (x x1 x2 : Context)
    (a b : Value) (hl : ex l c x = some (Outcome.ok a, c1, x1))
    (hr : ex r c1 x1 = some (Outcome.ok b, c2, x2)) :
    EvalBoth ex l r c x = some (Outcome.ok (a, b), c2, x2) := by
  simp only [EvalBoth, hl, andThen, hr]

theorem Execute_Div (impl : Impl) (n : Nat) (l r : Statement) (c : Closure) (x : Context) :
    Execute impl (n + 1) (Statement.Div l r) c x =
      andThen (EvalBoth (Execute impl n) l r c x) fun p c1 x1 =>
        match p.1, p.2 with
        | lhs, Value.Number b =>
          if b = 0 then some (Outcome.error "Divison by zero", c1, x1)
          else
            match lhs with
            | Value.Number a =>
              if a = INT_MIN ∧ b = -1 then some (Outcome.error divisionTrap, c1, x1)
              else some (Outcome.ok (Value.Number (Int.tdiv a b)), c1, x1)
            | _ => some (Outcome.error "Divison error", c1, x1)
        | _, _ => some (Outcome.error "Divison error", c1, x1) := rfl

theorem wrapInt_of_isInt (x : Int) (h : IsInt x) : wrapInt x = x := by
  unfold IsInt INT_MIN INT_MAX at h
  unfold wrapInt
  omega

/-- The quotient of two `int`s is an `int` except for the smallest `int` divided by -1. -/
theorem tdiv_isInt (a b : Int) (ha : IsInt a) (hb : IsInt b)
    (hp : ¬(a = INT_MIN ∧ b = -1)) : IsInt (Int.tdiv a b) := by
  unfold IsInt INT_MIN INT_MAX at *
  obtain ⟨m, rfl | rfl⟩ := Int.eq_nat_or_neg a <;>
    obtain ⟨n, rfl | rfl⟩ := Int.eq_nat_or_neg b <;>
    simp only [Int.neg_tdiv, Int.tdiv_neg, tdiv_nat, neg_neg] <;>
    have h0 : (0 : Int) ≤ ((m / n : Nat) : Int) := Int.ofNat_nonneg _ <;>
    have h1 : ((m / n : Nat) : Int) ≤ (m : Int) := by exact_mod_cast Nat.div_le_self m n
  · generalize ((m / n : Nat) : Int) = q at *
    omega
  · generalize ((m / n : Nat) : Int) = q at *
    omega
  · generalize ((m / n : Nat) : Int) = q at *
    omega
  · rcases n with _ | _ | n
    · simp
    · have h3 : (m : Int) ≠ 2147483648 := fun h => hp ⟨by rw [h], by simp⟩
      generalize ((m / (0 + 1) : Nat) : Int) = q at *
      omega
    · have h2 : ((m / (n + 1 + 1) : Nat) : Int) ≤ ((m / 2 : Nat) : Int) := by
        exact_mod_cast Nat.div_le_div_left (by omega) (by omega)
      have h4 : ((m / 2 : Nat) : Int) ≤ 1073741824 := by omega
      generalize ((m / (n + 1 + 1) : Nat) : Int) = q at *
      omega

/-- Claim C17. When the operands of `Div` evaluate to `Number a` and `Number b`, `Div`
fails with div-by-zero if `b = 0` and otherwise returns `Number q` with `q` the quotient
truncated toward zero (its magnitude is `|a| / |b|`, its sign the product of the signs);
so `-7 / 2 = -3`, `7 / -2 = -3` and `36 / 4 / 3 = 3`.  This is stated where the quotient
is an `int`, which leaves out one pair of `int`s, the smallest `int` divided by -1: the
source does not define that division. -/
theorem Div_truncates (impl : Impl) (n : Nat) (l r : Statement) (c c1 c2 : Closure)
    (x x1 x2 : Context) (a b : Int)
    (hl : Execute impl n l c x = some (Outcome.ok (Value.Number a), c1, x1))
    (hr : Execute impl n r c1 x1 = some (Outcome.ok (Value.Number b), c2, x2))
    (hq : IsInt (Int.tdiv a b)) :
    (b = 0 →
      Execute impl (n + 1) (Statement.Div l r) c x =
        some (Outcome.error "Divison by zero", c2, x2)) ∧
    (b ≠ 0 →
      Execute impl (n + 1) (Statement.Div l r) c x =
        some (Outcome.ok (Value.Number (Int.tdiv a b)), c2, x2)) ∧
    Int.tdiv a b = Int.sign a * Int.sign b * ((a.natAbs / b.natAbs : Nat) : Int) ∧
    Int.tdiv (-7) 2 = -3 ∧ Int.tdiv 7 (-2) = -3 ∧ Int.tdiv (Int.tdiv 36 4) 3 = 3 := by
  have he := EvalBoth_ok (Execute impl n) l r c c1 c2 x x1 x2 _ _ hl hr
  refine ⟨?_, ?_, tdiv_truncates a b, by decide, by decide, by decide⟩
  · intro hb
    rw [Execute_Div, he]
    simp [andThen, hb]
  · intro hb
    have hp : ¬(a = INT_MIN ∧ b = -1) := by
      rintro ⟨h1, h2⟩
      subst h1 h2
      exact absurd hq (by decide)
    rw [Execute_Div, he]
    simp only [andThen, if_neg hb, if_neg hp]

/-- Instance of C17: `36 / 4 / 3` evaluated left to right. -/
theorem Div_truncates_witness :
    Execute Impl.sample (2 + 1)
        (Statement.Div
          (Statement.Div (Statement.Const (Value.Number 36)) (Statement.Const (Value.Number 4)))
          (Statement.Const (Value.Number 3)))
        Closure.empty Context.start =
      some (Outcome.ok (Value.Number (Int.tdiv 9 3)), Closure.empty, Context.start) :=
  (Div_truncates Impl.sample 2
    (Statement.Div (Statement.Const (Value.Number 36)) (Statement.Const (Value.Number 4)))
    (Statement.Const (Value.Number 3)) Closure.empty Closure.empty Closure.empty
    Context.start Context.start Context.start 9 3 rfl rfl (by decide)).2.1 (by decide)

/-- The one division of two `int`s whose quotient is not an `int`: the smallest `int`
divided by -1 returns no value and throws no exception; the division traps. -/
theorem Div_smallest_by_minus_one :
    Execute Impl.sample 2
        (Statement.Div (Statement.Const (Value.Number INT_MIN))
          (Statement.Const (Value.Number (-1))))
        Closure.empty Context.start =
      some (Outcome.error divisionTrap, Closure.empty, Context.start) ∧
    ¬IsInt (Int.tdiv INT_MIN (-1)) :=
  ⟨rfl, by decide⟩

theorem Execute_Sub (impl : Impl) (n : Nat) (l r : Statement) (c : Closure) (x : Context) :
    Execute impl (n + 1) (Statement.Sub l r) c x =
      andThen (EvalBoth (Execute impl n) l r c x) fun p c1 x1 =>
        match p.1, p.2 with
        | Value.Number a, Value.Number b => some (Outcome.ok (Value.Number (wrapInt (a - b))), c1, x1)
        | _, _ => some (Outcome.error "Subtract error", c1, x1) := rfl

theorem Execute_Mult (impl : Impl) (n : Nat) (l r : Statement) (c : Closure) (x : Context) :
    Execute impl (n + 1) (Statement.Mult l r) c x =
      andThen (EvalBoth (Execute impl n) l r c x) fun p c1 x1 =>
        match p.1, p.2 with
        | Value.Number a, Value.Number b => some (Outcome.ok (Value.Number (wrapInt (a * b))), c1, x1)
        | _, _ => some (Outcome.error "Multiply error", c1, x1) := rfl

/-- Claim C18 as stated fails: `Div` tests the right operand for zero before it tests the
types, so `'a' / 0` fails with division by zero, not with the type error. -/
theorem Div_zero_check_first :
    (Execute Impl.sample 5
        (Statement.Div (Statement.Const (Value.String "a")) (Statement.Const (Value.Number 0)))
        Closure.empty Context.start).map (fun r => r.1.message?) =
      some (some "Divison by zero") := by
  decide

/-- Claim C18, amended. When at least one operand evaluates to a value that is not a
`Number`, `Sub` and `Mult` fail with their type error whatever the other operand is, and
so does `Div` unless its right operand is `Number 0`; with a right operand `Number 0`,
`Div` fails with division by zero whatever the left operand is. -/
theorem arithmetic_type_errors (impl : Impl) (n : Nat) (l r : Statement) (c c1 c2 : Closure)
    (x x1 x2 : Context) (a b : Value)
    (hl : Execute impl n l c x = some (Outcome.ok a, c1, x1))
    (hr : Execute impl n r c1 x1 = some (Outcome.ok b, c2, x2)) :
    (a.asNumber = none ∨ b.asNumber = none →
      Execute impl (n + 1) (Statement.Sub l r) c x =
        some (Outcome.error "Subtract error", c2, x2) ∧
      Execute impl (n + 1) (Statement.Mult l r) c x =
        some (Outcome.error "Multiply error", c2, x2) ∧
      (b.asNumber ≠ some 0 →
        Execute impl (n + 1) (Statement.Div l r) c x =
          some (Outcome.error "Divison error", c2, x2))) ∧
    (b.asNumber = some 0 →
      Execute impl (n + 1) (Statement.Div l r) c x =
        some (Outcome.error "Divison by zero", c2, x2)) := by
  have he := EvalBoth_ok (Execute impl n) l r c c1 c2 x x1 x2 _ _ hl hr
  refine ⟨fun h => ⟨?_, ?_, fun h0 => ?_⟩, fun h0 => ?_⟩
  · rw [Execute_Sub, he]
    cases a <;> cases b <;> simp [Value.asNumber] at h <;> rfl
  · rw [Execute_Mult, he]
    cases a <;> cases b <;> simp [Value.asNumber] at h <;> rfl
  · rw [Execute_Div, he]
    cases a <;> cases b <;> simp [Value.asNumber] at h h0 <;> simp [andThen, h0]
  · rw [Execute_Div, he]
    cases b <;> simp [Value.asNumber] at h0
    subst h0
    simp [andThen]

/-- Instance of the amended C18: `3 - 'a'` fails with the type error of `Sub`. -/
theorem arithmetic_type_errors_witness :
    Execute Impl.sample (1 + 1)
        (Statement.Sub (Statement.Const (Value.Number 3)) (Statement.Const (Value.String "a")))
        Closure.empty Context.start =
      some (Outcome.error "Subtract error", Closure.empty, Context.start) :=
  ((arithmetic_type_errors Impl.sample 1 (Statement.Const (Value.Number 3))
    (Statement.Const (Value.String "a")) Closure.empty Closure.empty Closure.empty
    Context.start Context.start Context.start (Value.Number 3) (Value.String "a") rfl rfl).1
    (Or.inr rfl)).1

theorem Execute_Add (impl : Impl) (n : Nat) (l r : Statement) (c : Closure) (x : Context) :
    Execute impl (n + 1) (Statement.Add l r) c x =
      andThen (EvalBoth (Execute impl n) l r c x) fun p c1 x1 =>
        match p.1, p.2 with
        | Value.Number a, Value.Number b => some (Outcome.ok (Value.Number (wrapInt (a + b))), c1, x1)
        | Value.String a, Value.String b => some (Outcome.ok (Value.String (a ++ b)), c1, x1)
        | Value.ClassInstance id cls, rhs =>
          withClosure c1 (Call (Execute impl n) id cls "__add__" [rhs] x1)
        | _, _ => some (Outcome.error "Add error", c1, x1) := rfl

/-- Claim C19. `Add` dispatches on its evaluated operands: two `Number`s give their sum
as `int` addition computes it (the exact sum whenever that is an `int`), two `String`s
their concatenation (left then right); otherwise a left operand that is an instance
gives the result of its `__add__` called with the right operand as the single argument,
which fails with method-not-found when the class has no `__add__` with one parameter;
every remaining case fails. -/
theorem Add_dispatch (impl : Impl) (n : Nat) (l r : Statement) (c c1 c2 : Closure)
    (x x1 x2 : Context) (a b : Value)
    (hl : Execute impl n l c x = some (Outcome.ok a, c1, x1))
    (hr : Execute impl n r c1 x1 = some (Outcome.ok b, c2, x2)) :
    (∀ i j : Int, a = Value.Number i → b = Value.Number j →
      Execute impl (n + 1) (Statement.Add l r) c x =
        some (Outcome.ok (Value.Number (wrapInt (i + j))), c2, x2) ∧
      (IsInt (i + j) →
        Execute impl (n + 1) (Statement.Add l r) c x =
          some (Outcome.ok (Value.Number (i + j)), c2, x2))) ∧
    (∀ s t : String, a = Value.String s → b = Value.String t →
      Execute impl (n + 1) (Statement.Add l r) c x =
        some (Outcome.ok (Value.String (s ++ t)), c2, x2)) ∧
    (∀ (id : Nat) (cls : Class), a = Value.ClassInstance id cls →
      Execute impl (n + 1) (Statement.Add l r) c x =
        withClosure c2 (Call (Execute impl n) id cls "__add__" [b] x2) ∧
      (HasMethod cls "__add__" 1 = false →
        Execute impl (n + 1) (Statement.Add l r) c x =
          some (Outcome.error (methodNotFound cls "__add__" 1), c2, x2))) ∧
    (a.instanceId = none → (a.asNumber = none ∨ b.asNumber = none) →
      (textOf a = none ∨ textOf b = none) →
      Execute impl (n + 1) (Statement.Add l r) c x =
        some (Outcome.error "Add error", c2, x2)) := by
  have he := EvalBoth_ok (Execute impl n) l r c c1 c2 x x1 x2 _ _ hl hr
  refine ⟨?_, ?_, ?_, ?_⟩
  · intro i j ha hb
    subst ha hb
    have hw : Execute impl (n + 1) (Statement.Add l r) c x =
        some (Outcome.ok (Value.Number (wrapInt (i + j))), c2, x2) := by
      rw [Execute_Add, he]
      rfl
    exact ⟨hw, fun hs => by rw [hw, wrapInt_of_isInt _ hs]⟩
  · intro s t ha hb
    subst ha hb
    rw [Execute_Add, he]
    rfl
  · intro id cls ha
    subst ha
    have hcall : Execute impl (n + 1) (Statement.Add l r) c x =
        withClosure c2 (Call (Execute impl n) id cls "__add__" [b] x2) := by
      rw [Execute_Add, he]
      rfl
    refine ⟨hcall, fun hm => ?_⟩
    rw [hcall, Call_missing _ id cls "__add__" [b] x2 hm]
    rfl
  · intro hi hn hs
    rw [Execute_Add, he]
    cases a <;> cases b <;>
      simp [Value.instanceId, Value.asNumber, textOf] at hi hn hs <;> rfl

/-- Instance of C19: `'ab' + 'c'` is `'abc'`, `1 + 2` is the exact sum, and
`2147483647 + 1`, whose exact sum is not an `int`, is `-2147483648`. -/
theorem Add_dispatch_witness :
    Execute Impl.sample (1 + 1)
        (Statement.Add (Statement.Const (Value.String "ab")) (Statement.Const (Value.String "c")))
        Closure.empty Context.start =
      some (Outcome.ok (Value.String ("ab" ++ "c")), Closure.empty, Context.start) ∧
    Execute Impl.sample (1 + 1)
        (Statement.Add (Statement.Const (Value.Number 1)) (Statement.Const (Value.Number 2)))
        Closure.empty Context.start =
      some (Outcome.ok (Value.Number (1 + 2)), Closure.empty, Context.start) ∧
    Execute Impl.sample (1 + 1)
        (Statement.Add (Statement.Const (Value.Number 2147483647))
          (Statement.Const (Value.Number 1)))
        Closure.empty Context.start =
      some (Outcome.ok (Value.Number (wrapInt (2147483647 + 1))), Closure.empty,
        Context.start) ∧
    wrapInt (2147483647 + 1) = -2147483648 :=
  ⟨(Add_dispatch Impl.sample 1 (Statement.Const (Value.String "ab"))
      (Statement.Const (Value.String "c")) Closure.empty Closure.empty Closure.empty
      Context.start Context.start Context.start (Value.String "ab") (Value.String "c")
      rfl rfl).2.1 "ab" "c" rfl rfl,
    ((Add_dispatch Impl.sample 1 (Statement.Const (Value.Number 1))
      (Statement.Const (Value.Number 2)) Closure.empty Closure.empty Closure.empty
      Context.start Context.start Context.start (Value.Number 1) (Value.Number 2)
      rfl rfl).1 1 2 rfl rfl).2 (by decide),
    ((Add_dispatch Impl.sample 1 (Statement.Const (Value.Number 2147483647))
      (Statement.Const (Value.Number 1)) Closure.empty Closure.empty Closure.empty
      Context.start Context.start Context.start (Value.Number 2147483647) (Value.Number 1)
      rfl rfl).1 2147483647 1 rfl rfl).1,
    by decide⟩

theorem Execute_Or (impl : Impl) (n : Nat) (l r : Statement) (c : Closure) (x : Context) :
    Execute impl (n + 1) (Statement.Or l r) c x =
      andThen (Execute impl n l c x) fun a c1 x1 =>
        if IsTrue a then some (Outcome.ok (Value.Bool true), c1, x1)
        else
          andThen (Execute impl n r c1 x1) fun b c2 x2 =>
            some (Outcome.ok (Value.Bool (IsTrue b)), c2, x2) := rfl

theorem Execute_And (impl : Impl) (n : Nat) (l r : Statement) (c : Closure) (x : Context) :
    Execute impl (n + 1) (Statement.And l r) c x =
      andThen (Execute impl n l c x) fun a c1 x1 =>
        if IsTrue a then
          andThen (Execute impl n r c1 x1) fun b c2 x2 =>
            some (Outcome.ok (Value.Bool (IsTrue b)), c2, x2)
        else some (Outcome.ok (Value.Bool false), c1, x1) := rfl

theorem Execute_Not (impl : Impl) (n : Nat) (a : Statement) (c : Closure) (x : Context) :
    Execute impl (n + 1) (Statement.Not a) c x =
      andThen (Execute impl n a c x) fun b c1 x1 =>
        some (Outcome.ok (Value.Bool (!IsTrue b)), c1, x1) := rfl

theorem boolean_result_is_Bool (impl : Impl) (m : Nat) (s l r : Statement)
    (hs : s = Statement.Or l r ∨ s = Statement.And l r ∨ s = Statement.Not l)
    (c c1 : Closure) (x x1 : Context) (v : Value)
    (h : Execute impl m s c x = some (Outcome.ok v, c1, x1)) : ∃ b : Bool, v = Value.Bool b := by
  cases m with
  | zero => simp [Execute] at h
  | succ n =>
    rcases hs with hs | hs | hs <;> subst hs
    · rw [Execute_Or] at h
      obtain ⟨a, ca, xa, _, h2⟩ := andThen_ok _ _ _ _ _ h
      split at h2
      · simp only [Option.some.injEq, Prod.mk.injEq, Outcome.ok.injEq] at h2
        exact ⟨true, h2.1.symm⟩
      · obtain ⟨b, cb, xb, _, h3⟩ := andThen_ok _ _ _ _ _ h2
        simp only [Option.some.injEq, Prod.mk.injEq, Outcome.ok.injEq] at h3
        exact ⟨IsTrue b, h3.1.symm⟩
    · rw [Execute_And] at h
      obtain ⟨a, ca, xa, _, h2⟩ := andThen_ok _ _ _ _ _ h
      split at h2
      · obtain ⟨b, cb, xb, _, h3⟩ := andThen_ok _ _ _ _ _ h2
        simp only [Option.some.injEq, Prod.mk.injEq, Outcome.ok.injEq] at h3
        exact ⟨IsTrue b, h3.1.symm⟩
      · simp only [Option.some.injEq, Prod.mk.injEq, Outcome.ok.injEq] at h2
        exact ⟨false, h2.1.symm⟩
    · rw [Execute_Not] at h
      obtain ⟨a, ca, xa, _, h2⟩ := andThen_ok _ _ _ _ _ h
      simp only [Option.some.injEq, Prod.mk.injEq, Outcome.ok.injEq] at h2
      exact ⟨!IsTrue a, h2.1.symm⟩

/-- Claim C20. `Or`, `And` and `Not` return only `Bool`s and short-circuit.  With the left
operand evaluated to `a`: `Or` is `Bool true` when `IsTrue a`, leaving exactly the closure
and context the left operand left, whatever the right operand is (it is not evaluated,
so none of its output, assignments or errors occur), and `Bool (IsTrue b)` of the right
operand's value otherwise; `And` is `Bool false` when `IsTrue a` fails, again without
evaluating the right operand, and `Bool (IsTrue b)` otherwise; `Not` is
`Bool (not IsTrue a)`. -/
theorem boolean_short_circuit (impl : Impl) (n : Nat) (l r : Statement) (c c1 : Closure)
    (x x1 : Context) (a : Value)
    (hl : Execute impl n l c x = some (Outcome.ok a, c1, x1)) :
    (IsTrue a = true →
      Execute impl (n + 1) (Statement.Or l r) c x =
        some (Outcome.ok (Value.Bool true), c1, x1)) ∧
    (IsTrue a = false →
      Execute impl (n + 1) (Statement.Or l r) c x =
        andThen (Execute impl n r c1 x1) fun b c2 x2 =>
          some (Outcome.ok (Value.Bool (IsTrue b)), c2, x2)) ∧
    (IsTrue a = false →
      Execute impl (n + 1) (Statement.And l r) c x =
        some (Outcome.ok (Value.Bool false), c1, x1)) ∧
    (IsTrue a = true →
      Execute impl (n + 1) (Statement.And l r) c x =
        andThen (Execute impl n r c1 x1) fun b c2 x2 =>
          some (Outcome.ok (Value.Bool (IsTrue b)), c2, x2)) ∧
    Execute impl (n + 1) (Statement.Not l) c x =
      some (Outcome.ok (Value.Bool (!IsTrue a)), c1, x1) ∧
    (∀ (m : Nat) (s : Statement) (c0 c3 : Closure) (x0 x3 : Context) (v : Value),
      s = Statement.Or l r ∨ s = Statement.And l r ∨ s = Statement.Not l →
      Execute impl m s c0 x0 = some (Outcome.ok v, c3, x3) → ∃ b : Bool, v = Value.Bool b) := by
  refine ⟨?_, ?_, ?_, ?_, ?_, ?_⟩
  · intro h
    rw [Execute_Or, hl]
    simp [andThen, h]
  · intro h
    rw [Execute_Or, hl]
    simp [andThen, h]
  · intro h
    rw [Execute_And, hl]
    simp [andThen, h]
  · intro h
    rw [Execute_And, hl]
    simp [andThen, h]
  · rw [Execute_Not, hl]
    rfl
  · intro m s c0 c3 x0 x3 v hs h
    exact boolean_result_is_Bool impl m s l r hs c0 c3 x0 x3 v h

/-- Instance of C20: in `1 or (1 / 0)` the division is not evaluated. -/
theorem boolean_short_circuit_witness :
    Execute Impl.sample (1 + 1)
        (Statement.Or (Statement.Const (Value.Number 1))
          (Statement.Div (Statement.Const (Value.Number 1)) (Statement.Const (Value.Number 0))))
        Closure.empty Context.start =
      some (Outcome.ok (Value.Bool true), Closure.empty, Context.start) :=
  (boolean_short_circuit Impl.sample 1 (Statement.Const (Value.Number 1))
    (Statement.Div (Statement.Const (Value.Number 1)) (Statement.Const (Value.Number 0)))
    Closure.empty Closure.empty Context.start Context.start (Value.Number 1) rfl).1 rfl

/-- Claim C21. `IsTrue` is exactly: a `Number` is true iff it is not 0, a `Bool` is true
iff it holds `true`, a `String` is true iff it is not empty, and `None`, every class and
every instance, whatever its class (so whatever its methods; the fields are not even an
input), are false. -/
theorem IsTrue_exactly :
    (∀ n : Int, IsTrue (Value.Number n) = true ↔ n ≠ 0) ∧
    (∀ b : Bool, IsTrue (Value.Bool b) = b) ∧
    (∀ s : String, IsTrue (Value.String s) = true ↔ s ≠ "") ∧
    (∀ s : String, IsTrue (Value.String s) = true ↔ s.length ≠ 0) ∧
    IsTrue Value.None = false ∧
    (∀ cls : Class, IsTrue (Value.Class cls) = false) ∧
    (∀ (id : Nat) (cls : Class), IsTrue (Value.ClassInstance id cls) = false) := by
  refine ⟨fun n => by simp [IsTrue], fun b => rfl, fun s => by simp [IsTrue], fun s => ?_,
    rfl, fun _ => rfl, fun _ _ => rfl⟩
  have h : s.length = 0 ↔ s = "" := by
    rcases s with ⟨l⟩
    cases l with
    | nil => exact ⟨fun _ => rfl, fun _ => rfl⟩
    | cons a t =>
      exact ⟨fun h => by simp [String.length] at h,
        fun h => by have h2 := congrArg String.length h; simp [String.length] at h2⟩
  simp [IsTrue, h]

/-- Claim C26. When method lookup finds no `__init__` whose parameter count equals the
number of arguments (none at all, or one of another arity), `NewInstance` returns its
instance and leaves the closure and the context as they were, whatever the argument
expressions are: none of them is evaluated (one level of fuel suffices, which no nested
`Execute` could use) and no `__init__` runs. -/
theorem NewInstance_without_init (impl : Impl) (n id : Nat) (cls : Class)
    (args : List Statement) (c : Closure) (x : Context)
    (h : ∀ mtd, cls.GetMethod "__init__" = some mtd → mtd.formal_params.length ≠ args.length) :
    HasMethod cls "__init__" args.length = false ∧
    Execute impl (n + 1) (Statement.NewInstance id cls args) c x =
      some (Outcome.ok (Value.ClassInstance id cls), c, x) := by
  have hm : HasMethod cls "__init__" args.length = false := by
    unfold HasMethod
    rcases hg : cls.GetMethod "__init__" with _ | mtd
    · rfl
    · simpa using h mtd hg
  exact ⟨hm, by rw [Execute_NewInstance, hm]; rfl⟩

/-- Instance of C26: `Point(1 / 0)` with an `__init__` of two parameters, and `Box(y)` with
no `__init__` and `y` undefined; neither the division nor the lookup of `y` happens. -/
theorem NewInstance_without_init_witness :
    (HasMethod pointClass "__init__" 1 = false ∧
      Execute Impl.sample 1
          (Statement.NewInstance 0 pointClass
            [Statement.Div (Statement.Const (Value.Number 1)) (Statement.Const (Value.Number 0))])
          Closure.empty Context.start =
        some (Outcome.ok (Value.ClassInstance 0 pointClass), Closure.empty, Context.start)) ∧
    (HasMethod boxClass "__init__" 1 = false ∧
      Execute Impl.sample 1
          (Statement.NewInstance 1 boxClass [Statement.VariableValue "y" []])
          Closure.empty Context.start =
        some (Outcome.ok (Value.ClassInstance 1 boxClass), Closure.empty, Context.start)) :=
  ⟨NewInstance_without_init Impl.sample 0 0 pointClass
      [Statement.Div (Statement.Const (Value.Number 1)) (Statement.Const (Value.Number 0))]
      Closure.empty Context.start (by decide),
    NewInstance_without_init Impl.sample 0 1 boxClass [Statement.VariableValue "y" []]
      Closure.empty Context.start (by decide)⟩

theorem ExecAll_error (ex : Exec) :
    ∀ (pre : List Statement) (bad : Statement) (post : List Statement) (msg : String)
      (v : Value) (c c1 c2 : Closure) (x x1 x2 : Context),
      ExecAll ex pre c x = some (Outcome.ok v, c1, x1) →
      ex bad c1 x1 = some (Outcome.error msg, c2, x2) →
      ExecAll ex (pre ++ bad :: post) c x = some (Outcome.error msg, c2, x2) := by
  intro pre
  induction pre with
  | nil =>
    intro bad post msg v c c1 c2 x x1 x2 hpre hbad
    simp only [ExecAll] at hpre
    cases hpre
    simp only [List.nil_append, ExecAll, hbad, andThen]
  | cons s rest ih =>
    intro bad post msg v c c1 c2 x x1 x2 hpre hbad
    simp only [List.cons_append, ExecAll] at hpre ⊢
    rcases hs : ex s c x with _ | ⟨o, c3, x3⟩
    · simp [hs, andThen] at hpre
    · cases o with
      | ok a =>
        simp only [hs, andThen] at hpre ⊢
        exact ih bad post msg v c3 c1 c2 x3 x1 x2 hpre hbad
      | returned w => simp [hs, andThen] at hpre
      | error m => simp [hs, andThen] at hpre

/-- Claim C24. If the children of a `Compound` before the k-th complete normally and the
k-th fails with a runtime error, the `Compound` fails with that error in the closure and
context the k-th child left, whatever the later children are: none of them is executed
and nothing they would print is written.  A `MethodBody` or an `IfElse` around a
statement that fails with an error fails with the same error and state (for `IfElse`:
the branch chosen by the condition, with or without an `else` branch beside it, or
the condition itself); `MethodBody` turns only a
`Return` into a normal result, so its outcome is an error exactly when its body's is. -/
theorem error_aborts (impl : Impl) (n : Nat) (pre post : List Statement) (bad : Statement)
    (msg : String) (v : Value) (c c1 c2 : Closure) (x x1 x2 : Context)
    (hpre : Execute impl (n + 1) (Statement.Compound pre) c x = some (Outcome.ok v, c1, x1))
    (hbad : Execute impl n bad c1 x1 = some (Outcome.error msg, c2, x2)) :
    Execute impl (n + 1) (Statement.Compound (pre ++ bad :: post)) c x =
        some (Outcome.error msg, c2, x2) ∧
    Execute impl (n + 2) (Statement.MethodBody (Statement.Compound (pre ++ bad :: post))) c x =
        some (Outcome.error msg, c2, x2) ∧
    (∀ (m : Nat) (s : Statement) (o : Outcome Value) (c3 c4 : Closure) (x3 x4 : Context),
      Execute impl m s c3 x3 = some (o, c4, x4) →
      Execute impl (m + 1) (Statement.MethodBody s) c3 x3 = some (caught o, c4, x4) ∧
      ((∃ e, caught o = Outcome.error e) ↔ ∃ e, o = Outcome.error e)) ∧
    (∀ (m : Nat) (cond t : Statement) (e : Option Statement) (err : String)
      (c3 c4 : Closure) (x3 x4 : Context),
      Execute impl m cond c3 x3 = some (Outcome.error err, c4, x4) →
      Execute impl (m + 1) (Statement.IfElse cond t e) c3 x3 =
        some (Outcome.error err, c4, x4)) ∧
    (∀ (m : Nat) (cond t f : Statement) (w : Value) (err : String)
      (c3 c4 c5 : Closure) (x3 x4 x5 : Context),
      Execute impl m cond c3 x3 = some (Outcome.ok w, c4, x4) →
      Execute impl m (if IsTrue w then t else f) c4 x4 = some (Outcome.error err, c5, x5) →
      Execute impl (m + 1) (Statement.IfElse cond t (some f)) c3 x3 =
        some (Outcome.error err, c5, x5)) ∧
    (∀ (m : Nat) (cond t : Statement) (e : Option Statement) (w : Value) (err : String)
      (c3 c4 c5 : Closure) (x3 x4 x5 : Context),
      Execute impl m cond c3 x3 = some (Outcome.ok w, c4, x4) →
      IsTrue w = true →
      Execute impl m t c4 x4 = some (Outcome.error err, c5, x5) →
      Execute impl (m + 1) (Statement.IfElse cond t e) c3 x3 =
        some (Outcome.error err, c5, x5)) := by
  have h1 : Execute impl (n + 1) (Statement.Compound (pre ++ bad :: post)) c x =
      some (Outcome.error msg, c2, x2) := by
    rw [Execute_Compound] at hpre ⊢
    exact ExecAll_error _ pre bad post msg v c c1 c2 x x1 x2 hpre hbad
  refine ⟨h1, ?_, ?_, ?_, ?_, ?_⟩
  · rw [Execute_MethodBody, h1]
  · intro m s o c3 c4 x3 x4 h
    rw [Execute_MethodBody, h]
    cases o <;> simp [caught]
  · intro m cond t e err c3 c4 x3 x4 h
    rw [Execute_IfElse, h]
    rfl
  · intro m cond t f w err c3 c4 c5 x3 x4 x5 h hb
    rw [Execute_IfElse, h]
    simp only [andThen]
    split_ifs with hw
    · simpa [hw] using hb
    · simpa [hw] using hb
  · intro m cond t e w err c3 c4 c5 x3 x4 x5 h hw hb
    rw [Execute_IfElse, h]
    simp only [andThen, hw, if_true]
    exact hb

/-- Instance of C24 on `print 1`, `1 / 0`, `print 2`: the division fails after `1` was
printed, `2` is never printed, and a `MethodBody` around the block fails the same way;
an `if True:` without `else` around `1 / 0` fails with the error of the division. -/
theorem error_aborts_witness :
    Execute Impl.sample 4
        (Statement.Compound
          [Statement.Print [Statement.Const (Value.Number 1)],
            Statement.Div (Statement.Const (Value.Number 1)) (Statement.Const (Value.Number 0)),
            Statement.Print [Statement.Const (Value.Number 2)]])
        Closure.empty Context.start =
      some (Outcome.error "Divison by zero", Closure.empty,
        (Context.start.write "1").write "\n") ∧
    Execute Impl.sample 5
        (Statement.MethodBody (Statement.Compound
          [Statement.Print [Statement.Const (Value.Number 1)],
            Statement.Div (Statement.Const (Value.Number 1)) (Statement.Const (Value.Number 0)),
            Statement.Print [Statement.Const (Value.Number 2)]]))
        Closure.empty Context.start =
      some (Outcome.error "Divison by zero", Closure.empty,
        (Context.start.write "1").write "\n") ∧
    ((Context.start.write "1").write "\n").output = "1\n" ∧
    Execute Impl.sample 4
        (Statement.IfElse (Statement.Const (Value.Bool true))
          (Statement.Div (Statement.Const (Value.Number 1)) (Statement.Const (Value.Number 0)))
          none)
        Closure.empty Context.start =
      some (Outcome.error "Divison by zero", Closure.empty, Context.start) :=
  ⟨(error_aborts Impl.sample 3 [Statement.Print [Statement.Const (Value.Number 1)]]
      [Statement.Print [Statement.Const (Value.Number 2)]]
      (Statement.Div (Statement.Const (Value.Number 1)) (Statement.Const (Value.Number 0)))
      "Divison by zero" Value.None Closure.empty Closure.empty Closure.empty Context.start
      ((Context.start.write "1").write "\n") ((Context.start.write "1").write "\n")
      rfl rfl).1,
    (error_aborts Impl.sample 3 [Statement.Print [Statement.Const (Value.Number 1)]]
      [Statement.Print [Statement.Const (Value.Number 2)]]
      (Statement.Div (Statement.Const (Value.Number 1)) (Statement.Const (Value.Number 0)))
      "Divison by zero" Value.None Closure.empty Closure.empty Closure.empty Context.start
      ((Context.start.write "1").write "\n") ((Context.start.write "1").write "\n")
      rfl rfl).2.1,
    by decide,
    (error_aborts Impl.sample 3 [Statement.Print [Statement.Const (Value.Number 1)]]
      [Statement.Print [Statement.Const (Value.Number 2)]]
      (Statement.Div (Statement.Const (Value.Number 1)) (Statement.Const (Value.Number 0)))
      "Divison by zero" Value.None Closure.empty Closure.empty Closure.empty Context.start
      ((Context.start.write "1").write "\n") ((Context.start.write "1").write "\n")
      rfl rfl).2.2.2.2.2 3 (Statement.Const (Value.Bool true))
      (Statement.Div (Statement.Const (Value.Number 1)) (Statement.Const (Value.Number 0)))
      none (Value.Bool true) "Divison by zero" Closure.empty Closure.empty Closure.empty
      Context.start Context.start Context.start rfl rfl rfl⟩

theorem tokensFrom_lexersFrom (fuel : Nat) :
    ∀ lx : Lexer, (tokensFrom fuel lx).map (fun r => r.1) =
      (lexersFrom fuel lx).map (fun ls => ls.map Lexer.CurrentToken) := by
  induction fuel with
  | zero => intro lx; rfl
  | succ n ih =>
    intro lx
    unfold tokensFrom lexersFrom
    split_ifs with hn
    · simp [hn]
    · rcases hp : lx.NextToken n with _ | l2
      · simp
      · have h2 := ih l2
        rcases hr : tokensFrom n l2 with _ | r
        · rcases hl : lexersFrom n l2 with _ | ls
          · simp [hr, hl]
          · simp [hr, hl] at h2
        · rcases hl : lexersFrom n l2 with _ | ls
          · simp [hr, hl] at h2
          · simp only [hr, hl, Option.map_some', Option.some.injEq] at h2
            simp [hr, hl, h2]

theorem lexersFrom_counter (fuel : Nat) :
    ∀ (lx : Lexer) (ls : List Lexer), lx.IndentOk → lexersFrom fuel lx = some ls →
      ∀ (k : Nat) (lxk : Lexer), ls[k]? = some lxk →
        lxk.IndentOk ∧
        lxk.current_indent_ = lx.current_indent_ - indentDelta lx.current_token_ +
          sumDelta ((ls.map Lexer.CurrentToken).take (k + 1)) := by
  induction fuel with
  | zero => intro lx ls _ h; simp [lexersFrom] at h
  | succ n ih =>
    intro lx ls hok h k lxk hk
    unfold lexersFrom Lexer.CurrentToken Lexer.NextToken at h
    split_ifs at h with hn
    · cases h
      cases k with
      | zero =>
        simp at hk
        subst hk
        refine ⟨hok, ?_⟩
        simp [sumDelta, Lexer.CurrentToken]
      | succ j => simp at hk
    · rcases hp : ParseNextToken n lx with _ | l2
      · simp [hp] at h
      · rcases hr : lexersFrom n l2 with _ | r
        · simp [hp, hr] at h
        · simp [hp, hr] at h
          subst h
          obtain ⟨a, b, _⟩ := ParseNextToken_stepOk n lx l2 hp
          cases k with
          | zero =>
            simp at hk
            subst hk
            refine ⟨hok, ?_⟩
            simp [sumDelta, Lexer.CurrentToken]
          | succ j =>
            simp at hk
            obtain ⟨i1, i2⟩ := ih l2 r (a hok) hr j lxk hk
            refine ⟨i1, ?_⟩
            rw [i2, b]
            simp [sumDelta, Lexer.CurrentToken]
            ring

theorem lexersAfter_counter (fuel : Nat) :
    ∀ (k : Nat) (lx : Lexer) (ls : List Lexer), lx.IndentOk →
      lexersAfter fuel k lx = some ls →
      ∀ (j : Nat) (lxj : Lexer), ls[j]? = some lxj →
        lxj.IndentOk ∧
        lxj.current_indent_ = lx.current_indent_ - indentDelta lx.current_token_ +
          sumDelta ((ls.map Lexer.CurrentToken).take (j + 1)) := by
  intro k
  induction k with
  | zero =>
    intro lx ls hok h j lxj hj
    simp only [lexersAfter, Option.some.injEq] at h
    subst h
    cases j with
    | zero =>
      simp at hj
      subst hj
      exact ⟨hok, by simp [sumDelta, Lexer.CurrentToken]⟩
    | succ i => simp at hj
  | succ k ih =>
    intro lx ls hok h j lxj hj
    unfold lexersAfter Lexer.NextToken at h
    rcases hp : ParseNextToken fuel lx with _ | l2
    · simp [hp] at h
    · rcases hr : lexersAfter fuel k l2 with _ | r
      · simp [hp, hr] at h
      · simp [hp, hr] at h
        subst h
        obtain ⟨a, b, _⟩ := ParseNextToken_stepOk fuel lx l2 hp
        cases j with
        | zero =>
          simp at hj
          subst hj
          exact ⟨hok, by simp [sumDelta, Lexer.CurrentToken]⟩
        | succ i =>
          simp at hj
          obtain ⟨i1, i2⟩ := ih l2 r (a hok) hr i lxj hj
          refine ⟨i1, ?_⟩
          rw [i2, b]
          simp [sumDelta, Lexer.CurrentToken]
          ring

theorem prefix_of_counter (ls : List Lexer)
    (key : ∀ (j : Nat) (lxj : Lexer), ls[j]? = some lxj →
      0 ≤ lxj.current_indent_ ∧
      lxj.current_indent_ =
        (((ls.map Lexer.CurrentToken).take (j + 1)).count Token.Indent : Int) -
          (((ls.map Lexer.CurrentToken).take (j + 1)).count Token.Dedent : Int)) :
    ∀ p : List Token, p <+: ls.map Lexer.CurrentToken →
      p.count Token.Dedent ≤ p.count Token.Indent := by
  intro p hp
  rcases Nat.eq_zero_or_pos p.length with h0 | h0
  · have : p = [] := List.length_eq_zero.mp h0
    simp [this]
  · have hlen : p.length ≤ (ls.map Lexer.CurrentToken).length := hp.length_le
    have hp2 : p = (ls.map Lexer.CurrentToken).take p.length :=
      List.prefix_iff_eq_take.mp hp
    have hk : p.length - 1 < ls.length := by
      have : (ls.map Lexer.CurrentToken).length = ls.length := by simp
      omega
    obtain ⟨k1, k2⟩ := key (p.length - 1) (ls.get ⟨p.length - 1, hk⟩)
      (List.getElem?_eq_getElem hk)
    have e : p.length - 1 + 1 = p.length := by omega
    rw [e, ← hp2] at k2
    omega

/-- Claim C25. For every source, behind each token the lexer hands out (the token after
construction and the result of each later call of `NextToken`) stands a lexer state
whose `current_indent_` is non-negative and equals the number of `Indent`s minus the
number of `Dedent`s handed out up to and including that token; so every prefix of the
token sequence has at most as many `Dedent`s as `Indent`s.  This holds for any number
`k` of calls, and in particular for the sequence up to the first `Eof`. -/
theorem dedent_never_ahead (start : Start) (fuel : Nat) (input : List Char) :
    (∀ (k : Nat) (ls : List Lexer),
      (Lexer.new start fuel input).bind (lexersAfter fuel k) = some ls →
      (∀ (j : Nat) (lxj : Lexer), ls[j]? = some lxj →
        0 ≤ lxj.current_indent_ ∧
        lxj.current_indent_ =
          (((ls.map Lexer.CurrentToken).take (j + 1)).count Token.Indent : Int) -
            (((ls.map Lexer.CurrentToken).take (j + 1)).count Token.Dedent : Int)) ∧
      ∀ p : List Token, p <+: ls.map Lexer.CurrentToken →
        p.count Token.Dedent ≤ p.count Token.Indent) ∧
    (∀ ts : List Token, tokenize start fuel input = some ts →
      ∀ p : List Token, p <+: ts → p.count Token.Dedent ≤ p.count Token.Indent) := by
  constructor
  · intro k ls h
    rcases hl : Lexer.new start fuel input with _ | lx
    · simp [hl] at h
    · simp only [hl, Option.some_bind] at h
      obtain ⟨f1, f2, _⟩ := Lexer.new_fresh start fuel input lx hl
      have key : ∀ (j : Nat) (lxj : Lexer), ls[j]? = some lxj →
          0 ≤ lxj.current_indent_ ∧
          lxj.current_indent_ =
            (((ls.map Lexer.CurrentToken).take (j + 1)).count Token.Indent : Int) -
              (((ls.map Lexer.CurrentToken).take (j + 1)).count Token.Dedent : Int) := by
        intro j lxj hj
        obtain ⟨i1, i2⟩ := lexersAfter_counter fuel k lx ls f1 h j lxj hj
        refine ⟨i1.2, ?_⟩
        rw [i2, f2, sumDelta_count]
        ring
      exact ⟨key, prefix_of_counter ls key⟩
  · intro ts h
    unfold tokenize at h
    rcases hl : Lexer.new start fuel input with _ | lx
    · simp [hl] at h
    · rcases hr : tokensFrom fuel lx with _ | r
      · simp [hl, hr] at h
      · simp [hl, hr] at h
        have h2 := tokensFrom_lexersFrom fuel lx
        rcases hs : lexersFrom fuel lx with _ | ls
        · simp [hr, hs] at h2
        · simp only [hr, hs, Option.map_some', Option.some.injEq] at h2
          rw [h] at h2
          obtain ⟨f1, f2, _⟩ := Lexer.new_fresh start fuel input lx hl
          have key : ∀ (j : Nat) (lxj : Lexer), ls[j]? = some lxj →
              0 ≤ lxj.current_indent_ ∧
              lxj.current_indent_ =
                (((ls.map Lexer.CurrentToken).take (j + 1)).count Token.Indent : Int) -
                  (((ls.map Lexer.CurrentToken).take (j + 1)).count Token.Dedent : Int) := by
            intro j lxj hj
            obtain ⟨i1, i2⟩ := lexersFrom_counter fuel lx ls f1 hs j lxj hj
            refine ⟨i1.2, ?_⟩
            rw [i2, f2, sumDelta_count]
            ring
          rw [h2]
          exact prefix_of_counter ls key

/-- Instance of C25 on a program with two nested blocks closed at the end of input, and
on the first four tokens of a source whose string literal is never closed. -/
theorem dedent_never_ahead_witness :
    (tokenize Start.sample 40 "if a:\n  if b:\n    c\n".toList =
        some [Token.If, Token.Id ['a'], Token.Char ':', Token.Newline, Token.Indent,
          Token.If, Token.Id ['b'], Token.Char ':', Token.Newline, Token.Indent,
          Token.Id ['c'], Token.Newline, Token.Dedent, Token.Dedent, Token.Eof] ∧
      ∀ p : List Token,
        p <+: [Token.If, Token.Id ['a'], Token.Char ':', Token.Newline, Token.Indent,
          Token.If, Token.Id ['b'], Token.Char ':', Token.Newline, Token.Indent,
          Token.Id ['c'], Token.Newline, Token.Dedent, Token.Dedent, Token.Eof] →
        p.count Token.Dedent ≤ p.count Token.Indent) ∧
    (((Lexer.new Start.sample 20 "a\n  b 'c".toList).bind (lexersAfter 20 3)).map
        (fun ls => ls.map Lexer.CurrentToken) =
        some [Token.Id ['a'], Token.Newline, Token.Indent, Token.Id ['b']] ∧
      ∀ p : List Token,
        p <+: [Token.Id ['a'], Token.Newline, Token.Indent, Token.Id ['b']] →
        p.count Token.Dedent ≤ p.count Token.Indent) :=
  ⟨⟨by decide, (dedent_never_ahead Start.sample 40 "if a:\n  if b:\n    c\n".toList).2 _ (by decide)⟩,
    ⟨by decide, fun p hp =>
      match h : (Lexer.new Start.sample 20 "a\n  b 'c".toList).bind (lexersAfter 20 3) with
      | some ls =>
        ((dedent_never_ahead Start.sample 20 "a\n  b 'c".toList).1 3 ls h).2 p
          (by
            have e : ls.map Lexer.CurrentToken =
                [Token.Id ['a'], Token.Newline, Token.Indent, Token.Id ['b']] := by
              have d : ((Lexer.new Start.sample 20 "a\n  b 'c".toList).bind (lexersAfter 20 3)).map
                  (fun ls => ls.map Lexer.CurrentToken) =
                  some [Token.Id ['a'], Token.Newline, Token.Indent, Token.Id ['b']] := by
                decide
              rw [h] at d
              simpa using d
            rw [e]
            exact hp)
      | none => absurd h (by decide)⟩⟩

theorem PrintArgs_step (impl : Impl) (n : Nat) (first : Bool) (arg : Statement)
    (rest : List Statement) (c : Closure) (x : Context) :
    PrintArgs impl (Execute impl n) n first (arg :: rest) c x =
      andThen (Execute impl n arg c (if first then x else x.write " ")) fun v c1 x1 =>
        andThen (PrintValue impl (Execute impl n) n v c1 x1) fun text c2 x2 =>
          PrintArgs impl (Execute impl n) n false rest c2 (x2.write text) := by
  rw [PrintArgs]
  rcases Execute impl n arg c (if first then x else x.write " ") with _ | ⟨o, c1, x1⟩
  · rfl
  · cases o with
    | ok v => cases v <;> rfl
    | returned v => rfl
    | error m => rfl

theorem andThen_assoc {α β γ : Type} (r : Option (Outcome α × Closure × Context))
    (k1 : α → Closure → Context → Option (Outcome β × Closure × Context))
    (k2 : β → Closure → Context → Option (Outcome γ × Closure × Context)) :
    andThen (andThen r k1) k2 = andThen r fun a c x => andThen (k1 a c x) k2 := by
  rcases r with _ | ⟨o, c, x⟩
  · rfl
  · cases o <;> rfl

theorem andThen_pure {α β : Type} (a : α) (c : Closure) (x : Context)
    (k : α → Closure → Context → Option (Outcome β × Closure × Context)) :
    andThen (some (Outcome.ok a, c, x)) k = k a c x := rfl

theorem andThen_congr {α β : Type} (r : Option (Outcome α × Closure × Context))
    (k1 k2 : α → Closure → Context → Option (Outcome β × Closure × Context))
    (h : ∀ a c x, k1 a c x = k2 a c x) : andThen r k1 = andThen r k2 := by
  have : k1 = k2 := by funext a c x; exact h a c x
  rw [this]

theorem EvalBoth_then {β : Type} (ex : Exec) (l r : Statement) (c : Closure) (x : Context)
    (k : Value × Value → Closure → Context → Option (Outcome β × Closure × Context)) :
    andThen (EvalBoth ex l r c x) k =
      andThen (ex l c x) fun a c1 x1 =>
        andThen (ex r c1 x1) fun b c2 x2 => k (a, b) c2 x2 := by
  unfold EvalBoth
  simp only [andThen_assoc, andThen_pure]

theorem EvalArgs_split (ex : Exec) (arg : Statement) (post : List Statement) :
    ∀ (pre : List Statement) (c : Closure) (x : Context),
      EvalArgs ex (pre ++ arg :: post) c x =
        andThen (EvalArgs ex pre c x) fun vs c1 x1 =>
          andThen (ex arg c1 x1) fun v c2 x2 =>
            andThen (EvalArgs ex post c2 x2) fun ws c3 x3 =>
              some (Outcome.ok (vs ++ v :: ws), c3, x3) := by
  intro pre
  induction pre with
  | nil => intro c x; rfl
  | cons a pre ih =>
    intro c x
    show EvalArgs ex (a :: (pre ++ arg :: post)) c x = _
    simp only [EvalArgs, andThen_assoc, andThen_pure]
    exact andThen_congr _ _ _ fun v c1 x1 => by
      rw [ih, andThen_assoc]
      simp only [andThen_assoc, andThen_pure, List.cons_append]

theorem PrintLoop_split (impl : Impl) (ex : Exec) (n : Nat) (arg : Statement)
    (post : List Statement) :
    ∀ (pre : List Statement) (first : Bool) (c : Closure) (x : Context),
      PrintLoop impl ex n first (pre ++ arg :: post) c x =
        andThen (PrintLoop impl ex n first pre c x) fun f c1 x1 =>
          andThen (ex arg c1 (if f then x1 else x1.write " ")) fun v c2 x2 =>
            andThen (PrintValue impl ex n v c2 x2) fun text c3 x3 =>
              PrintLoop impl ex n false post c3 (x3.write text) := by
  intro pre
  induction pre with
  | nil => intro first c x; rfl
  | cons a pre ih =>
    intro first c x
    show PrintLoop impl ex n first (a :: (pre ++ arg :: post)) c x = _
    simp only [PrintLoop, andThen_assoc]
    exact andThen_congr _ _ _ fun v c1 x1 =>
      andThen_congr _ _ _ fun text c2 x2 => ih false c2 (x2.write text)

theorem PrintArgs_loop (impl : Impl) (n : Nat) :
    ∀ (args : List Statement) (first : Bool) (c : Closure) (x : Context),
      PrintArgs impl (Execute impl n) n first args c x =
        andThen (PrintLoop impl (Execute impl n) n first args c x) fun _ c1 x1 =>
          some (Outcome.ok Value.None, c1, x1.write "\n") := by
  intro args
  induction args with
  | nil => intro first c x; rfl
  | cons a rest ih =>
    intro first c x
    rw [PrintArgs_step]
    simp only [PrintLoop, andThen_assoc]
    exact andThen_congr _ _ _ fun v c1 x1 =>
      andThen_congr _ _ _ fun text c2 x2 => ih false c2 (x2.write text)

theorem Execute_MethodCall (impl : Impl) (n : Nat) (object : Statement) (method : String)
    (args : List Statement) (c : Closure) (x : Context) :
    Execute impl (n + 1) (Statement.MethodCall object method args) c x =
      andThen (Execute impl n object c x) fun obj c1 x1 =>
        match obj with
        | Value.ClassInstance id cls =>
          andThen (EvalArgs (Execute impl n) args c1 x1) fun actual_args c2 x2 =>
            withClosure c2 (Call (Execute impl n) id cls method actual_args x2)
        | _ => some (Outcome.error "Object is not a class", c1, x1) := rfl

theorem Execute_Comparison (impl : Impl) (n : Nat) (cmp : Comparator) (l r : Statement)
    (c : Closure) (x : Context) :
    Execute impl (n + 1) (Statement.Comparison cmp l r) c x =
      andThen (EvalBothCmp impl (Execute impl n) l r c x) fun p c1 x1 =>
        andThen (withClosure c1 (applyComparator cmp (Execute impl n) p.1 p.2 x1))
          fun result c2 x2 => some (Outcome.ok (Value.Bool result), c2, x2) := rfl

/-- Claim C23 on the code: `Comparison::Execute` evaluates its two operands as the
arguments of one call, `cmp_(lhs_->Execute(..), rhs_->Execute(..), context)`, and C++
leaves the order of these to the implementation.  With arguments evaluated right to
left, `x < 1 / 0` with `x` undefined fails with the error of the right operand, and
`Talk().left() < Talk().right()` prints `R` before `L`, where the claim has the left
operand first; `Add`, with one statement for each operand, prints `L` before `R` under
the same implementation. -/
theorem Comparison_right_operand_first :
    (Execute Impl.rightFirst 4
        (Statement.Comparison Comparator.Less (Statement.VariableValue "x" [])
          (Statement.Div (Statement.Const (Value.Number 1)) (Statement.Const (Value.Number 0))))
        Closure.empty Context.start).map (fun r => r.1.message?) =
      some (some "Divison by zero") ∧
    (Execute Impl.rightFirst 10
        (Statement.Comparison Comparator.Less
          (Statement.MethodCall (Statement.NewInstance 0 talkClass []) "left" [])
          (Statement.MethodCall (Statement.NewInstance 1 talkClass []) "right" []))
        Closure.empty Context.start).map (fun r => (r.1.message?, r.2.2.output)) =
      some (none, "R\nL\n") ∧
    (Execute Impl.rightFirst 10
        (Statement.Add
          (Statement.MethodCall (Statement.NewInstance 0 talkClass []) "left" [])
          (Statement.MethodCall (Statement.NewInstance 1 talkClass []) "right" []))
        Closure.empty Context.start).map (fun r => (r.1.message?, r.2.2.output)) =
      some (none, "L\nR\n") := by
  decide

/-- Order of evaluation in every node with more than one operand.  `Add`, `Sub`, `Mult`
and `Div` evaluate the left operand, then the right operand in the closure and context
the left one left, and act on the two values only after both succeeded; a failure of an
operand ends the node at once.  `Comparison` does the same in the order the
implementation chose for the arguments of a call.  `MethodCall` evaluates the receiver,
then (if it is an instance) the arguments, `NewInstance` with a matching `__init__` the
arguments, both with the loop `EvalArgs`; `Print` runs the loop `PrintLoop` and then
writes the newline.  Both loops handle the argument at any position after all arguments
before it, in the state these left, and before all the arguments after it. -/
theorem evaluation_order (impl : Impl) (n : Nat) :
    (∀ op ∈ [Statement.Add, Statement.Sub, Statement.Mult, Statement.Div],
      ∃ finish : Value → Value → Closure → Context → Option ExecResult,
        ∀ (l r : Statement) (c : Closure) (x : Context),
          Execute impl (n + 1) (op l r) c x =
            andThen (Execute impl n l c x) fun a c1 x1 =>
              andThen (Execute impl n r c1 x1) fun b c2 x2 => finish a b c2 x2) ∧
    (∀ cmp : Comparator,
      ∃ finish : Value → Value → Closure → Context → Option ExecResult,
        ∀ (l r : Statement) (c : Closure) (x : Context),
          Execute impl (n + 1) (Statement.Comparison cmp l r) c x =
            if impl.cmpRightFirst then
              andThen (Execute impl n r c x) fun b c1 x1 =>
                andThen (Execute impl n l c1 x1) fun a c2 x2 => finish a b c2 x2
            else
              andThen (Execute impl n l c x) fun a c1 x1 =>
                andThen (Execute impl n r c1 x1) fun b c2 x2 => finish a b c2 x2) ∧
    (∀ method : String,
      ∃ finish : Nat → Class → List Value → Closure → Context → Option ExecResult,
        ∀ (object : Statement) (args : List Statement) (c : Closure) (x : Context),
          Execute impl (n + 1) (Statement.MethodCall object method args) c x =
            andThen (Execute impl n object c x) fun obj c1 x1 =>
              match obj with
              | Value.ClassInstance id cls =>
                andThen (EvalArgs (Execute impl n) args c1 x1) (finish id cls)
              | _ => some (Outcome.error "Object is not a class", c1, x1)) ∧
    (∀ (id : Nat) (cls : Class),
      ∃ finish : List Value → Closure → Context → Option ExecResult,
        ∀ (args : List Statement) (c : Closure) (x : Context),
          HasMethod cls "__init__" args.length = true →
          Execute impl (n + 1) (Statement.NewInstance id cls args) c x =
            andThen (EvalArgs (Execute impl n) args c x) finish) ∧
    (∀ (args : List Statement) (c : Closure) (x : Context),
      Execute impl (n + 1) (Statement.Print args) c x =
        andThen (PrintLoop impl (Execute impl n) n true args c x) fun _ c1 x1 =>
          some (Outcome.ok Value.None, c1, x1.write "\n")) ∧
    (∀ (pre post : List Statement) (arg : Statement) (c : Closure) (x : Context),
      EvalArgs (Execute impl n) (pre ++ arg :: post) c x =
        andThen (EvalArgs (Execute impl n) pre c x) fun vs c1 x1 =>
          andThen (Execute impl n arg c1 x1) fun v c2 x2 =>
            andThen (EvalArgs (Execute impl n) post c2 x2) fun ws c3 x3 =>
              some (Outcome.ok (vs ++ v :: ws), c3, x3)) ∧
    (∀ (pre post : List Statement) (arg : Statement) (first : Bool) (c : Closure)
      (x : Context),
      PrintLoop impl (Execute impl n) n first (pre ++ arg :: post) c x =
        andThen (PrintLoop impl (Execute impl n) n first pre c x) fun f c1 x1 =>
          andThen (Execute impl n arg c1 (if f then x1 else x1.write " ")) fun v c2 x2 =>
            andThen (PrintValue impl (Execute impl n) n v c2 x2) fun text c3 x3 =>
              PrintLoop impl (Execute impl n) n false post c3 (x3.write text)) := by
  refine ⟨?_, ?_, ?_, ?_, ?_, ?_, ?_⟩
  · intro op hop
    simp only [List.mem_cons, List.mem_singleton, List.not_mem_nil, or_false] at hop
    rcases hop with h | h | h | h <;> subst h
    · exact ⟨_, fun l r c x => by rw [Execute_Add, EvalBoth_then]⟩
    · exact ⟨_, fun l r c x => by rw [Execute_Sub, EvalBoth_then]⟩
    · exact ⟨_, fun l r c x => by rw [Execute_Mult, EvalBoth_then]⟩
    · exact ⟨_, fun l r c x => by rw [Execute_Div, EvalBoth_then]⟩
  · intro cmp
    refine ⟨fun a b c2 x2 =>
      andThen (withClosure c2 (applyComparator cmp (Execute impl n) a b x2))
        fun result c3 x3 => some (Outcome.ok (Value.Bool result), c3, x3), ?_⟩
    intro l r c x
    rw [Execute_Comparison]
    unfold EvalBothCmp
    split_ifs with hc
    · simp only [andThen_assoc, andThen_pure]
    · rw [EvalBoth_then]
  · intro method
    exact ⟨fun id cls actual_args c2 x2 =>
      withClosure c2 (Call (Execute impl n) id cls method actual_args x2),
      fun object args c x => Execute_MethodCall impl n object method args c x⟩
  · intro id cls
    refine ⟨fun actual_args c1 x1 =>
      andThen (withClosure c1 (Call (Execute impl n) id cls "__init__" actual_args x1))
        fun _ c2 x2 => some (Outcome.ok (Value.ClassInstance id cls), c2, x2), ?_⟩
    intro args c x h
    rw [Execute_NewInstance, h]
    rfl
  · intro args c x
    rw [Execute_Print, PrintArgs_loop]
  · intro pre post arg c x
    exact EvalArgs_split _ arg post pre c x
  · intro pre post arg first c x
    exact PrintLoop_split impl _ n arg post pre first c x

/-- With `x` undefined, `x + 1 / 0` fails with the error of the left operand. -/
theorem evaluation_order_witness :
    Execute Impl.rightFirst 3
        (Statement.Add (Statement.VariableValue "x" [])
          (Statement.Div (Statement.Const (Value.Number 1)) (Statement.Const (Value.Number 0))))
        Closure.empty Context.start =
      some (Outcome.error "Variable x not found", Closure.empty, Context.start) := by
  obtain ⟨f, h⟩ := (evaluation_order Impl.rightFirst 2).1 Statement.Add (by simp)
  rw [h]
  rfl

end Mython
